import Mathlib

/-!
# OpenVDB AX: point code generation and volume execution

A shallow embedding of `openvdb_ax/codegen/PointComputeGenerator.cc` and
`openvdb_ax/compiler/VolumeExecutable.cc`, with the properties of the
natural-language specification stated against it.
-/

set_option autoImplicit false

namespace OpenVDBAX

/-! ## PointComputeGenerator::init: the generated range kernel -/

namespace PointKernel

/-- The argument keys of the point kernel, `PointKernel::argumentKeys()`. -/
def argumentKeys : List String :=
  ["custom_data", "attribute_set", "point_index", "attribute_handles", "group_handles",
   "leaf_data"]

/-- Name of the element kernel, `PointKernel::getDefaultName()`. -/
def getDefaultName : String := "compute_point"

end PointKernel

namespace PointRangeKernel

/-- Name of the range kernel, `PointRangeKernel::getDefaultName()`. -/
def getDefaultName : String := "compute_point_range"

end PointRangeKernel

/-- The position of the key "point_index" among the argument keys
(`std::find` followed by `std::distance` in `init`). -/
def argumentIndex : Nat := PointKernel.argumentKeys.indexOf "point_index"

/-- A 64-bit machine word: the result of an `i64` instruction. -/
def wrap64 (n : Nat) : Nat := n % 2 ^ 64

/-- The three basic blocks that `init` creates in the range function:
`entry_compute_point_range`, `loop_compute_point` and `post_loop_compute_point`. -/
inductive RangeBlock where
  | preLoop
  | loop
  | postLoop
  deriving DecidableEq, Repr

/-- The machine state of the range function between two basic blocks: the block about to
run, the block control came from (it selects the incoming value of the phi node `i`), the
registers `indexMinusOne` and `nextval`, and the calls of the element kernel made so far,
each recorded as its full argument vector. -/
structure RangeState where
  block : RangeBlock
  cameFrom : RangeBlock
  indexMinusOne : Nat
  next : Nat
  calls : List (List Nat)
  deriving Repr

/-- The state on entry of the range function. -/
def RangeState.entry : RangeState :=
  { block := .preLoop, cameFrom := .preLoop, indexMinusOne := 0, next := 0, calls := [] }

/-- The phi node `i`: 0 when control comes from the entry block, `nextval` when it comes
from the end of the loop block. -/
def phiIncr (s : RangeState) : Nat :=
  if s.cameFrom = .preLoop then 0 else s.next

/-- One basic block of the generated range function, run on the arguments
`kPointRangeArguments` of the range function.

* entry block: `indexMinusOne = sub count, 1`, branch to the loop;
* loop block: `i = phi [0, entry], [nextval, loop]`, call the element kernel with the
  range arguments in which position `argumentIndex` is replaced by `i`,
  `nextval = add i, 1`, `endcond = icmp ult i, indexMinusOne`, branch to the loop when
  `endcond` holds and to the exit block otherwise;
* exit block: `ret void`, which ends the run with the calls made. -/
def stepRange (kPointRangeArguments : List Nat) (s : RangeState) :
    RangeState ⊕ List (List Nat) :=
  match s.block with
  | .preLoop =>
      let pointCountValue := kPointRangeArguments.getD argumentIndex 0
      .inl { s with block := .loop, cameFrom := .preLoop,
                    indexMinusOne := wrap64 (pointCountValue + 2 ^ 64 - 1) }
  | .loop =>
      let incr := phiIncr s
      let args := kPointRangeArguments.set argumentIndex incr
      let next := wrap64 (incr + 1)
      let endCondition := decide (incr < s.indexMinusOne)
      .inl { s with block := if endCondition then .loop else .postLoop,
                    cameFrom := .loop, next := next, calls := s.calls ++ [args] }
  | .postLoop => .inr s.calls

/-- Run the range function from a state for at most `fuel` basic blocks; `none` when the
function has not returned by then. -/
def runRange (kPointRangeArguments : List Nat) : Nat → RangeState → Option (List (List Nat))
  | 0, _ => none
  | fuel + 1, s =>
      match stepRange kPointRangeArguments s with
      | .inl s' => runRange kPointRangeArguments fuel s'
      | .inr calls => some calls

/-- The generated `compute_point_range`, run on its arguments: the argument vectors of the
calls it makes to `compute_point`, in order. -/
def computePointRange (kPointRangeArguments : List Nat) (fuel : Nat) :
    Option (List (List Nat)) :=
  runRange kPointRangeArguments fuel RangeState.entry

/-! ## Exceptions -/

/-- The exception classes thrown by the two source files (`OPENVDB_THROW`). -/
inductive Exception where
  | LookupError
  | TypeError
  | AXCompilerError
  | LLVMArrayError
  | LLVMCastError
  | LLVMTypeError
  | LLVMTokenError
  | LLVMContextError
  | LLVMFunctionError
  deriving DecidableEq, Repr

/-- The ways a call stops without completing: a thrown exception, or one of the undefined
behaviours the code can run into (a null pointer dereferenced, a vector or stack read past
its end, a failed `assert`). -/
inductive Abort where
  | exception (e : Exception)
  | nullDereference
  | outOfBounds
  | assertion
  deriving DecidableEq, Repr

/-! ## VolumeExecutable.cc -/

/-- A voxel coordinate, `openvdb::Coord`. -/
abbrev Coord := Int × Int × Int

/-- The names `typeNameAsString<T>()` gives to the value types that appear in
`VolumeExecutable.cc`. -/
def typeNameAsString_bool : String := "bool"
def typeNameAsString_int16 : String := "int16"
def typeNameAsString_int32 : String := "int32"
def typeNameAsString_int64 : String := "int64"
def typeNameAsString_float : String := "float"
def typeNameAsString_double : String := "double"
def typeNameAsString_vec3i : String := "vec3i"
def typeNameAsString_vec3s : String := "vec3s"
def typeNameAsString_vec3d : String := "vec3d"
def typeNameAsString_mask : String := "mask"

/-- A live grid (`openvdb::GridBase`, always reached through a non-null `GridBase::Ptr` in
the input collection): the address of the grid object, its name (`getName()`), the name of
its value type (`valueType()`), its transform (`transformPtr()`), and its active topology as
the leaf manager hands it to `parallel_for`, one list of active voxel coordinates per leaf
range, in visiting order. -/
structure Grid where
  addr : Nat
  name : String
  valueType : String
  transform : Nat
  leafRanges : List (List Coord)
  deriving DecidableEq, Repr

/-- The test `grid->isType<GridT>()` for the grid type `GridT` whose value type is named
`typeName` (`BoolGrid`, `Int32Grid`, ...): the grids here have the standard tree
configuration, for which the grid type is determined by the value type. -/
def Grid.isType (grid : Grid) (typeName : String) : Bool :=
  grid.valueType == typeName

/-- One entry of the volume registry, `VolumeRegistry::VolumeData`. -/
structure VolumeData where
  mName : String
  mType : String
  mWriteable : Bool
  deriving DecidableEq, Repr

/-- A value accessor built by `retrieveAccessorTyped<ValueType>`: the grid whose tree it is
bound to and the value type the grid was cast to. -/
structure Accessor where
  grid : Nat
  valueType : String
  deriving DecidableEq, Repr

/-- The arguments of the generated function, `VolumeFunctionArguments`. -/
structure VolumeFunctionArguments where
  mCustomData : Nat
  mCoord : Coord
  mCoordWS : Nat × Coord
  mVoidAccessors : List Accessor
  mVoidTransforms : List Nat
  deriving DecidableEq, Repr

/-- The constructor `VolumeFunctionArguments(customData)`. -/
def VolumeFunctionArguments.new (customData : Nat) : VolumeFunctionArguments :=
  { mCustomData := customData, mCoord := (0, 0, 0), mCoordWS := (0, (0, 0, 0)),
    mVoidAccessors := [], mVoidTransforms := [] }

/-- The method `VolumeFunctionArguments::addTransform`. -/
def VolumeFunctionArguments.addTransform (args : VolumeFunctionArguments) (transform : Nat) :
    VolumeFunctionArguments :=
  { args with mVoidTransforms := args.mVoidTransforms ++ [transform] }

/-- The function `retrieveAccessorTyped<ValueType>`: cast the grid and add an accessor to its tree. -/
def retrieveAccessorTyped (valueType : String) (args : VolumeFunctionArguments) (grid : Grid) :
    VolumeFunctionArguments :=
  { args with mVoidAccessors := args.mVoidAccessors ++ [⟨grid.addr, valueType⟩] }

/-- The function `retrieveAccessor`: the chain of comparisons of `valueType` with the nine supported type
names, and the `TypeError` of the final `else`. -/
def retrieveAccessor (args : VolumeFunctionArguments) (grid : Grid) (valueType : String) :
    Except Abort VolumeFunctionArguments :=
  if valueType = typeNameAsString_bool then
    .ok (retrieveAccessorTyped typeNameAsString_bool args grid)
  else if valueType = typeNameAsString_int16 then
    .ok (retrieveAccessorTyped typeNameAsString_int16 args grid)
  else if valueType = typeNameAsString_int32 then
    .ok (retrieveAccessorTyped typeNameAsString_int32 args grid)
  else if valueType = typeNameAsString_int64 then
    .ok (retrieveAccessorTyped typeNameAsString_int64 args grid)
  else if valueType = typeNameAsString_float then
    .ok (retrieveAccessorTyped typeNameAsString_float args grid)
  else if valueType = typeNameAsString_double then
    .ok (retrieveAccessorTyped typeNameAsString_double args grid)
  else if valueType = typeNameAsString_vec3i then
    .ok (retrieveAccessorTyped typeNameAsString_vec3i args grid)
  else if valueType = typeNameAsString_vec3s then
    .ok (retrieveAccessorTyped typeNameAsString_vec3s args grid)
  else if valueType = typeNameAsString_vec3d then
    .ok (retrieveAccessorTyped typeNameAsString_vec3d args grid)
  else
    .error (.exception .TypeError)

/-- What `execute` has done so far: a leaf range handed to the executer op by
`parallel_for`, or the compiled kernel invoked on one voxel with its bound arguments. -/
inductive Event where
  | rangeScheduled (block : Nat) (range : Nat)
  | kernelInvoked (block : Nat) (compute : Nat) (args : VolumeFunctionArguments)
  deriving DecidableEq, Repr

/-- The block an event belongs to. -/
def Event.block : Event → Nat
  | .rangeScheduled b _ => b
  | .kernelInvoked b _ _ => b

/-- The events of a run and the abort that ended it, if one did. -/
structure Outcome where
  trace : List Event
  abort : Option Abort
  deriving DecidableEq, Repr

/-- The first loop of `VolumeExecuterOp::operator()`: for every registry entry, in order,
retrieve an accessor for `mGrids[location]` with the entry's type and add the transform of
`mGrids[location]`, then increment `location`. -/
def buildArguments (mGrids : List Grid) :
    List VolumeData → Nat → VolumeFunctionArguments → Except Abort VolumeFunctionArguments
  | [], _, args => .ok args
  | iter :: rest, location, args =>
      match mGrids[location]? with
      | none => .error .outOfBounds
      | some grid =>
          match retrieveAccessor args grid iter.mType with
          | .error e => .error e
          | .ok args1 => buildArguments mGrids rest (location + 1) (args1.addTransform grid.transform)

/-- The second loop of `VolumeExecuterOp::operator()`: for every active voxel of the range
set the coordinate, its world-space position under the target transform, and invoke the
bound kernel. -/
def invokeVoxels (block : Nat) (mComputeFunction : Nat) (mTargetVolumeTransform : Nat)
    (args : VolumeFunctionArguments) : List Coord → List Event
  | [] => []
  | voxel :: rest =>
      let args1 := { args with mCoord := voxel, mCoordWS := (mTargetVolumeTransform, voxel) }
      .kernelInvoked block mComputeFunction args1
        :: invokeVoxels block mComputeFunction mTargetVolumeTransform args1 rest

/-- The call operator `VolumeExecuterOp::operator()` on one leaf range. -/
def VolumeExecuterOp (mVolumeRegistry : List VolumeData) (mCustomData : Nat)
    (mTargetVolumeTransform : Nat) (mComputeFunction : Nat) (mGrids : List Grid)
    (block : Nat) (range : List Coord) : Outcome :=
  match buildArguments mGrids mVolumeRegistry 0 (VolumeFunctionArguments.new mCustomData) with
  | .error e => ⟨[], some e⟩
  | .ok args => ⟨invokeVoxels block mComputeFunction mTargetVolumeTransform args range, none⟩

/-- The call `tbb::parallel_for(leafManager.leafRange(), executerOp)`, with the ranges taken one after
the other in order (the ranges are independent; an exception in one ends the loop). -/
def parallelFor (op : List Coord → Outcome) (block : Nat) : List (List Coord) → Nat → Outcome
  | [], _ => ⟨[], none⟩
  | range :: rest, k =>
      let r := op range
      match r.abort with
      | some e => ⟨.rangeScheduled block k :: r.trace, some e⟩
      | none =>
          let r1 := parallelFor op block rest (k + 1)
          ⟨.rangeScheduled block k :: r.trace ++ r1.trace, r1.abort⟩

/-- The inner loop of `registerVolumes` over the grids, for the registry entry `iter`:
the final values of `matchedName` and `matchedGrid`. -/
def matchGrid (iter : VolumeData) : List Grid → Bool → Bool × Option Grid
  | [], matchedName => (matchedName, none)
  | grid :: rest, matchedName =>
      if grid.name ≠ iter.mName then matchGrid iter rest matchedName
      else if grid.valueType ≠ iter.mType then matchGrid iter rest true
      else (true, some grid)

/-- The body of the outer loop of `registerVolumes` up to the `assert`: the grid matched for
the registry entry `iter`, or the exception thrown. -/
def resolveVolume (grids : List Grid) (iter : VolumeData) : Except Abort Grid :=
  let (matchedName, matchedGrid) := matchGrid iter grids false
  if !matchedName && matchedGrid.isNone then .error (.exception .LookupError)
  else if matchedName && matchedGrid.isNone then .error (.exception .TypeError)
  else
    match matchedGrid with
    | none => .error .assertion
    | some grid => .ok grid

/-- The function `registerVolumes`: the lists `writeableGrids` and `usableGrids` after every entry of
`volumeData` has been processed, or the first exception thrown. -/
def registerVolumes (grids : List Grid) :
    List Grid → List Grid → List VolumeData → Except Abort (List Grid × List Grid)
  | writeableGrids, usableGrids, [] => .ok (writeableGrids, usableGrids)
  | writeableGrids, usableGrids, iter :: rest =>
      match resolveVolume grids iter with
      | .error e => .error e
      | .ok matchedGrid =>
          registerVolumes grids
            (if iter.mWriteable then writeableGrids ++ [matchedGrid] else writeableGrids)
            (usableGrids ++ [matchedGrid]) rest

/-- Modelled from the spec: `codegen::VolumeKernel::getDefaultName()` is defined in
`VolumeComputeGenerator.cc`; the element kernel of a compiled unit is named
`compute_<name>`, here `compute_voxel`. -/
def VolumeKernel.getDefaultName : String := "compute_voxel"

/-- The members of `VolumeExecutable` that `execute` reads. -/
structure VolumeExecutable where
  mVolumeRegistry : List VolumeData
  mCustomData : Nat
  mBlockFunctionAddresses : List (List (String × Nat))
  mAssignedVolumes : List String
  deriving Repr

/-- The kernel pointer `compute` of block `i`: the address found under the block function
name when it is non-zero, the null pointer (0) otherwise. -/
def computeOfBlock (blockFunctions : List (String × Nat)) (i : Nat) : Nat :=
  let funcName := VolumeKernel.getDefaultName ++ toString i
  match blockFunctions.lookup funcName with
  | some address => if address ≠ 0 then address else 0
  | none => 0

/-- The chain of `isType` tests of `execute` on the grid being modified: every branch builds
the leaf manager of the typed tree and runs the executer op over its leaf ranges; the final
`else` throws the `TypeError`. -/
def dispatchBlock (exe : VolumeExecutable) (usableGrids : List Grid) (i : Nat) (compute : Nat)
    (writeTransform : Nat) (gridToModify : Grid) : Outcome :=
  let executerOp :=
    VolumeExecuterOp exe.mVolumeRegistry exe.mCustomData writeTransform compute usableGrids i
  if gridToModify.isType typeNameAsString_bool then
    parallelFor executerOp i gridToModify.leafRanges 0
  else if gridToModify.isType typeNameAsString_int32 then
    parallelFor executerOp i gridToModify.leafRanges 0
  else if gridToModify.isType typeNameAsString_int64 then
    parallelFor executerOp i gridToModify.leafRanges 0
  else if gridToModify.isType typeNameAsString_float then
    parallelFor executerOp i gridToModify.leafRanges 0
  else if gridToModify.isType typeNameAsString_double then
    parallelFor executerOp i gridToModify.leafRanges 0
  else if gridToModify.isType typeNameAsString_vec3i then
    parallelFor executerOp i gridToModify.leafRanges 0
  else if gridToModify.isType typeNameAsString_vec3s then
    parallelFor executerOp i gridToModify.leafRanges 0
  else if gridToModify.isType typeNameAsString_vec3d then
    parallelFor executerOp i gridToModify.leafRanges 0
  else if gridToModify.isType typeNameAsString_mask then
    parallelFor executerOp i gridToModify.leafRanges 0
  else
    ⟨[], some (.exception .TypeError)⟩

/-- The body of the block loop of `execute` for block `i`. -/
def executeBlock (exe : VolumeExecutable) (usableGrids writeableGrids : List Grid) (i : Nat)
    (blockFunctions : List (String × Nat)) : Outcome :=
  let compute := computeOfBlock blockFunctions i
  if compute = 0 then ⟨[], some (.exception .AXCompilerError)⟩
  else
    match exe.mAssignedVolumes[i]? with
    | none => ⟨[], some .outOfBounds⟩
    | some currentVolumeAssigned =>
        match writeableGrids.find? (fun grid => grid.name == currentVolumeAssigned) with
        | none => ⟨[], some .nullDereference⟩
        | some gridToModify =>
            dispatchBlock exe usableGrids i compute gridToModify.transform gridToModify

/-- The block loop of `execute`, from block `i` on. -/
def executeBlocks (exe : VolumeExecutable) (usableGrids writeableGrids : List Grid) :
    List (List (String × Nat)) → Nat → Outcome
  | [], _ => ⟨[], none⟩
  | blockFunctions :: rest, i =>
      let r := executeBlock exe usableGrids writeableGrids i blockFunctions
      match r.abort with
      | some e => ⟨r.trace, some e⟩
      | none =>
          let r1 := executeBlocks exe usableGrids writeableGrids rest (i + 1)
          ⟨r.trace ++ r1.trace, r1.abort⟩

/-- The method `VolumeExecutable::execute`. -/
def VolumeExecutable.execute (exe : VolumeExecutable) (grids : List Grid) : Outcome :=
  match registerVolumes grids [] [] exe.mVolumeRegistry with
  | .error e => ⟨[], some e⟩
  | .ok (writeableGrids, usableGrids) =>
      executeBlocks exe usableGrids writeableGrids exe.mBlockFunctionAddresses 0

/-! ## PointComputeGenerator.cc: the visitor -/

/-- The LLVM types that the point visitor handles (`llvm::Type`). -/
inductive LType where
  | void
  | integer (bits : Nat)
  | float
  | double
  | array (element : LType) (size : Nat)
  | pointer (pointee : LType)
  deriving DecidableEq, Repr

/-- The query `Type::isIntegerTy()`. -/
def LType.isIntegerTy : LType → Bool
  | .integer _ => true
  | _ => false

/-- The query `Type::isIntegerTy(bits)`. -/
def LType.isIntegerTyOf (t : LType) (bits : Nat) : Bool :=
  t == .integer bits

/-- The query `Type::isFloatingPointTy()`. -/
def LType.isFloatingPointTy : LType → Bool
  | .float => true
  | .double => true
  | _ => false

/-- The query `Type::isPointerTy()`. -/
def LType.isPointerTy : LType → Bool
  | .pointer _ => true
  | _ => false

/-- The query `Type::isArrayTy()`. -/
def LType.isArrayTy : LType → Bool
  | .array _ _ => true
  | _ => false

/-- The query `Type::getContainedType(0)`: the pointee of a pointer type, the element of an array
type. -/
def LType.getContainedType0 : LType → LType
  | .pointer t => t
  | .array t _ => t
  | _ => .void

/-- The query `Type::getArrayNumElements()`. -/
def LType.getArrayNumElements : LType → Nat
  | .array _ n => n
  | _ => 0

/-- The query `Type::getArrayElementType()`. -/
def LType.getArrayElementType : LType → LType
  | .array t _ => t
  | _ => .void

/-- Modelled from the spec: `isCharType` is declared in `codegen/Utils.h`; a string operand
is a buffer of characters, and its static type is the 8-bit character type. -/
def isCharType (type : LType) : Bool :=
  type == .integer 8

/-- Modelled from the spec: `isArrayType` is declared in `codegen/Utils.h`; it tells the
fixed-size array (vector) types from the scalar ones. -/
def isArrayType (type : LType) : Bool :=
  type.isArrayTy

/-- An SSA value (`llvm::Value*`): an argument of the kernel under construction, the result
of the emitted instruction with the given index, or a constant. -/
inductive Value where
  | argument (key : String) (type : LType)
  | register (index : Nat) (type : LType)
  | constantInt (type : LType) (value : Nat)
  | constantFP (type : LType) (value : Int)
  deriving DecidableEq, Repr

/-- The query `Value::getType()`. -/
def Value.type : Value → LType
  | .argument _ t => t
  | .register _ t => t
  | .constantInt t _ => t
  | .constantFP t _ => t

/-- The instructions the visitor emits through the builder. The helpers `arrayCast`,
`arrayIndexUnpack`, `arithmeticConversion` and `arrayPack` of `codegen/Utils.h` and the
calls made through `FunctionBase::execute` are kept as single instructions; `loadGlobal` is
the load of the global variable of the given name. -/
inductive Instr where
  | alloca (type : LType)
  | load (pointer : Value)
  | store (value : Value) (pointer : Value)
  | add (lhs : Value) (rhs : Value)
  | fadd (lhs : Value) (rhs : Value)
  | call (function : String) (arguments : List Value)
  | arrayCast (pointer : Value) (elementType : LType)
  | arrayIndexUnpack (pointer : Value) (index : Nat)
  | arithmeticConversion (value : Value) (targetType : LType)
  | arrayPack (value : Value) (size : Nat)
  | loadGlobal (name : String)
  | gep (pointer : Value) (index : Value)
  deriving DecidableEq, Repr

/-- The state of the generator that the visits read and change: the pending-attribute
counter, the operand stack (top first), the instructions emitted so far into the kernel,
and the names in the table of globals. -/
structure Generator where
  mAttributeVisitCount : Nat
  mValues : List Value
  instructions : List Instr
  globals : List String
  deriving DecidableEq, Repr

/-- Emit an instruction at the insert point; its result is the register with the index of
the instruction. -/
def Generator.emit (s : Generator) (instr : Instr) (type : LType) : Value × Generator :=
  (.register s.instructions.length type, { s with instructions := s.instructions ++ [instr] })

/-- The outcome of a visit: the state reached and the abort that ended the visit, if any. -/
structure Visited where
  state : Generator
  abort : Option Abort
  deriving DecidableEq, Repr

/-- The argument `mLLVMArguments.get("point_index")`. -/
def pointIndexArgument : Value := .argument "point_index" (.integer 64)

/-- The argument `mLLVMArguments.get("leaf_data")`. -/
def leafDataArgument : Value := .argument "leaf_data" (.pointer (.integer 8))

/-- Modelled from the spec: `getGlobalAttributeAccess` is declared outside this file; it
names the symbol slot of the attribute identified by `(name, type)`. -/
def getGlobalAttributeAccess (name type : String) : String :=
  "_" ++ type ++ "@" ++ name

/-- An attribute node, `ast::Attribute`. -/
structure Attribute where
  mName : String
  mType : String
  deriving DecidableEq, Repr

/-- An assignment node, `ast::AssignExpression`, with the attribute it assigns to. -/
structure AssignExpression where
  mVariable : Attribute
  deriving DecidableEq, Repr

/-- The enum `AssignmentType` of `visit(AssignExpression)`. -/
inductive AssignmentType where
  | UNSUPPORTED
  | STRING_EQ_STRING
  | ARRAY_EQ_ARRAY
  | SCALAR_EQ_ARRAY
  | ARRAY_EQ_SCALAR
  | SCALAR_EQ_SCALAR
  deriving DecidableEq, Repr

/-- The classification of an attribute assignment from the static types of the two sides
(the `if` / `else if` after `AssignmentType assignmentType = UNSUPPORTED`). -/
def assignmentTypeOf (lhsType rhsType : LType) : AssignmentType :=
  let assignmentType := AssignmentType.UNSUPPORTED
  if isCharType lhsType && isCharType rhsType then
    .STRING_EQ_STRING
  else if !(isCharType lhsType && isCharType rhsType) then
    let lhsIsArray := isArrayType lhsType
    let rhsIsArray := isArrayType rhsType
    if lhsIsArray && rhsIsArray then .ARRAY_EQ_ARRAY
    else if !lhsIsArray && rhsIsArray then .SCALAR_EQ_ARRAY
    else if lhsIsArray && !rhsIsArray then .ARRAY_EQ_SCALAR
    else .SCALAR_EQ_SCALAR
  else
    assignmentType

/-- The `switch (assignmentType)` of `visit(AssignExpression)`: the converted right-hand
value and the state after the conversion has been emitted, or the exception thrown. -/
def convertRhs (assignmentType : AssignmentType) (lhsType rhsType : LType) (rhs : Value)
    (s : Generator) : Except Exception (Value × Generator) :=
  match assignmentType with
  | .STRING_EQ_STRING => .ok (rhs, s)
  | .ARRAY_EQ_ARRAY =>
      let lhsSize := lhsType.getArrayNumElements
      let rhsSize := rhsType.getArrayNumElements
      if lhsSize ≠ rhsSize then .error .LLVMArrayError
      else
        let lhsElementType := lhsType.getArrayElementType
        .ok (s.emit (.arrayCast rhs lhsElementType) (.pointer (.array lhsElementType lhsSize)))
  | .SCALAR_EQ_ARRAY =>
      let (rhs1, s1) := s.emit (.arrayIndexUnpack rhs 0) (.pointer rhsType.getArrayElementType)
      let (rhs2, s2) := s1.emit (.load rhs1) rhsType.getArrayElementType
      .ok (s2.emit (.arithmeticConversion rhs2 lhsType) lhsType)
  | .ARRAY_EQ_SCALAR =>
      let (rhs1, s1) := s.emit (.load rhs) rhsType
      let lhsElementType := lhsType.getArrayElementType
      let (rhs2, s2) := s1.emit (.arithmeticConversion rhs1 lhsElementType) lhsElementType
      .ok (s2.emit (.arrayPack rhs2 lhsType.getArrayNumElements) (.pointer lhsType))
  | .SCALAR_EQ_SCALAR =>
      let (rhs1, s1) := s.emit (.load rhs) rhsType
      .ok (s1.emit (.arithmeticConversion rhs1 lhsType) lhsType)
  | .UNSUPPORTED => .error .LLVMCastError

/-- The visit `PointComputeGenerator::visit(const ast::AssignExpression&)`. The type table
`llvmTypeFromName` and the visit of the base class `ComputeGenerator` are taken as given. -/
def visitAssignExpression (llvmTypeFromName : String → LType) (base : Generator → Visited)
    (node : AssignExpression) (s : Generator) : Visited :=
  if s.mAttributeVisitCount = 0 then base s
  else
    let s1 := { s with mAttributeVisitCount := s.mAttributeVisitCount - 1 }
    match s1.mValues with
    | handlePtr :: rhs :: rest =>
        let s2 := { s1 with mValues := rest }
        if !rhs.type.isPointerTy then ⟨s2, some .assertion⟩
        else if !handlePtr.type.isPointerTy then ⟨s2, some .assertion⟩
        else
          let s3 := { s2 with mValues := rhs :: rest }
          let type := node.mVariable.mType
          let usingPosition := decide (node.mVariable.mName = "P")
          if !(usingPosition
                || s3.globals.contains (getGlobalAttributeAccess node.mVariable.mName type)) then
            ⟨s3, some .assertion⟩
          else
            let lhsIsString := decide (type = "string")
            let rhsType := rhs.type.getContainedType0
            let lhsType := llvmTypeFromName type
            match convertRhs (assignmentTypeOf lhsType rhsType) lhsType rhsType rhs s3 with
            | .error e => ⟨s3, some (.exception e)⟩
            | .ok (rhs1, s4) =>
                let argumentValues :=
                  [handlePtr, pointIndexArgument, rhs1]
                    ++ (if lhsIsString then [leafDataArgument] else [])
                if usingPosition then
                  ⟨(s4.emit (.call "setpointpws" argumentValues) .void).2, none⟩
                else
                  ⟨(s4.emit (.call "setattribute" argumentValues) .void).2, none⟩
    | _ => ⟨s1, some .outOfBounds⟩

/-- The operation of a crement node, `ast::Crement::Operation`; `Other` stands for any
other token value. -/
inductive CrementOperation where
  | Increment
  | Decrement
  | Other
  deriving DecidableEq, Repr

/-- A crement node, `ast::Crement`. -/
structure Crement where
  mVariable : Attribute
  mOperation : CrementOperation
  mPost : Bool
  deriving DecidableEq, Repr

/-- The constant `llvm::ConstantInt::get(type, oneOrMinusOne)`: the `int` is converted to the unsigned
64-bit parameter of `get` and cut to the width of the type. -/
def constantIntOf (type : LType) (oneOrMinusOne : Int) : Value :=
  match type with
  | .integer bits => .constantInt type ((oneOrMinusOne % 2 ^ 64).toNat % 2 ^ bits)
  | _ => .constantInt type (oneOrMinusOne % 2 ^ 64).toNat

/-- The token test of `visit(Crement)`: `oneOrMinusOne`, or nothing for an unrecognised
operation token. -/
def oneOrMinusOneOf : CrementOperation → Option Int
  | .Increment => some 1
  | .Decrement => some (-1)
  | .Other => none

/-- The type test of `visit(Crement)`: the integer addition for an integer type other than
the character and the boolean type, the floating-point addition for a floating-point type,
nothing for any other type. -/
def crementInstr (type : LType) (rhs : Value) (oneOrMinusOne : Int) : Option Instr :=
  if !isCharType type && type.isIntegerTy && !type.isIntegerTyOf 1 then
    some (.add rhs (constantIntOf type oneOrMinusOne))
  else if !isCharType type && type.isFloatingPointTy then
    some (.fadd rhs (.constantFP type oneOrMinusOne))
  else none

/-- The visit `PointComputeGenerator::visit(const ast::Crement&)`. The visit of the base class
`ComputeGenerator` is taken as given; a load through a value that is not a pointer is an
assertion of the builder. -/
def visitCrement (base : Generator → Visited) (node : Crement) (s : Generator) : Visited :=
  if s.mAttributeVisitCount = 0 then base s
  else
    let s1 := { s with mAttributeVisitCount := s.mAttributeVisitCount - 1 }
    match s1.mValues with
    | rhsPtr :: lhs :: rest =>
        let s2 := { s1 with mValues := rest }
        if !rhsPtr.type.isPointerTy then ⟨s2, some .assertion⟩
        else
          let (rhs, s3) := s2.emit (.load rhsPtr) rhsPtr.type.getContainedType0
          let type := rhs.type
          let (temp, s5) :=
            if node.mPost then
              let (temp, s4) := s3.emit (.alloca type) (.pointer type)
              (some temp, (s4.emit (.store rhs temp) .void).2)
            else (none, s3)
          match oneOrMinusOneOf node.mOperation with
          | none => ⟨s5, some (.exception .LLVMTokenError)⟩
          | some oneOrMinusOne =>
              match crementInstr type rhs oneOrMinusOne with
              | none => ⟨s5, some (.exception .LLVMTypeError)⟩
              | some instr =>
                  let (rhs1, s6) := s5.emit instr type
                  let argumentValues := [lhs, pointIndexArgument, rhs1]
                  let s7 := (s6.emit (.call "setattribute" argumentValues) .void).2
                  match temp with
                  | some temp => ⟨{ s7 with mValues := temp :: s7.mValues }, none⟩
                  | none =>
                      let (lhs1, s8) := s7.emit (.alloca type) (.pointer type)
                      let s9 := (s8.emit (.store rhs1 lhs1) .void).2
                      ⟨{ s9 with mValues := lhs1 :: s9.mValues }, none⟩
    | _ => ⟨s1, some .outOfBounds⟩

/-! ## The meaning of the emitted instructions -/

/-- A run-time value: an integer held as its bit pattern, a floating-point number, or an
address. -/
inductive RVal where
  | int (value : Nat)
  | fp (value : Rat)
  | ptr (address : Nat)
  deriving DecidableEq, Repr

/-- The run-time state of a kernel invocation: the values of the kernel arguments and of
the registers, the memory, the next free stack address, and the calls made to the
primitives with their argument values. -/
structure Machine where
  arguments : String → Option RVal
  registers : Nat → Option RVal
  memory : Nat → Option RVal
  nextAddress : Nat
  calls : List (String × List RVal)

/-- The run-time value of an SSA value. -/
def evalValue (m : Machine) : Value → Option RVal
  | .argument key _ => m.arguments key
  | .register index _ => m.registers index
  | .constantInt _ value => some (.int value)
  | .constantFP _ value => some (.fp value)

/-- The run-time values of a list of SSA values. -/
def evalValues (m : Machine) : List Value → Option (List RVal)
  | [] => some []
  | v :: rest =>
      match evalValue m v, evalValues m rest with
      | some x, some xs => some (x :: xs)
      | _, _ => none

/-- Set the register of the instruction with the given index. -/
def Machine.setRegister (m : Machine) (index : Nat) (value : RVal) : Machine :=
  { m with registers := fun i => if i = index then some value else m.registers i }

/-- Reserve the next free stack address; its content is undefined. -/
def Machine.allocate (m : Machine) : Machine :=
  { m with memory := fun a => if a = m.nextAddress then none else m.memory a,
           nextAddress := m.nextAddress + 1 }

/-- Write a value to an address. -/
def Machine.write (m : Machine) (address : Nat) (value : RVal) : Machine :=
  { m with memory := fun a => if a = address then some value else m.memory a }

/-- Record the call of a primitive with its argument values. -/
def Machine.record (m : Machine) (function : String) (values : List RVal) : Machine :=
  { m with calls := m.calls ++ [(function, values)] }

/-- Execute the emitted instruction with the given index. The floating-point addition of
the target is the parameter `fadd`; a call of a primitive is recorded with its argument
values; the conversion helpers are not given a meaning here (`none`). -/
def execInstr (fadd : Rat → Rat → Rat) (index : Nat) : Instr → Machine → Option Machine
  | .alloca _, m => some (m.setRegister index (.ptr m.nextAddress)).allocate
  | .load pointer, m =>
      match evalValue m pointer with
      | some (.ptr a) =>
          match m.memory a with
          | some v => some (m.setRegister index v)
          | none => none
      | _ => none
  | .store value pointer, m =>
      match evalValue m value, evalValue m pointer with
      | some v, some (.ptr a) => some (m.write a v)
      | _, _ => none
  | .add lhs rhs, m =>
      match lhs.type, evalValue m lhs, evalValue m rhs with
      | .integer bits, some (.int x), some (.int y) =>
          some (m.setRegister index (.int ((x + y) % 2 ^ bits)))
      | _, _, _ => none
  | .fadd lhs rhs, m =>
      match evalValue m lhs, evalValue m rhs with
      | some (.fp x), some (.fp y) => some (m.setRegister index (.fp (fadd x y)))
      | _, _ => none
  | .call function arguments, m =>
      match evalValues m arguments with
      | some values => some (m.record function values)
      | none => none
  | .arrayCast _ _, _ => none
  | .arrayIndexUnpack _ _, _ => none
  | .arithmeticConversion _ _, _ => none
  | .arrayPack _ _, _ => none
  | .loadGlobal _, _ => none
  | .gep _ _, _ => none

/-- Execute a sequence of emitted instructions, the first of which has the given index. -/
def runInstrs (fadd : Rat → Rat → Rat) : Nat → List Instr → Machine → Option Machine
  | _, [], m => some m
  | index, instr :: rest, m =>
      match execInstr fadd index instr m with
      | some m1 => runInstrs fadd (index + 1) rest m1
      | none => none

/-- Whether an SSA value is available before the instruction with index `n` is emitted. -/
def Value.definedBefore (n : Nat) : Value → Prop
  | .register index _ => index < n
  | _ => True

/-- The static kind of a type in the terms of the conversion table of the specification:
a string, an array of a given length, or a scalar. -/
inductive StaticKind where
  | string
  | scalar
  | array (size : Nat)
  deriving DecidableEq, Repr

/-- The static kind of an LLVM type. -/
def staticKind (type : LType) : StaticKind :=
  if isCharType type then .string
  else if isArrayType type then .array type.getArrayNumElements
  else .scalar

/-- The scalar types the specification supports for crement, with a value of the type:
an integer other than the boolean and the character type, of at most 64 bits, holding a bit
pattern of its width, or one of the two floating-point types holding a number. -/
def supportedScalar : LType → RVal → Prop
  | .integer bits, .int x => bits ≠ 1 ∧ bits ≠ 8 ∧ bits ≤ 64 ∧ x < 2 ^ bits
  | .float, .fp _ => True
  | .double, .fp _ => True
  | _, _ => False

/-- The value the specification asks a crement to write for the current value `v`:
`v + 1` or `v - 1` in the arithmetic of the type (modulo `2 ^ bits` for an integer, the
floating-point addition `fadd` for a float). -/
def crementSpec (fadd : Rat → Rat → Rat) (type : LType) (operation : CrementOperation)
    (v : RVal) : RVal :=
  match type, v, operation with
  | .integer bits, .int x, .Increment => .int ((x + 1) % 2 ^ bits)
  | .integer bits, .int x, .Decrement => .int ((x + (2 ^ bits - 1)) % 2 ^ bits)
  | _, .fp x, .Increment => .fp (fadd x 1)
  | _, .fp x, .Decrement => .fp (fadd x (-1))
  | _, v, _ => v

/-- An example state of the generator before the crement of the 32-bit integer attribute
`i`: the handle loaded into register 0, the location of the value read in register 1, one
attribute pending. -/
def crementExampleState : Generator :=
  { mAttributeVisitCount := 1,
    mValues := [.register 1 (.pointer (.integer 32)), .register 0 (.pointer (.integer 8))],
    instructions :=
      [.load (.argument "attribute_handles" (.pointer (.pointer (.integer 8)))),
       .alloca (.integer 32)],
    globals := ["_int32@i"] }

/-- An example run-time state for `crementExampleState`: the handle is the address 100, the
location of the value is the address 0 and holds 5, the point index is 7. -/
def crementExampleMachine : Machine :=
  { arguments := fun key => if key = "point_index" then some (.int 7) else none,
    registers := fun i => if i = 0 then some (.ptr 100) else if i = 1 then some (.ptr 0) else none,
    memory := fun a => if a = 0 then some (.int 5) else none,
    nextAddress := 1,
    calls := [] }

/-- The value a crement computes from the loaded value `v`: the addition selected by the
token test and the type test of `visit(Crement)`, executed on a machine whose register 0
holds `v`; `none` when the visit throws instead of emitting an addition. -/
def crementResult (fadd : Rat → Rat → Rat) (type : LType) (operation : CrementOperation)
    (v : RVal) : Option RVal :=
  match oneOrMinusOneOf operation with
  | none => none
  | some oneOrMinusOne =>
      match crementInstr type (.register 0 type) oneOrMinusOne with
      | none => none
      | some instr =>
          match execInstr fadd 1 instr
              { arguments := fun _ => none,
                registers := fun i => if i = 0 then some v else none,
                memory := fun _ => none,
                nextAddress := 0,
                calls := [] } with
          | some m => m.registers 1
          | none => none

/-! ## PointComputeGenerator.cc: attributes and function calls -/

/-- The generator as the constructor of `PointComputeGenerator` leaves it: the
pending-attribute counter is initialised to 0; nothing is on the stack, emitted or in the
table of globals yet. -/
def Generator.new : Generator :=
  { mAttributeVisitCount := 0, mValues := [], instructions := [], globals := [] }

/-- The argument `mLLVMArguments.get("attribute_handles")`. -/
def attributeHandlesArgument : Value :=
  .argument "attribute_handles" (.pointer (.pointer (.integer 8)))

/-- The insertion `globals().insert(globalName, ...)` into the table of globals: the name is
added unless it is there already. -/
def insertGlobal (globals : List String) (globalName : String) : List String :=
  if globals.contains globalName then globals else globals ++ [globalName]

/-- The visit `PointComputeGenerator::visit(const ast::Attribute&)`. -/
def visitAttribute (node : Attribute) (s : Generator) : Visited :=
  if node.mType = "string" then ⟨s, some (.exception .AXCompilerError)⟩
  else if node.mName = "P" then
    let leafDataPtr := leafDataArgument
    let s1 := { s with mAttributeVisitCount := s.mAttributeVisitCount + 1 }
    ⟨{ s1 with mValues := leafDataPtr :: s1.mValues }, none⟩
  else
    let globalName := getGlobalAttributeAccess node.mName node.mType
    let s1 := { s with globals := insertGlobal s.globals globalName }
    let (index, s2) := s1.emit (.loadGlobal globalName) (.integer 64)
    let (handleAddress, s3) :=
      s2.emit (.gep attributeHandlesArgument index) (.pointer (.pointer (.integer 8)))
    let (handlePtr, s4) := s3.emit (.load handleAddress) (.pointer (.integer 8))
    let s5 := { s4 with mAttributeVisitCount := s4.mAttributeVisitCount + 1 }
    ⟨{ s5 with mValues := handlePtr :: s5.mValues }, none⟩

/-- An attribute value node, `ast::AttributeValue`, with the attribute it reads. -/
structure AttributeValue where
  mAttribute : Attribute
  deriving DecidableEq, Repr

/-- The visit `PointComputeGenerator::visit(const ast::AttributeValue&)`. The type table
`llvmTypeFromName` is taken as given. -/
def visitAttributeValue (llvmTypeFromName : String → LType) (node : AttributeValue)
    (s : Generator) : Visited :=
  if s.mAttributeVisitCount = 0 then ⟨s, some .assertion⟩
  else
    match s.mValues with
    | [] => ⟨s, some .outOfBounds⟩
    | handlePtr :: rest =>
        let s1 := { s with mValues := rest,
                           mAttributeVisitCount := s.mAttributeVisitCount - 1 }
        let name := node.mAttribute.mName
        let type := node.mAttribute.mType
        let usingPosition := decide (name = "P")
        if !(usingPosition || s1.globals.contains (getGlobalAttributeAccess name type)) then
          ⟨s1, some .assertion⟩
        else
          let returnType := llvmTypeFromName type
          let usingString := !usingPosition && decide (type = "string")
          if usingString then ⟨s1, some (.exception .AXCompilerError)⟩
          else
            let (returnValue, s2) := s1.emit (.alloca returnType) (.pointer returnType)
            let args := [handlePtr, pointIndexArgument, returnValue]
            let s3 :=
              if usingPosition then (s2.emit (.call "getpointpws" args) .void).2
              else (s2.emit (.call "getattribute" args) .void).2
            ⟨{ s3 with mValues := returnValue :: s3.mValues }, none⟩

/-- Modelled from the spec: the enum `FunctionBase::Context` is declared in
`FunctionTypes.h`; the contexts Base, Point and Volume are distinct bits of the
allowed-context bitmask of a function. -/
def FunctionBase.Base : Nat := 1

/-- Modelled from the spec: the Point bit of `FunctionBase::Context`. -/
def FunctionBase.Point : Nat := 2

/-- Modelled from the spec: the Volume bit of `FunctionBase::Context`. -/
def FunctionBase.Volume : Nat := 4

/-- What `FunctionBase::execute` hands back to the visit: the primary result, the additional
output results, and the instructions it has emitted through the builder. -/
structure ExecuteResult where
  result : Value
  results : List Value
  instructions : List Instr
  deriving DecidableEq, Repr

/-- A function of the registry, `FunctionBase`: its allowed-context bitmask and its emitter,
which is given the argument values and the index of the next instruction and may throw. -/
structure FunctionBase where
  context : Nat
  execute : List Value → Nat → Except Exception ExecuteResult

/-- A function call node, `ast::FunctionCall`: the name of the function and the list of its
argument expressions (only the length of the list is read). -/
structure FunctionCall where
  mFunction : String
  mArguments : List Nat
  deriving DecidableEq, Repr

/-- The two context tests of `visit(FunctionCall)`: the call is delegated to the generic
path, rejected as called within an invalid context, or handled as a point function. -/
inductive CallPath where
  | generic
  | invalidContext
  | point
  deriving DecidableEq, Repr

/-- The tests `function->context() & FunctionBase::Base` and
`!(function->context() & FunctionBase::Point)` of `visit(FunctionCall)`, in this order. -/
def callPath (context : Nat) : CallPath :=
  if context &&& FunctionBase.Base ≠ 0 then .generic
  else if !(decide (context &&& FunctionBase.Point ≠ 0)) then .invalidContext
  else .point

/-- Modelled from the spec: `argumentsFromStack` is declared in `codegen/Utils.h`; it pops
exactly `count` operands from the stack, the last argument from the top, and yields them in
argument order; `none` when the stack holds fewer. -/
def argumentsFromStack (values : List Value) (count : Nat) : Option (List Value × List Value) :=
  if values.length < count then none
  else some ((values.take count).reverse, values.drop count)

/-- The pushes that end `visit(FunctionCall)`: the primary result unless its type is void,
stored to freshly allocated storage first unless it is a pointer, then every additional
result in order. -/
def pushResults (r : ExecuteResult) (s : Generator) : Generator :=
  let resultType := r.result.type
  let s3 :=
    if resultType ≠ .void then
      if !resultType.isPointerTy then
        let (resultStore, s1) := s.emit (.alloca resultType) (.pointer resultType)
        let s2 := (s1.emit (.store r.result resultStore) .void).2
        { s2 with mValues := resultStore :: s2.mValues }
      else { s with mValues := r.result :: s.mValues }
    else s
  { s3 with mValues := r.results.reverse ++ s3.mValues }

/-- The visit `PointComputeGenerator::visit(const ast::FunctionCall&)`. The lookup
`getFunction` of the base class `ComputeGenerator`, its visit `base`, and the helper
`parseDefaultArgumentState` of `codegen/Utils.h`, which is given the arguments and the
builder and yields the arguments to pass and the instructions it emits, are taken as
given. -/
def visitFunctionCall (getFunction : String → Except Exception FunctionBase)
    (parseDefaultArgumentState : List Value → Nat → List Value × List Instr)
    (base : Generator → Visited) (node : FunctionCall) (s : Generator) : Visited :=
  match getFunction node.mFunction with
  | .error e => ⟨s, some (.exception e)⟩
  | .ok function =>
      match callPath function.context with
      | .generic => base s
      | .invalidContext => ⟨s, some (.exception .LLVMContextError)⟩
      | .point =>
          let args := node.mArguments.length
          match argumentsFromStack s.mValues args with
          | none => ⟨s, some .outOfBounds⟩
          | some (arguments, rest) =>
              let s1 := { s with mValues := rest }
              let (arguments1, loads) := parseDefaultArgumentState arguments s1.instructions.length
              let s2 := { s1 with instructions := s1.instructions ++ loads }
              match function.execute arguments1 s2.instructions.length with
              | .error e => ⟨s2, some (.exception e)⟩
              | .ok r =>
                  let s3 := { s2 with instructions := s2.instructions ++ r.instructions }
                  ⟨pushResults r s3, none⟩

/-- The visits of the point generator that touch the pending-attribute counter. -/
inductive PointVisit where
  | ofAttribute (node : Attribute)
  | ofAttributeValue (node : AttributeValue)
  | ofAssignExpression (node : AssignExpression)
  | ofCrement (node : Crement)
  deriving DecidableEq, Repr

/-- One visit of the point generator. -/
def visitPoint (llvmTypeFromName : String → LType) (baseAssign baseCrement : Generator → Visited) :
    PointVisit → Generator → Visited
  | .ofAttribute node, s => visitAttribute node s
  | .ofAttributeValue node, s => visitAttributeValue llvmTypeFromName node s
  | .ofAssignExpression node, s => visitAssignExpression llvmTypeFromName baseAssign node s
  | .ofCrement node, s => visitCrement baseCrement node s

/-- A sequence of visits, one after the other; an abort ends the sequence. -/
def visitAll (llvmTypeFromName : String → LType) (baseAssign baseCrement : Generator → Visited) :
    List PointVisit → Generator → Visited
  | [], s => ⟨s, none⟩
  | v :: rest, s =>
      let r := visitPoint llvmTypeFromName baseAssign baseCrement v s
      match r.abort with
      | some a => ⟨r.state, some a⟩
      | none => visitAll llvmTypeFromName baseAssign baseCrement rest r.state

/-- The pending attributes after a sequence of visits that starts with `pending` of them:
an attribute visit adds one, a consuming visit (value read, assignment, crement) takes the
one it is matched with; `none` when a consuming visit finds no pending attribute. -/
def pendingAfter : List PointVisit → Nat → Option Nat
  | [], pending => some pending
  | .ofAttribute _ :: rest, pending => pendingAfter rest (pending + 1)
  | _ :: rest, pending => if pending = 0 then none else pendingAfter rest (pending - 1)

/-! ## The meaning of the conversion helpers -/

/-- Read `n` consecutive cells of a memory, from the address `a` on. -/
def readArray (memory : Nat → Option RVal) (a : Nat) : Nat → Option (List RVal)
  | 0 => some []
  | n + 1 =>
      match memory a, readArray memory (a + 1) n with
      | some x, some xs => some (x :: xs)
      | _, _ => none

/-- Reserve fresh consecutive stack addresses holding the given elements. -/
def Machine.allocateArray (m : Machine) (elements : List RVal) : Machine :=
  { m with
    memory := fun b =>
      if m.nextAddress ≤ b ∧ b < m.nextAddress + elements.length then
        elements[b - m.nextAddress]?
      else m.memory b,
    nextAddress := m.nextAddress + elements.length }

/-- Modelled from the spec: the helpers `arithmeticConversion`, `arrayIndexUnpack`,
`arrayCast` and `arrayPack` are declared in `codegen/Utils.h`. In the words of the conversion
table: `arithmeticConversion` numerically converts a loaded scalar to the target type (the
numeric conversion from one type to another is the parameter `convert`);
`arrayIndexUnpack` yields the location of the element at an index of an array;
`arrayCast` yields the location of a new array holding the elements of the array converted
to the target element type; `arrayPack` yields the location of a new array of `size` slots
all holding the scalar. Every other instruction has the meaning `execInstr` gives it. -/
def execConversion (fadd : Rat → Rat → Rat) (convert : LType → LType → RVal → RVal)
    (index : Nat) : Instr → Machine → Option Machine
  | .arithmeticConversion value targetType, m =>
      match evalValue m value with
      | some v => some (m.setRegister index (convert value.type targetType v))
      | none => none
  | .arrayIndexUnpack pointer i, m =>
      match evalValue m pointer with
      | some (.ptr a) => some (m.setRegister index (.ptr (a + i)))
      | _ => none
  | .arrayCast pointer elementType, m =>
      match pointer.type, evalValue m pointer with
      | .pointer (.array sourceType n), some (.ptr a) =>
          match readArray m.memory a n with
          | some xs =>
              some ((m.allocateArray (xs.map (convert sourceType elementType))).setRegister index
                (.ptr m.nextAddress))
          | none => none
      | _, _ => none
  | .arrayPack value size, m =>
      match evalValue m value with
      | some v =>
          some ((m.allocateArray (List.replicate size v)).setRegister index (.ptr m.nextAddress))
      | none => none
  | .alloca t, m => execInstr fadd index (.alloca t) m
  | .load p, m => execInstr fadd index (.load p) m
  | .store v p, m => execInstr fadd index (.store v p) m
  | .add a b, m => execInstr fadd index (.add a b) m
  | .fadd a b, m => execInstr fadd index (.fadd a b) m
  | .call f args, m => execInstr fadd index (.call f args) m
  | .loadGlobal name, m => execInstr fadd index (.loadGlobal name) m
  | .gep p i, m => execInstr fadd index (.gep p i) m

/-- Execute a sequence of emitted instructions, conversion helpers included, the first of
which has the given index. -/
def runConversions (fadd : Rat → Rat → Rat) (convert : LType → LType → RVal → RVal) :
    Nat → List Instr → Machine → Option Machine
  | _, [], m => some m
  | index, instr :: rest, m =>
      match execConversion fadd convert index instr m with
      | some m1 => runConversions fadd convert (index + 1) rest m1
      | none => none

/-- The write primitive an attribute assignment calls: the position primitive for the
position attribute `P`, the attribute primitive otherwise. -/
def writePrimitive (node : AssignExpression) : String :=
  if node.mVariable.mName = "P" then "setpointpws" else "setattribute"

/-- An example state of the generator before the assignment `v = 2.0` to the 3-component
float attribute `v`: the location of the right-hand scalar in register 0, the handle of the
attribute in register 1. -/
def assignExampleState : Generator :=
  { mAttributeVisitCount := 1,
    mValues := [.register 1 (.pointer (.integer 8)), .register 0 (.pointer .float)],
    instructions :=
      [.alloca .float,
       .load (.argument "attribute_handles" (.pointer (.pointer (.integer 8))))],
    globals := ["_vec3s@v"] }

/-- An example run-time state for `assignExampleState`: the right-hand location is the
address 0 and holds 2.0, the handle is the address 100, the point index is 7. -/
def assignExampleMachine : Machine :=
  { arguments := fun key => if key = "point_index" then some (.int 7) else none,
    registers := fun i => if i = 0 then some (.ptr 0) else if i = 1 then some (.ptr 100) else none,
    memory := fun a => if a = 0 then some (.fp 2) else none,
    nextAddress := 1,
    calls := [] }

/-! ## The floating-point addition of the target -/

/-- The number of binary digits of `n`, computed with the given fuel (`n` itself is always
enough). -/
def bitLength : Nat → Nat → Nat
  | 0, _ => 0
  | fuel + 1, n => if n = 0 then 0 else bitLength fuel (n / 2) + 1

/-- The binary exponent of a rational number other than 0: the integer `e` with
`2 ^ e ≤ |q| < 2 ^ (e + 1)`. -/
def floorLog2 (q : Rat) : Int :=
  let a : Int := bitLength q.num.natAbs q.num.natAbs
  let b : Int := bitLength q.den q.den
  if (2 : Rat) ^ (a - b) ≤ |q| then a - b else a - b - 1

/-- The nearest integer, the even one of the two when the number is half way between them. -/
def roundHalfEven (r : Rat) : Int :=
  let f := ⌊r⌋
  if r - f < 1 / 2 then f
  else if 1 / 2 < r - f then f + 1
  else if f % 2 = 0 then f else f + 1

/-- The rounding of IEEE 754 arithmetic in its default mode: the nearest number with `p`
binary digits of precision and an exponent of at least `emin`, ties to the even significand.
Overflow to infinity is left out: a sum with 1 or -1 of a number of the format never rounds
beyond the largest number of the format. -/
def roundFloat (p : Nat) (emin : Int) (q : Rat) : Rat :=
  if q = 0 then 0
  else
    let e := max (floorLog2 q) emin
    let ulp : Rat := 2 ^ (e - (p - 1))
    roundHalfEven (q / ulp) * ulp

/-- The rounding of a floating-point type of the generated code: `float` is the 32-bit
format (24 digits, exponents from -126), `double` the 64-bit format (53 digits, exponents
from -1022). A number is a value of the type when the rounding leaves it unchanged. -/
def roundOf : LType → Rat → Rat
  | .float => roundFloat 24 (-126)
  | .double => roundFloat 53 (-1022)
  | _ => id

/-- The instruction `fadd` the builder emits for `CreateFAdd` on operands of the given
type: the exact sum rounded to the type. -/
def faddOf (type : LType) (x y : Rat) : Rat :=
  roundOf type (x + y)

theorem argumentIndex_eq : argumentIndex = 2 := by decide

/-- The loop block of the range function, entered with the induction variable at `i` and
`d` further iterations to go before `indexMinusOne = i + d` is reached, returns after
making the calls for `i, i + 1, ..., i + d`. -/
theorem runRange_loop (kArgs : List Nat) (m : Nat) (hm : m < 2 ^ 64) :
    ∀ (d i : Nat) (s : RangeState), s.block = .loop → phiIncr s = i → s.indexMinusOne = m →
      i + d = m → ∀ fuel, d + 2 ≤ fuel →
      runRange kArgs fuel s
        = some (s.calls ++ (List.range' i (d + 1)).map (fun j => kArgs.set argumentIndex j)) := by
  intro d
  induction d with
  | zero =>
      intro i s hb hi hm' hid fuel hf
      obtain ⟨f, rfl⟩ : ∃ f, fuel = f + 2 := ⟨fuel - 2, by omega⟩
      have hlt : ¬ (i < m) := by omega
      simp [runRange, stepRange, hb, hi, hm', hlt]
  | succ d ih =>
      intro i s hb hi hm' hid fuel hf
      obtain ⟨f, rfl⟩ : ∃ f, fuel = f + 1 := ⟨fuel - 1, by omega⟩
      have hlt : i < m := by omega
      have hw : wrap64 (i + 1) = i + 1 := by
        unfold wrap64
        exact Nat.mod_eq_of_lt (by omega)
      have hstep : stepRange kArgs s
          = .inl { s with block := .loop, cameFrom := .loop, next := i + 1,
                          calls := s.calls ++ [kArgs.set argumentIndex i] } := by
        simp [stepRange, hb, hi, hm', hlt, hw]
      rw [runRange, hstep]
      simp only
      rw [ih (i + 1) { s with block := .loop, cameFrom := .loop, next := i + 1,
                              calls := s.calls ++ [kArgs.set argumentIndex i] }
        rfl (by simp [phiIncr]) hm' (by omega) f (by omega)]
      simp [List.range'_succ]

/-- C1. For every count `N` with `1 ≤ N < 2 ^ 64` passed in the point-index position, the
generated range kernel returns (given fuel for its `N + 2` basic blocks) after calling the
element kernel exactly `N` times, the `k`-th call receiving the range arguments with the
point-index position replaced by `k`: the indices are `0, 1, ..., N - 1` in ascending order,
every other argument is passed through unchanged, and no index exceeds `N - 1`. -/
theorem computePointRange_calls (kArgs : List Nat) (N fuel : Nat)
    (hcount : kArgs[argumentIndex]? = some N) (h1 : 1 ≤ N) (h64 : N < 2 ^ 64)
    (hfuel : N + 2 ≤ fuel) :
    ∃ calls, computePointRange kArgs fuel = some calls ∧
      calls = (List.range N).map (fun i => kArgs.set argumentIndex i) ∧
      calls.length = N ∧
      calls.map (fun call => call[argumentIndex]?) = (List.range N).map some ∧
      (∀ call ∈ calls, ∀ j, j ≠ argumentIndex → call[j]? = kArgs[j]?) ∧
      (∀ call ∈ calls, ∃ i, call[argumentIndex]? = some i ∧ i ≤ N - 1) := by
  have hlen : argumentIndex < kArgs.length := by
    by_contra hge
    rw [List.getElem?_eq_none (by omega)] at hcount
    exact absurd hcount (by simp)
  have hD : kArgs.getD argumentIndex 0 = N := by
    simp [List.getD_eq_getElem?_getD, hcount]
  obtain ⟨f, rfl⟩ : ∃ f, fuel = f + 1 := ⟨fuel - 1, by omega⟩
  have hw : wrap64 (N + 2 ^ 64 - 1) = N - 1 := by
    unfold wrap64
    have : N + 2 ^ 64 - 1 = (N - 1) + 2 ^ 64 := by omega
    rw [this, Nat.add_mod_right]
    exact Nat.mod_eq_of_lt (by omega)
  have hrun : computePointRange kArgs (f + 1)
      = some ((List.range N).map (fun i => kArgs.set argumentIndex i)) := by
    unfold computePointRange
    rw [runRange]
    simp only [stepRange, RangeState.entry, hD, hw]
    rw [runRange_loop kArgs (N - 1) (by omega) (N - 1) 0 _ rfl (by simp [phiIncr]) rfl
      (by omega) f (by omega)]
    have hN : N - 1 + 1 = N := by omega
    simp [hN, List.range_eq_range']
  refine ⟨_, hrun, rfl, by simp, ?_, ?_, ?_⟩
  · simp only [List.map_map]
    apply List.map_congr_left
    intro i _
    simp [List.getElem?_set, hlen]
  · intro c hc j hj
    simp only [List.mem_map, List.mem_range] at hc
    obtain ⟨i, _, rfl⟩ := hc
    rw [List.getElem?_set_ne (Ne.symm hj)]
  · intro c hc
    simp only [List.mem_map, List.mem_range] at hc
    obtain ⟨i, hi, rfl⟩ := hc
    exact ⟨i, by simp [List.getElem?_set, hlen], by omega⟩

/-- Witness for C1: a count of 3 with five other argument words. -/
theorem computePointRange_calls_witness :
    ∃ calls, computePointRange [10, 11, 3, 13, 14, 15] 5 = some calls ∧
      calls = (List.range 3).map (fun i => [10, 11, 3, 13, 14, 15].set argumentIndex i) ∧
      calls.length = 3 ∧
      calls.map (fun call => call[argumentIndex]?) = (List.range 3).map some ∧
      (∀ call ∈ calls, ∀ j, j ≠ argumentIndex → call[j]? = [10, 11, 3, 13, 14, 15][j]?) ∧
      (∀ call ∈ calls, ∃ i, call[argumentIndex]? = some i ∧ i ≤ 3 - 1) :=
  computePointRange_calls [10, 11, 3, 13, 14, 15] 3 5 (by decide) (by decide) (by norm_num)
    (by decide)

/-! ### registerVolumes -/

/-- When no grid has both the name and the value type of the entry, the inner loop ends
without a matched grid, and `matchedName` tells whether some grid had the name. -/
theorem matchGrid_none (iter : VolumeData) :
    ∀ (grids : List Grid) (b : Bool),
      (∀ g ∈ grids, ¬ (g.name = iter.mName ∧ g.valueType = iter.mType)) →
      matchGrid iter grids b = (b || grids.any (fun g => decide (g.name = iter.mName)), none) := by
  intro grids
  induction grids with
  | nil => intro b _; simp [matchGrid]
  | cons g rest ih =>
      intro b h
      have hg := h g (List.mem_cons_self _ _)
      have hrest : ∀ g' ∈ rest, ¬ (g'.name = iter.mName ∧ g'.valueType = iter.mType) :=
        fun g' hg' => h g' (List.mem_cons_of_mem _ hg')
      by_cases hn : g.name = iter.mName
      · have ht : g.valueType ≠ iter.mType := fun ht => hg ⟨hn, ht⟩
        simp [matchGrid, hn, ht, ih true hrest]
      · simp [matchGrid, hn, ih b hrest]

/-- When some grid has both the name and the value type of the entry, the inner loop ends
at the first such grid. -/
theorem matchGrid_some (iter : VolumeData) :
    ∀ (grids : List Grid) (b : Bool),
      (∃ g ∈ grids, g.name = iter.mName ∧ g.valueType = iter.mType) →
      ∃ (k : Nat) (g : Grid), grids[k]? = some g ∧ matchGrid iter grids b = (true, some g) ∧
        g.name = iter.mName ∧ g.valueType = iter.mType ∧
        ∀ (j : Nat), j < k → ∀ (g' : Grid), grids[j]? = some g' →
          ¬ (g'.name = iter.mName ∧ g'.valueType = iter.mType) := by
  intro grids
  induction grids with
  | nil => intro b h; simp at h
  | cons g rest ih =>
      intro b h
      by_cases hg : g.name = iter.mName ∧ g.valueType = iter.mType
      · refine ⟨0, g, by simp, by simp [matchGrid, hg.1, hg.2], hg.1, hg.2, ?_⟩
        intro j hj
        omega
      · have hrest : ∃ g' ∈ rest, g'.name = iter.mName ∧ g'.valueType = iter.mType := by
          obtain ⟨g', hmem, hm⟩ := h
          rcases List.mem_cons.mp hmem with rfl | hmem'
          · exact absurd hm hg
          · exact ⟨g', hmem', hm⟩
        have step : ∃ b', matchGrid iter (g :: rest) b = matchGrid iter rest b' := by
          by_cases hn : g.name = iter.mName
          · have ht : g.valueType ≠ iter.mType := fun ht => hg ⟨hn, ht⟩
            exact ⟨true, by simp [matchGrid, hn, ht]⟩
          · exact ⟨b, by simp [matchGrid, hn]⟩
        obtain ⟨b', hb'⟩ := step
        obtain ⟨k, g', hk, hmatch, hname, htype, hfirst⟩ := ih b' hrest
        refine ⟨k + 1, g', by simpa using hk, by rw [hb', hmatch], hname, htype, ?_⟩
        intro j hj g'' hj'
        cases j with
        | zero =>
            simp at hj'
            subst hj'
            exact hg
        | succ j => exact hfirst j (by omega) g'' (by simpa using hj')

/-- C2. For every grid collection and registry entry processed by `registerVolumes`: when
no grid has the entry's name a `LookupError` is thrown; when some grid has the name but no
grid has both the name and the value type a `TypeError` is thrown; otherwise the entry
resolves to the first grid, in collection order, whose name and value type both match. The
loop of `registerVolumes` stops at the exception of an entry and otherwise appends the
resolved grid and goes on. -/
theorem resolveVolume_cases (grids : List Grid) (iter : VolumeData) :
    ((∀ g ∈ grids, g.name ≠ iter.mName) →
      resolveVolume grids iter = .error (.exception .LookupError)) ∧
    ((∃ g ∈ grids, g.name = iter.mName) →
      (∀ g ∈ grids, ¬ (g.name = iter.mName ∧ g.valueType = iter.mType)) →
      resolveVolume grids iter = .error (.exception .TypeError)) ∧
    ((∃ g ∈ grids, g.name = iter.mName ∧ g.valueType = iter.mType) →
      ∃ (k : Nat) (g : Grid), grids[k]? = some g ∧ resolveVolume grids iter = .ok g ∧
        g.name = iter.mName ∧ g.valueType = iter.mType ∧
        ∀ (j : Nat), j < k → ∀ (g' : Grid), grids[j]? = some g' →
          ¬ (g'.name = iter.mName ∧ g'.valueType = iter.mType)) ∧
    (∀ (writeableGrids usableGrids : List Grid) (rest : List VolumeData),
      registerVolumes grids writeableGrids usableGrids (iter :: rest)
        = match resolveVolume grids iter with
          | .error e => .error e
          | .ok g =>
              registerVolumes grids
                (if iter.mWriteable then writeableGrids ++ [g] else writeableGrids)
                (usableGrids ++ [g]) rest) := by
  refine ⟨?_, ?_, ?_, ?_⟩
  · intro hno
    have hnone := matchGrid_none iter grids false (fun g hg hm => hno g hg hm.1)
    have hany : grids.any (fun g => decide (g.name = iter.mName)) = false := by
      rw [List.any_eq_false]
      intro g hg
      simpa using hno g hg
    simp [resolveVolume, hnone, hany]
  · intro hname hno
    have hnone := matchGrid_none iter grids false hno
    have hany : grids.any (fun g => decide (g.name = iter.mName)) = true := by
      rw [List.any_eq_true]
      obtain ⟨g, hg, hn⟩ := hname
      exact ⟨g, hg, by simpa using hn⟩
    simp [resolveVolume, hnone, hany]
  · intro hboth
    obtain ⟨k, g, hk, hmatch, hname, htype, hfirst⟩ := matchGrid_some iter grids false hboth
    exact ⟨k, g, hk, by simp [resolveVolume, hmatch], hname, htype, hfirst⟩
  · intro w u rest
    rfl

/-- Witness for C2: a collection holding "density" as int and as float, queried for a
missing name, for "density" as double, and for "density" as float. -/
theorem resolveVolume_cases_witness :
    resolveVolume [⟨1, "density", "int32", 7, []⟩, ⟨2, "density", "float", 8, []⟩]
        ⟨"temperature", "float", false⟩ = .error (.exception .LookupError) ∧
    resolveVolume [⟨1, "density", "int32", 7, []⟩, ⟨2, "density", "float", 8, []⟩]
        ⟨"density", "double", false⟩ = .error (.exception .TypeError) ∧
    (∃ (k : Nat) (g : Grid), [(⟨1, "density", "int32", 7, []⟩ : Grid), ⟨2, "density", "float", 8, []⟩][k]? = some g ∧
      resolveVolume [⟨1, "density", "int32", 7, []⟩, ⟨2, "density", "float", 8, []⟩]
        ⟨"density", "float", true⟩ = .ok g ∧
      g.name = "density" ∧ g.valueType = "float" ∧
      ∀ (j : Nat), j < k → ∀ (g' : Grid),
        [(⟨1, "density", "int32", 7, []⟩ : Grid), ⟨2, "density", "float", 8, []⟩][j]? = some g' →
        ¬ (g'.name = "density" ∧ g'.valueType = "float")) :=
  ⟨(resolveVolume_cases _ ⟨"temperature", "float", false⟩).1 (by decide),
   (resolveVolume_cases _ ⟨"density", "double", false⟩).2.1 (by decide) (by decide),
   (resolveVolume_cases _ ⟨"density", "float", true⟩).2.2.1 (by decide)⟩

theorem invokeVoxels_block (block compute transform : Nat) :
    ∀ (range : List Coord) (args : VolumeFunctionArguments),
      ∀ ev ∈ invokeVoxels block compute transform args range, ev.block = block := by
  intro range
  induction range with
  | nil => intro args ev hev; simp [invokeVoxels] at hev
  | cons voxel rest ih =>
      intro args ev hev
      simp only [invokeVoxels, List.mem_cons] at hev
      rcases hev with rfl | hev
      · rfl
      · exact ih _ ev hev

theorem VolumeExecuterOp_block (registry : List VolumeData) (customData transform compute : Nat)
    (mGrids : List Grid) (block : Nat) (range : List Coord) :
    ∀ ev ∈ (VolumeExecuterOp registry customData transform compute mGrids block range).trace,
      ev.block = block := by
  intro ev hev
  unfold VolumeExecuterOp at hev
  split at hev
  · simp at hev
  · exact invokeVoxels_block _ _ _ _ _ ev hev

theorem parallelFor_block (op : List Coord → Outcome) (block : Nat)
    (hop : ∀ range, ∀ ev ∈ (op range).trace, ev.block = block) :
    ∀ (ranges : List (List Coord)) (k : Nat),
      ∀ ev ∈ (parallelFor op block ranges k).trace, ev.block = block := by
  intro ranges
  induction ranges with
  | nil => intro k ev hev; simp [parallelFor] at hev
  | cons range rest ih =>
      intro k ev hev
      rw [parallelFor] at hev
      simp only at hev
      split at hev
      · simp only [List.mem_cons] at hev
        rcases hev with rfl | hev
        · rfl
        · exact hop range ev hev
      · simp only [List.cons_append, List.mem_cons, List.mem_append] at hev
        rcases hev with rfl | hev | hev
        · rfl
        · exact hop range ev hev
        · exact ih (k + 1) ev hev

theorem dispatchBlock_block (exe : VolumeExecutable) (usableGrids : List Grid)
    (i compute writeTransform : Nat) (gridToModify : Grid) :
    ∀ ev ∈ (dispatchBlock exe usableGrids i compute writeTransform gridToModify).trace,
      ev.block = i := by
  intro ev hev
  have hpar := parallelFor_block
    (VolumeExecuterOp exe.mVolumeRegistry exe.mCustomData writeTransform compute usableGrids i) i
    (fun range => VolumeExecuterOp_block _ _ _ _ _ _ range) gridToModify.leafRanges 0
  unfold dispatchBlock at hev
  simp only at hev
  split_ifs at hev
  all_goals first
    | exact hpar ev hev
    | simp at hev

/-- Every event of a block carries the index of the block. -/
theorem executeBlock_block (exe : VolumeExecutable) (usableGrids writeableGrids : List Grid)
    (i : Nat) (blockFunctions : List (String × Nat)) :
    ∀ ev ∈ (executeBlock exe usableGrids writeableGrids i blockFunctions).trace,
      ev.block = i := by
  intro ev hev
  unfold executeBlock at hev
  simp only at hev
  split_ifs at hev
  · simp at hev
  · split at hev
    · simp at hev
    · split at hev
      · simp at hev
      · exact dispatchBlock_block _ _ _ _ _ _ ev hev

/-- The events of the block loop started at block `start` belong to the blocks
`start, ..., start + n - 1` it runs over. -/
theorem executeBlocks_block (exe : VolumeExecutable) (usableGrids writeableGrids : List Grid) :
    ∀ (blocks : List (List (String × Nat))) (start : Nat),
      ∀ ev ∈ (executeBlocks exe usableGrids writeableGrids blocks start).trace,
        start ≤ ev.block ∧ ev.block < start + blocks.length := by
  intro blocks
  induction blocks with
  | nil => intro start ev hev; simp [executeBlocks] at hev
  | cons bf rest ih =>
      intro start ev hev
      have hb := executeBlock_block exe usableGrids writeableGrids start bf
      rw [executeBlocks] at hev
      simp only at hev
      split at hev
      · have := hb ev hev
        simp only [List.length_cons]
        omega
      · simp only [List.mem_append] at hev
        simp only [List.length_cons]
        rcases hev with hev | hev
        · have := hb ev hev
          omega
        · have := ih (start + 1) ev hev
          omega

/-- The block loop run over blocks of which the first `i` complete: it is the run over
these `i` blocks followed by the run over the remaining blocks. -/
theorem executeBlocks_split (exe : VolumeExecutable) (usableGrids writeableGrids : List Grid) :
    ∀ (i : Nat) (blocks : List (List (String × Nat))) (start : Nat),
      (∀ (j : Nat) (bf : List (String × Nat)), j < i → blocks[j]? = some bf →
        (executeBlock exe usableGrids writeableGrids (start + j) bf).abort = none) →
      (executeBlocks exe usableGrids writeableGrids (blocks.take i) start).abort = none ∧
      executeBlocks exe usableGrids writeableGrids blocks start
        = ⟨(executeBlocks exe usableGrids writeableGrids (blocks.take i) start).trace
              ++ (executeBlocks exe usableGrids writeableGrids (blocks.drop i) (start + i)).trace,
           (executeBlocks exe usableGrids writeableGrids (blocks.drop i) (start + i)).abort⟩ := by
  intro i
  induction i with
  | zero => intro blocks start _; simp [executeBlocks]
  | succ i ih =>
      intro blocks start hprev
      cases blocks with
      | nil => simp [executeBlocks]
      | cons bf rest =>
          have h0 : (executeBlock exe usableGrids writeableGrids start bf).abort = none := by
            simpa using hprev 0 bf (by omega) (by simp)
          have hrest := ih rest (start + 1) (by
            intro j bf' hj hget
            have := hprev (j + 1) bf' (by omega) (by simpa using hget)
            rwa [show start + (j + 1) = start + 1 + j by omega] at this)
          obtain ⟨hnone, hsplit⟩ := hrest
          have hidx : start + 1 + i = start + (i + 1) := by omega
          rw [hidx] at hsplit
          simp only [List.take_succ_cons, List.drop_succ_cons]
          constructor
          · rw [executeBlocks]
            simp only [h0]
            exact hnone
          · rw [executeBlocks]
            simp only [h0]
            rw [hsplit]
            conv_rhs => rw [executeBlocks]
            simp only [h0, List.append_assoc]

/-- The claim C3 as stated fails: with two blocks of which the first is well formed and the
second has a zero function address, `execute` throws the `AXCompilerError` after the ranges
of the first block have been scheduled and its kernel invoked. -/
theorem execute_error_after_first_block :
    (VolumeExecutable.execute
        ⟨[⟨"a", "float", true⟩], 9, [[("compute_voxel0", 7)], [("compute_voxel1", 0)]],
         ["a", "a"]⟩
        [⟨1, "a", "float", 100, [[(0, 0, 0)]]⟩])
      = ⟨[.rangeScheduled 0 0,
          .kernelInvoked 0 7 ⟨9, (0, 0, 0), (100, (0, 0, 0)), [⟨1, "float"⟩], [100]⟩],
         some (.exception .AXCompilerError)⟩ := by
  decide

/-- C3, amended. When `registerVolumes` throws, `execute` ends with that exception and an
empty trace: no range scheduled, no kernel invoked. A block without a non-zero function
address ends with the `AXCompilerError`, and a block with a function address whose target
grid has none of the nine dispatched value types ends with the `TypeError`, both with an
empty trace of their own.
When block `i` ends so and the blocks before it complete, `execute` ends with that exception
after exactly the events of the blocks `0, ..., i - 1`: no range has been scheduled and no
kernel invoked for block `i` or any later block. -/
theorem execute_abort_trace (exe : VolumeExecutable) (grids : List Grid) :
    (∀ a : Abort, registerVolumes grids [] [] exe.mVolumeRegistry = .error a →
      exe.execute grids = ⟨[], some a⟩) ∧
    (∀ (usableGrids writeableGrids : List Grid) (i : Nat) (bf : List (String × Nat)),
      computeOfBlock bf i = 0 →
      executeBlock exe usableGrids writeableGrids i bf
        = ⟨[], some (.exception .AXCompilerError)⟩) ∧
    (∀ (usableGrids writeableGrids : List Grid) (i : Nat) (bf : List (String × Nat))
        (currentVolumeAssigned : String) (gridToModify : Grid),
      computeOfBlock bf i ≠ 0 →
      exe.mAssignedVolumes[i]? = some currentVolumeAssigned →
      writeableGrids.find? (fun grid => grid.name == currentVolumeAssigned)
        = some gridToModify →
      gridToModify.valueType ∉
        [typeNameAsString_bool, typeNameAsString_int32, typeNameAsString_int64,
         typeNameAsString_float, typeNameAsString_double, typeNameAsString_vec3i,
         typeNameAsString_vec3s, typeNameAsString_vec3d, typeNameAsString_mask] →
      executeBlock exe usableGrids writeableGrids i bf
        = ⟨[], some (.exception .TypeError)⟩) ∧
    (∀ (writeableGrids usableGrids : List Grid) (i : Nat) (bf : List (String × Nat))
        (a : Abort),
      registerVolumes grids [] [] exe.mVolumeRegistry = .ok (writeableGrids, usableGrids) →
      exe.mBlockFunctionAddresses[i]? = some bf →
      (∀ (j : Nat) (bf' : List (String × Nat)), j < i →
        exe.mBlockFunctionAddresses[j]? = some bf' →
        (executeBlock exe usableGrids writeableGrids j bf').abort = none) →
      executeBlock exe usableGrids writeableGrids i bf = ⟨[], some a⟩ →
      (exe.execute grids).abort = some a ∧
      (exe.execute grids).trace
        = (executeBlocks exe usableGrids writeableGrids
            (exe.mBlockFunctionAddresses.take i) 0).trace ∧
      (executeBlocks exe usableGrids writeableGrids
            (exe.mBlockFunctionAddresses.take i) 0).abort = none ∧
      ∀ ev ∈ (exe.execute grids).trace, ev.block < i) := by
  refine ⟨?_, ?_, ?_, ?_⟩
  · intro a h
    simp [VolumeExecutable.execute, h]
  · intro u w i bf h
    simp [executeBlock, h]
  · intro u w i bf name g hcompute hassigned hfind h
    simp only [List.mem_cons, List.mem_singleton, List.not_mem_nil, or_false, not_or] at h
    obtain ⟨h1, h2, h3, h4, h5, h6, h7, h8, h9⟩ := h
    simp [executeBlock, hcompute, hassigned, hfind, dispatchBlock, Grid.isType, h1, h2, h3, h4,
      h5, h6, h7, h8, h9]
  · intro w u i bf a hreg hget hprev hfail
    have hlt : i < exe.mBlockFunctionAddresses.length := by
      by_contra hge
      rw [List.getElem?_eq_none (by omega)] at hget
      exact absurd hget (by simp)
    obtain ⟨hnone, hsplit⟩ := executeBlocks_split exe u w i exe.mBlockFunctionAddresses 0
      (by
        intro j bf' hj hgetj
        simpa using hprev j bf' hj hgetj)
    have hdrop : exe.mBlockFunctionAddresses.drop i
        = bf :: exe.mBlockFunctionAddresses.drop (i + 1) := by
      rw [List.getElem?_eq_getElem hlt] at hget
      rw [← Option.some.inj hget]
      exact List.drop_eq_getElem_cons hlt
    have htail : executeBlocks exe u w (exe.mBlockFunctionAddresses.drop i) (0 + i)
        = ⟨[], some a⟩ := by
      rw [hdrop, executeBlocks]
      simp [hfail]
    have hexec : exe.execute grids
        = ⟨(executeBlocks exe u w (exe.mBlockFunctionAddresses.take i) 0).trace, some a⟩ := by
      simp only [VolumeExecutable.execute, hreg]
      rw [hsplit, htail]
      simp
    refine ⟨by rw [hexec], by rw [hexec], hnone, ?_⟩
    intro ev hev
    rw [hexec] at hev
    have := executeBlocks_block exe u w _ 0 ev hev
    have hlen : (exe.mBlockFunctionAddresses.take i).length ≤ i := by simp
    omega

/-- Witness for C3, amended: a missing grid; a block without function address; a target of
an undispatched value type; and two blocks of which the second has a zero function
address, run on one float grid. -/
theorem execute_abort_trace_witness :
    VolumeExecutable.execute ⟨[⟨"a", "float", true⟩], 9, [[("compute_voxel0", 7)]], ["a"]⟩ []
      = ⟨[], some (.exception .LookupError)⟩ ∧
    executeBlock ⟨[], 9, [[]], ["a"]⟩ [] [] 0 [] = ⟨[], some (.exception .AXCompilerError)⟩ ∧
    executeBlock ⟨[], 9, [[("compute_voxel0", 7)]], ["a"]⟩ []
        [⟨1, "a", "string", 100, [[(0, 0, 0)]]⟩] 0 [("compute_voxel0", 7)]
      = ⟨[], some (.exception .TypeError)⟩ ∧
    ((VolumeExecutable.execute
        ⟨[⟨"a", "float", true⟩], 9, [[("compute_voxel0", 7)], [("compute_voxel1", 0)]],
         ["a", "a"]⟩
        [⟨1, "a", "float", 100, [[(0, 0, 0)]]⟩]).abort = some (.exception .AXCompilerError) ∧
     ∀ ev ∈ (VolumeExecutable.execute
        ⟨[⟨"a", "float", true⟩], 9, [[("compute_voxel0", 7)], [("compute_voxel1", 0)]],
         ["a", "a"]⟩
        [⟨1, "a", "float", 100, [[(0, 0, 0)]]⟩]).trace, ev.block < 1) :=
  ⟨(execute_abort_trace _ []).1 (.exception .LookupError) (by rfl),
   (execute_abort_trace ⟨[], 9, [[]], ["a"]⟩ []).2.1 [] [] 0 [] (by decide),
   (execute_abort_trace ⟨[], 9, [[("compute_voxel0", 7)]], ["a"]⟩ []).2.2.1 []
      [⟨1, "a", "string", 100, [[(0, 0, 0)]]⟩] 0 [("compute_voxel0", 7)] "a"
      ⟨1, "a", "string", 100, [[(0, 0, 0)]]⟩ (by decide) (by rfl) (by rfl) (by decide),
   have h := (execute_abort_trace
      ⟨[⟨"a", "float", true⟩], 9, [[("compute_voxel0", 7)], [("compute_voxel1", 0)]],
       ["a", "a"]⟩
      [⟨1, "a", "float", 100, [[(0, 0, 0)]]⟩]).2.2.2
      [⟨1, "a", "float", 100, [[(0, 0, 0)]]⟩] [⟨1, "a", "float", 100, [[(0, 0, 0)]]⟩]
      1 [("compute_voxel1", 0)] (.exception .AXCompilerError) (by rfl) (by rfl)
      (by
        intro j bf hj hget
        obtain rfl : j = 0 := by omega
        simp only [List.getElem?_cons_zero, Option.some.injEq] at hget
        subst hget
        decide)
      (by decide)
   ⟨h.1, h.2.2.2⟩⟩

/-- C4, the failing inputs. A block whose target is a 16-bit integer grid ends with the
`TypeError` of the target-type dispatch, which has no branch for that type although
`retrieveAccessor` has one; a block whose target is a mask grid passes the dispatch, which
has a branch for it, and ends with the `TypeError` of `retrieveAccessor`, which has none,
after its first range has been scheduled. Both hold for every executable: the dispatch
rejects every 16-bit integer target, and `retrieveAccessor` rejects the mask type for every
grid. -/
theorem execute_int16_mask_target :
    VolumeExecutable.execute
        ⟨[⟨"a", "int16", true⟩], 9, [[("compute_voxel0", 7)]], ["a"]⟩
        [⟨1, "a", "int16", 100, [[(0, 0, 0)]]⟩]
      = ⟨[], some (.exception .TypeError)⟩ ∧
    retrieveAccessor (VolumeFunctionArguments.new 9) ⟨1, "a", "int16", 100, [[(0, 0, 0)]]⟩
        "int16"
      = .ok (retrieveAccessorTyped "int16" (VolumeFunctionArguments.new 9)
          ⟨1, "a", "int16", 100, [[(0, 0, 0)]]⟩) ∧
    VolumeExecutable.execute
        ⟨[⟨"m", "mask", true⟩], 9, [[("compute_voxel0", 7)]], ["m"]⟩
        [⟨2, "m", "mask", 100, [[(0, 0, 0)]]⟩]
      = ⟨[.rangeScheduled 0 0], some (.exception .TypeError)⟩ ∧
    (∀ (exe : VolumeExecutable) (usableGrids : List Grid) (i compute writeTransform : Nat)
        (addr : Nat) (name : String) (transform : Nat) (leafRanges : List (List Coord)),
      dispatchBlock exe usableGrids i compute writeTransform
          ⟨addr, name, typeNameAsString_int16, transform, leafRanges⟩
        = ⟨[], some (.exception .TypeError)⟩) ∧
    (∀ (args : VolumeFunctionArguments) (grid : Grid),
      retrieveAccessor args grid typeNameAsString_mask = .error (.exception .TypeError)) := by
  refine ⟨by decide, by rfl, by decide, ?_, ?_⟩
  · intro exe u i compute wt addr name transform leafRanges
    simp [dispatchBlock, Grid.isType, typeNameAsString_int16, typeNameAsString_bool,
      typeNameAsString_int32, typeNameAsString_int64, typeNameAsString_float,
      typeNameAsString_double, typeNameAsString_vec3i, typeNameAsString_vec3s,
      typeNameAsString_vec3d, typeNameAsString_mask]
  · intro args grid
    simp [retrieveAccessor, typeNameAsString_int16, typeNameAsString_bool,
      typeNameAsString_int32, typeNameAsString_int64, typeNameAsString_float,
      typeNameAsString_double, typeNameAsString_vec3i, typeNameAsString_vec3s,
      typeNameAsString_vec3d, typeNameAsString_mask]

/-- C5, the failing input. A block assigned to the volume "b", for which no writeable grid
has been resolved, is given a function address: `execute` leaves `gridToModify` null and
dereferences it in the first `isType` test; no `LookupError` is thrown. -/
theorem execute_unresolved_target :
    VolumeExecutable.execute
        ⟨[⟨"a", "float", true⟩], 9, [[("compute_voxel0", 7)]], ["b"]⟩
        [⟨1, "a", "float", 100, [[(0, 0, 0)]]⟩]
      = ⟨[], some .nullDereference⟩ ∧
    VolumeExecutable.execute
        ⟨[⟨"a", "float", false⟩], 9, [[("compute_voxel0", 7)]], ["a"]⟩
        [⟨1, "a", "float", 100, [[(0, 0, 0)]]⟩]
      = ⟨[], some .nullDereference⟩ := by
  decide

/-! ### visit(AssignExpression) -/

/-- C7. For every attribute assignment (pending-attribute counter non-zero, handle and
right-hand location on the stack, the attribute known) whose left static type is
`array(N)` and whose right static type is `array(M)` with `N ≠ M`, the visit throws the
`LLVMArrayError`, and it has emitted no instruction by then: in particular no call of the
write-attribute or the write-position primitive. -/
theorem visitAssignExpression_size_mismatch (llvmTypeFromName : String → LType)
    (base : Generator → Visited) (node : AssignExpression) (s : Generator)
    (handlePtr rhs : Value) (rest : List Value) (lhsElement rhsElement : LType) (N M : Nat)
    (hcount : s.mAttributeVisitCount ≠ 0)
    (hstack : s.mValues = handlePtr :: rhs :: rest)
    (hhandle : handlePtr.type.isPointerTy = true)
    (hrhs : rhs.type = .pointer (.array rhsElement M))
    (hknown : node.mVariable.mName = "P" ∨
      getGlobalAttributeAccess node.mVariable.mName node.mVariable.mType ∈ s.globals)
    (hlhs : llvmTypeFromName node.mVariable.mType = .array lhsElement N)
    (hsize : N ≠ M) :
    (visitAssignExpression llvmTypeFromName base node s).abort
      = some (.exception .LLVMArrayError) ∧
    (visitAssignExpression llvmTypeFromName base node s).state.instructions = s.instructions ∧
    (∀ (function : String) (arguments : List Value),
      Instr.call function arguments
          ∈ (visitAssignExpression llvmTypeFromName base node s).state.instructions →
      Instr.call function arguments ∈ s.instructions) := by
  have hclass : assignmentTypeOf (.array lhsElement N) (.array rhsElement M)
      = .ARRAY_EQ_ARRAY := by
    simp [assignmentTypeOf, isCharType, isArrayType, LType.isArrayTy]
  have hrhsPtr : rhs.type.isPointerTy = true := by rw [hrhs]; rfl
  have hvisit : visitAssignExpression llvmTypeFromName base node s
      = ⟨{ s with mAttributeVisitCount := s.mAttributeVisitCount - 1, mValues := rhs :: rest },
         some (.exception .LLVMArrayError)⟩ := by
    unfold visitAssignExpression
    rw [if_neg hcount]
    simp only [hstack, hrhsPtr, hhandle, Bool.not_true, Bool.false_eq_true, if_false]
    rcases hknown with h | h
    · simp [h, hrhs, hlhs, hclass, convertRhs, LType.getContainedType0,
        LType.getArrayNumElements, hsize]
    · simp [h, hrhs, hlhs, hclass, convertRhs, LType.getContainedType0,
        LType.getArrayNumElements, hsize]
  rw [hvisit]
  exact ⟨rfl, rfl, fun _ _ h => h⟩

/-- Witness for C7: a three-element float array assigned to a four-element attribute. -/
theorem visitAssignExpression_size_mismatch_witness :
    (visitAssignExpression (fun _ => .array .float 4) (fun s => ⟨s, none⟩) ⟨⟨"v", "vec4s"⟩⟩
        ⟨1, [.register 1 (.pointer (.integer 8)), .register 0 (.pointer (.array .float 3))],
          [.alloca (.array .float 3), .load (.argument "attribute_handles" (.pointer (.pointer (.integer 8))))],
          ["_vec4s@v"]⟩).abort
      = some (.exception .LLVMArrayError) ∧
    (visitAssignExpression (fun _ => .array .float 4) (fun s => ⟨s, none⟩) ⟨⟨"v", "vec4s"⟩⟩
        ⟨1, [.register 1 (.pointer (.integer 8)), .register 0 (.pointer (.array .float 3))],
          [.alloca (.array .float 3), .load (.argument "attribute_handles" (.pointer (.pointer (.integer 8))))],
          ["_vec4s@v"]⟩).state.instructions
      = [.alloca (.array .float 3), .load (.argument "attribute_handles" (.pointer (.pointer (.integer 8))))] :=
  have h := visitAssignExpression_size_mismatch (fun _ => .array .float 4) (fun s => ⟨s, none⟩)
    ⟨⟨"v", "vec4s"⟩⟩
    ⟨1, [.register 1 (.pointer (.integer 8)), .register 0 (.pointer (.array .float 3))],
      [.alloca (.array .float 3), .load (.argument "attribute_handles" (.pointer (.pointer (.integer 8))))],
      ["_vec4s@v"]⟩
    (.register 1 (.pointer (.integer 8))) (.register 0 (.pointer (.array .float 3))) []
    .float .float 4 3 (by decide) rfl rfl rfl (Or.inr (by decide)) rfl (by decide)
  ⟨h.1, h.2.1⟩

/-- The classification never yields `UNSUPPORTED`: the second test is the negation of the
first, so the final `else` is dead. -/
theorem assignmentTypeOf_ne_unsupported (lhsType rhsType : LType) :
    assignmentTypeOf lhsType rhsType ≠ .UNSUPPORTED := by
  unfold assignmentTypeOf
  simp only
  split_ifs <;> simp_all

/-- Types of the same static kind answer the character test and the array test alike. -/
theorem staticKind_tests (t t1 : LType) (h : staticKind t = staticKind t1) :
    isCharType t = isCharType t1 ∧ isArrayType t = isArrayType t1 := by
  have hca : ∀ u : LType, isCharType u = true → isArrayType u = false := by
    intro u hu
    cases u <;> simp_all [isCharType, isArrayType, LType.isArrayTy]
  have ha := hca t
  have ha1 := hca t1
  unfold staticKind at h
  cases h1 : isCharType t <;> cases h2 : isCharType t1 <;> cases h3 : isArrayType t <;>
    cases h4 : isArrayType t1 <;> simp_all

/-- C8. The classification of an attribute assignment is exhaustive and deterministic:
every pair of static types is given exactly one of the six outcomes (the five rules and the
unsupported case); the outcome depends only on the static kinds of the two types; and the
switch on it either throws the cast error (unsupported case), or throws the array error
(array rule with differing sizes), or yields the converted value of the rule. -/
theorem assignmentTypeOf_exhaustive (lhsType rhsType : LType) :
    (∃! a : AssignmentType, assignmentTypeOf lhsType rhsType = a) ∧
    (∀ lhsType1 rhsType1 : LType,
      staticKind lhsType = staticKind lhsType1 → staticKind rhsType = staticKind rhsType1 →
      assignmentTypeOf lhsType rhsType = assignmentTypeOf lhsType1 rhsType1) ∧
    (∀ (rhs : Value) (s : Generator),
      (assignmentTypeOf lhsType rhsType = .UNSUPPORTED ∧
        convertRhs (assignmentTypeOf lhsType rhsType) lhsType rhsType rhs s
          = .error .LLVMCastError) ∨
      (assignmentTypeOf lhsType rhsType = .ARRAY_EQ_ARRAY ∧
        convertRhs (assignmentTypeOf lhsType rhsType) lhsType rhsType rhs s
          = .error .LLVMArrayError) ∨
      (assignmentTypeOf lhsType rhsType ∈
          [AssignmentType.STRING_EQ_STRING, .ARRAY_EQ_ARRAY, .SCALAR_EQ_ARRAY, .ARRAY_EQ_SCALAR,
           .SCALAR_EQ_SCALAR] ∧
        ∃ r, convertRhs (assignmentTypeOf lhsType rhsType) lhsType rhsType rhs s = .ok r)) := by
  refine ⟨⟨_, rfl, fun a h => h.symm⟩, ?_, ?_⟩
  · intro l1 r1 hl hr
    obtain ⟨hcl, hal⟩ := staticKind_tests lhsType l1 hl
    obtain ⟨hcr, har⟩ := staticKind_tests rhsType r1 hr
    unfold assignmentTypeOf
    rw [hcl, hcr, hal, har]
  · intro rhs s
    cases h : assignmentTypeOf lhsType rhsType with
    | UNSUPPORTED => exact Or.inl ⟨rfl, rfl⟩
    | STRING_EQ_STRING => exact Or.inr (Or.inr ⟨by simp, _, rfl⟩)
    | ARRAY_EQ_ARRAY =>
        by_cases hs : lhsType.getArrayNumElements = rhsType.getArrayNumElements
        · refine Or.inr (Or.inr ⟨by simp, ?_⟩)
          simp [convertRhs, hs]
        · exact Or.inr (Or.inl ⟨rfl, by simp [convertRhs, hs]⟩)
    | SCALAR_EQ_ARRAY => exact Or.inr (Or.inr ⟨by simp, _, rfl⟩)
    | ARRAY_EQ_SCALAR => exact Or.inr (Or.inr ⟨by simp, _, rfl⟩)
    | SCALAR_EQ_SCALAR => exact Or.inr (Or.inr ⟨by simp, _, rfl⟩)

/-- Witness for C8: a float and a 32-bit integer on the left, arrays of three floats and
of three doubles on the right, are classified alike. -/
theorem assignmentTypeOf_exhaustive_witness :
    assignmentTypeOf .float (.array .float 3)
      = assignmentTypeOf (.integer 32) (.array .double 3) :=
  (assignmentTypeOf_exhaustive .float (.array .float 3)).2.1 (.integer 32) (.array .double 3)
    (by decide) (by decide)

/-- C9, the failing input. A string assigned to a float attribute, and a float assigned
to a string, are classified as scalar = scalar, not as unsupported; the visit of the float
attribute `a` with a string on the right completes and emits the load, the arithmetic
conversion and the call of the write-attribute primitive. -/
theorem assignmentTypeOf_string_numeric :
    assignmentTypeOf .float (.integer 8) = .SCALAR_EQ_SCALAR ∧
    assignmentTypeOf (.integer 8) .float = .SCALAR_EQ_SCALAR ∧
    assignmentTypeOf (.array .float 3) (.integer 8) = .ARRAY_EQ_SCALAR ∧
    visitAssignExpression (fun _ => .float) (fun s => ⟨s, none⟩) ⟨⟨"a", "float"⟩⟩
        ⟨1, [.register 1 (.pointer (.integer 8)), .register 0 (.pointer (.integer 8))],
          [.alloca (.integer 8),
           .load (.argument "attribute_handles" (.pointer (.pointer (.integer 8))))],
          ["_float@a"]⟩
      = ⟨⟨0, [.register 0 (.pointer (.integer 8))],
          [.alloca (.integer 8),
           .load (.argument "attribute_handles" (.pointer (.pointer (.integer 8)))),
           .load (.register 0 (.pointer (.integer 8))),
           .arithmeticConversion (.register 2 (.integer 8)) .float,
           .call "setattribute"
             [.register 1 (.pointer (.integer 8)), pointIndexArgument,
              .register 3 .float]],
          ["_float@a"]⟩, none⟩ := by
  refine ⟨by decide, by decide, by decide, by decide⟩

/-! ### visit(Crement) -/

/-- A value available before instruction `n` keeps its run-time value when a register of
index `n` or more is set. -/
theorem evalValue_setRegister (m : Machine) (v : Value) (n i : Nat) (x : RVal)
    (hv : v.definedBefore n) (hi : n ≤ i) :
    evalValue (m.setRegister i x) v = evalValue m v := by
  cases v with
  | register index t =>
      have hne : index ≠ i := by
        simp only [Value.definedBefore] at hv
        omega
      simp [evalValue, Machine.setRegister, hne]
  | argument key t => rfl
  | constantInt t value => rfl
  | constantFP t value => rfl

theorem evalValue_allocate (m : Machine) (v : Value) :
    evalValue m.allocate v = evalValue m v := by
  cases v <;> rfl

theorem evalValue_write (m : Machine) (v : Value) (a : Nat) (x : RVal) :
    evalValue (m.write a x) v = evalValue m v := by
  cases v <;> rfl

theorem evalValue_record (m : Machine) (v : Value) (f : String) (xs : List RVal) :
    evalValue (m.record f xs) v = evalValue m v := by
  cases v <;> rfl

theorem evalValue_register (m : Machine) (i j : Nat) (x : RVal) (t : LType) :
    evalValue (m.setRegister i x) (.register j t)
      = if j = i then some x else evalValue m (.register j t) := by
  simp [evalValue, Machine.setRegister]

theorem evalValue_argument (m : Machine) (key : String) (t : LType) :
    evalValue m (.argument key t) = m.arguments key := rfl

theorem Machine.arguments_setRegister (m : Machine) (i : Nat) (x : RVal) :
    (m.setRegister i x).arguments = m.arguments := rfl

theorem Machine.arguments_allocate (m : Machine) : m.allocate.arguments = m.arguments := rfl

theorem Machine.arguments_write (m : Machine) (a : Nat) (x : RVal) :
    (m.write a x).arguments = m.arguments := rfl

theorem Machine.nextAddress_setRegister (m : Machine) (i : Nat) (x : RVal) :
    (m.setRegister i x).nextAddress = m.nextAddress := rfl

theorem Machine.nextAddress_record (m : Machine) (f : String) (xs : List RVal) :
    (m.record f xs).nextAddress = m.nextAddress := rfl

theorem Machine.memory_setRegister (m : Machine) (i : Nat) (x : RVal) :
    (m.setRegister i x).memory = m.memory := rfl

theorem Machine.memory_record (m : Machine) (f : String) (xs : List RVal) :
    (m.record f xs).memory = m.memory := rfl

theorem Machine.memory_write (m : Machine) (a : Nat) (x : RVal) (b : Nat) :
    (m.write a x).memory b = if b = a then some x else m.memory b := rfl

theorem Machine.calls_setRegister (m : Machine) (i : Nat) (x : RVal) :
    (m.setRegister i x).calls = m.calls := rfl

theorem Machine.calls_allocate (m : Machine) : m.allocate.calls = m.calls := rfl

theorem Machine.calls_write (m : Machine) (a : Nat) (x : RVal) :
    (m.write a x).calls = m.calls := rfl

theorem Machine.calls_record (m : Machine) (f : String) (xs : List RVal) :
    (m.record f xs).calls = m.calls ++ [(f, xs)] := rfl

theorem execInstr_alloca (fadd : Rat → Rat → Rat) (i : Nat) (t : LType) (m : Machine) :
    execInstr fadd i (.alloca t) m = some (m.setRegister i (.ptr m.nextAddress)).allocate := rfl

theorem execInstr_load (fadd : Rat → Rat → Rat) (i : Nat) (p : Value) (m : Machine) (a : Nat)
    (v : RVal) (hp : evalValue m p = some (.ptr a)) (hv : m.memory a = some v) :
    execInstr fadd i (.load p) m = some (m.setRegister i v) := by
  simp [execInstr, hp, hv]

theorem execInstr_store (fadd : Rat → Rat → Rat) (i : Nat) (x p : Value) (m : Machine) (a : Nat)
    (v : RVal) (hx : evalValue m x = some v) (hp : evalValue m p = some (.ptr a)) :
    execInstr fadd i (.store x p) m = some (m.write a v) := by
  simp [execInstr, hp, hx]

theorem execInstr_call (fadd : Rat → Rat → Rat) (i : Nat) (f : String) (args : List Value)
    (m : Machine) (values : List RVal) (h : evalValues m args = some values) :
    execInstr fadd i (.call f args) m = some (m.record f values) := by
  simp [execInstr, h]

/-- The instructions of a post-form crement, run: the current value is saved to a fresh
location, the new value `w` computed by `addInstr` is passed to the write primitive. -/
theorem runInstrs_postCrement (fadd : Rat → Rat → Rat) (n : Nat) (m : Machine)
    (rhsPtr lhs : Value) (t : LType) (addInstr : Instr) (a : Nat) (v w h idx : RVal)
    (hscopeL : lhs.definedBefore n)
    (hptr : evalValue m rhsPtr = some (.ptr a)) (hmem : m.memory a = some v)
    (hlhs : evalValue m lhs = some h) (hidx : m.arguments "point_index" = some idx)
    (hadd : ∀ m0 : Machine, evalValue m0 (.register n t) = some v →
      execInstr fadd (n + 3) addInstr m0 = some (m0.setRegister (n + 3) w)) :
    (runInstrs fadd n
        [.load rhsPtr, .alloca t, .store (.register n t) (.register (n + 1) (.pointer t)),
         addInstr, .call "setattribute" [lhs, pointIndexArgument, .register (n + 3) t]] m).map
      (fun m1 => (m1.calls, evalValue m1 (.register (n + 1) (.pointer t)),
        m1.memory m.nextAddress))
      = some (m.calls ++ [("setattribute", [h, idx, w])], some (.ptr m.nextAddress), some v) := by
  have hl : ∀ (m0 : Machine) (i : Nat) (x : RVal), n ≤ i →
      evalValue (m0.setRegister i x) lhs = evalValue m0 lhs :=
    fun m0 i x hi => evalValue_setRegister m0 lhs n i x hscopeL hi
  have s1 := execInstr_load fadd n rhsPtr m a v hptr hmem
  have s2 := execInstr_alloca fadd (n + 1) t (m.setRegister n v)
  have s3 := execInstr_store fadd (n + 2) (.register n t) (.register (n + 1) (.pointer t))
    ((m.setRegister n v).setRegister (n + 1) (.ptr m.nextAddress)).allocate m.nextAddress v
    (by simp [evalValue_allocate, evalValue_register])
    (by simp [evalValue_allocate, evalValue_register])
  have s4 := hadd
    (((m.setRegister n v).setRegister (n + 1) (.ptr m.nextAddress)).allocate.write
      m.nextAddress v)
    (by simp [evalValue_allocate, evalValue_write, evalValue_register])
  have s5 := execInstr_call fadd (n + 4) "setattribute"
    [lhs, pointIndexArgument, .register (n + 3) t]
    ((((m.setRegister n v).setRegister (n + 1) (.ptr m.nextAddress)).allocate.write
      m.nextAddress v).setRegister (n + 3) w) [h, idx, w]
    (by simp [evalValues, hl, hlhs, hidx, pointIndexArgument, evalValue_allocate, evalValue_write,
          evalValue_register, evalValue_argument, Machine.arguments_setRegister,
          Machine.arguments_allocate, Machine.arguments_write])
  simp only [runInstrs, s1, s2, s3, s4, s5, Machine.nextAddress_setRegister]
  simp [evalValue_allocate, evalValue_write, evalValue_record, evalValue_register,
    Machine.memory_setRegister, Machine.memory_record, Machine.memory_write,
    Machine.calls_setRegister, Machine.calls_allocate, Machine.calls_write,
    Machine.calls_record]

/-- The instructions of a pre-form crement, run: the new value `w` computed by `addInstr`
is passed to the write primitive and stored to a fresh location. -/
theorem runInstrs_preCrement (fadd : Rat → Rat → Rat) (n : Nat) (m : Machine)
    (rhsPtr lhs : Value) (t : LType) (addInstr : Instr) (a : Nat) (v w h idx : RVal)
    (hscopeL : lhs.definedBefore n)
    (hptr : evalValue m rhsPtr = some (.ptr a)) (hmem : m.memory a = some v)
    (hlhs : evalValue m lhs = some h) (hidx : m.arguments "point_index" = some idx)
    (hadd : ∀ m0 : Machine, evalValue m0 (.register n t) = some v →
      execInstr fadd (n + 1) addInstr m0 = some (m0.setRegister (n + 1) w)) :
    (runInstrs fadd n
        [.load rhsPtr, addInstr,
         .call "setattribute" [lhs, pointIndexArgument, .register (n + 1) t],
         .alloca t, .store (.register (n + 1) t) (.register (n + 3) (.pointer t))] m).map
      (fun m1 => (m1.calls, evalValue m1 (.register (n + 3) (.pointer t)),
        m1.memory m.nextAddress))
      = some (m.calls ++ [("setattribute", [h, idx, w])], some (.ptr m.nextAddress), some w) := by
  have hl : ∀ (m0 : Machine) (i : Nat) (x : RVal), n ≤ i →
      evalValue (m0.setRegister i x) lhs = evalValue m0 lhs :=
    fun m0 i x hi => evalValue_setRegister m0 lhs n i x hscopeL hi
  have s1 := execInstr_load fadd n rhsPtr m a v hptr hmem
  have s2 := hadd (m.setRegister n v) (by simp [evalValue_register])
  have s3 := execInstr_call fadd (n + 2) "setattribute"
    [lhs, pointIndexArgument, .register (n + 1) t]
    ((m.setRegister n v).setRegister (n + 1) w) [h, idx, w]
    (by simp [evalValues, hl, hlhs, hidx, pointIndexArgument, evalValue_register,
          evalValue_argument, Machine.arguments_setRegister])
  have s4 := execInstr_alloca fadd (n + 3) t
    (((m.setRegister n v).setRegister (n + 1) w).record "setattribute" [h, idx, w])
  have s5 := execInstr_store fadd (n + 4) (.register (n + 1) t) (.register (n + 3) (.pointer t))
    ((((m.setRegister n v).setRegister (n + 1) w).record "setattribute"
        [h, idx, w]).setRegister (n + 3) (.ptr m.nextAddress)).allocate m.nextAddress w
    (by simp [evalValue_allocate, evalValue_record, evalValue_register])
    (by simp [evalValue_allocate, evalValue_register])
  simp only [Machine.nextAddress_setRegister, Machine.nextAddress_record] at s4
  simp only [runInstrs, s1, s2, s3, s4, s5]
  simp [evalValue_allocate, evalValue_write, evalValue_record, evalValue_register,
    Machine.memory_setRegister, Machine.memory_record, Machine.memory_write,
    Machine.calls_setRegister, Machine.calls_allocate, Machine.calls_write,
    Machine.calls_record]

/-- The constant `-1` of the crement, cut to a width of at most 64 bits, is the all-ones
pattern of that width modulo `2 ^ bits`. -/
theorem minusOne_mod (x bits : Nat) (hb : bits ≤ 64) :
    (x + (2 ^ 64 - 1) % 2 ^ bits) % 2 ^ bits = (x + (2 ^ bits - 1)) % 2 ^ bits := by
  have hk : 0 < 2 ^ (64 - bits) := Nat.two_pow_pos _
  have hsplit : (2 : Nat) ^ 64 = 2 ^ bits * 2 ^ (64 - bits) := by
    rw [← Nat.pow_add]
    congr 1
    omega
  have key : ∀ A k : Nat, 0 < A → A * (k + 1) - 1 = (A - 1) + A * k := by
    intro A k hA
    rw [Nat.mul_succ]
    omega
  have hdecomp : (2 : Nat) ^ 64 - 1 = (2 ^ bits - 1) + 2 ^ bits * (2 ^ (64 - bits) - 1) := by
    obtain ⟨k, hk1⟩ : ∃ k, 2 ^ (64 - bits) = k + 1 := ⟨2 ^ (64 - bits) - 1, by omega⟩
    rw [hsplit, hk1, Nat.add_sub_cancel]
    exact key _ k (Nat.two_pow_pos bits)
  rw [Nat.add_mod_mod, hdecomp, ← Nat.add_assoc, Nat.add_mul_mod_self_left]

/-- For a supported scalar type the type test of the crement selects an addition, and the
addition computes the value the specification asks for. -/
theorem crementInstr_spec (fadd : Rat → Rat → Rat) (t : LType) (v : RVal)
    (operation : CrementOperation) (oneOrMinusOne : Int) (n : Nat)
    (hval : supportedScalar t v) (hc : oneOrMinusOneOf operation = some oneOrMinusOne) :
    ∃ instr : Instr, crementInstr t (.register n t) oneOrMinusOne = some instr ∧
      ∀ (i : Nat) (m0 : Machine), evalValue m0 (.register n t) = some v →
        execInstr fadd i instr m0 = some (m0.setRegister i (crementSpec fadd t operation v)) := by
  cases t with
  | integer bits =>
      cases v with
      | int x =>
          obtain ⟨hb1, hb8, hb64, _⟩ := hval
          refine ⟨.add (.register n (.integer bits)) (constantIntOf (.integer bits) oneOrMinusOne),
            by simp [crementInstr, isCharType, LType.isIntegerTy, LType.isIntegerTyOf, hb1, hb8],
            ?_⟩
          intro i m0 hreg0
          have hreg : m0.registers n = some (.int x) := hreg0
          cases operation with
          | Other => simp [oneOrMinusOneOf] at hc
          | Increment =>
              obtain rfl : oneOrMinusOne = 1 := by simpa [oneOrMinusOneOf] using hc.symm
              have hone : ((1 : Int) % 2 ^ 64).toNat = 1 := by decide
              simp [execInstr, Value.type, hreg, evalValue, constantIntOf, crementSpec, hone]
          | Decrement =>
              obtain rfl : oneOrMinusOne = -1 := by simpa [oneOrMinusOneOf] using hc.symm
              have hminus : ((-1 : Int) % 2 ^ 64).toNat = 2 ^ 64 - 1 := by decide
              simp only [execInstr, Value.type, hreg, evalValue, constantIntOf, crementSpec,
                hminus]
              rw [minusOne_mod x bits hb64]
      | fp x => exact absurd hval (by simp [supportedScalar])
      | ptr p => exact absurd hval (by simp [supportedScalar])
  | float =>
      cases v with
      | fp x =>
          refine ⟨.fadd (.register n .float) (.constantFP .float oneOrMinusOne),
            by simp [crementInstr, isCharType, LType.isIntegerTy, LType.isFloatingPointTy], ?_⟩
          intro i m0 hreg0
          have hreg : m0.registers n = some (.fp x) := hreg0
          cases operation with
          | Other => simp [oneOrMinusOneOf] at hc
          | Increment =>
              obtain rfl : oneOrMinusOne = 1 := by simpa [oneOrMinusOneOf] using hc.symm
              simp [execInstr, hreg, evalValue, crementSpec]
          | Decrement =>
              obtain rfl : oneOrMinusOne = -1 := by simpa [oneOrMinusOneOf] using hc.symm
              simp [execInstr, hreg, evalValue, crementSpec]
      | int x => exact absurd hval (by simp [supportedScalar])
      | ptr p => exact absurd hval (by simp [supportedScalar])
  | double =>
      cases v with
      | fp x =>
          refine ⟨.fadd (.register n .double) (.constantFP .double oneOrMinusOne),
            by simp [crementInstr, isCharType, LType.isIntegerTy, LType.isFloatingPointTy], ?_⟩
          intro i m0 hreg0
          have hreg : m0.registers n = some (.fp x) := hreg0
          cases operation with
          | Other => simp [oneOrMinusOneOf] at hc
          | Increment =>
              obtain rfl : oneOrMinusOne = 1 := by simpa [oneOrMinusOneOf] using hc.symm
              simp [execInstr, hreg, evalValue, crementSpec]
          | Decrement =>
              obtain rfl : oneOrMinusOne = -1 := by simpa [oneOrMinusOneOf] using hc.symm
              simp [execInstr, hreg, evalValue, crementSpec]
      | int x => exact absurd hval (by simp [supportedScalar])
      | ptr p => exact absurd hval (by simp [supportedScalar])
  | void => cases v <;> exact absurd hval (by simp [supportedScalar])
  | array e k => cases v <;> exact absurd hval (by simp [supportedScalar])
  | pointer p => cases v <;> exact absurd hval (by simp [supportedScalar])

theorem Value.type_register (i : Nat) (t : LType) : (Value.register i t).type = t := rfl

/-- The state after the post-form crement of an attribute. -/
theorem visitCrement_post (base : Generator → Visited) (attr : Attribute)
    (operation : CrementOperation) (s : Generator) (rhsPtr lhs : Value) (rest : List Value)
    (t : LType) (oneOrMinusOne : Int) (instr : Instr)
    (hcount : s.mAttributeVisitCount ≠ 0) (hstack : s.mValues = rhsPtr :: lhs :: rest)
    (hrhs : rhsPtr.type = .pointer t) (hc : oneOrMinusOneOf operation = some oneOrMinusOne)
    (hinstr : crementInstr t (.register s.instructions.length t) oneOrMinusOne = some instr) :
    visitCrement base ⟨attr, operation, true⟩ s
      = ⟨{ mAttributeVisitCount := s.mAttributeVisitCount - 1,
           mValues := .register (s.instructions.length + 1) (.pointer t) :: rest,
           instructions := s.instructions ++
             [.load rhsPtr, .alloca t,
              .store (.register s.instructions.length t)
                (.register (s.instructions.length + 1) (.pointer t)),
              instr,
              .call "setattribute"
                [lhs, pointIndexArgument, .register (s.instructions.length + 3) t]],
           globals := s.globals }, none⟩ := by
  have hrhsPtr : rhsPtr.type.isPointerTy = true := by rw [hrhs]; rfl
  have hcont : rhsPtr.type.getContainedType0 = t := by rw [hrhs]; rfl
  unfold visitCrement
  rw [if_neg hcount]
  simp [hstack, hrhsPtr, hcont, Generator.emit, Value.type_register, hc, hinstr]

/-- The state after the pre-form crement of an attribute. -/
theorem visitCrement_pre (base : Generator → Visited) (attr : Attribute)
    (operation : CrementOperation) (s : Generator) (rhsPtr lhs : Value) (rest : List Value)
    (t : LType) (oneOrMinusOne : Int) (instr : Instr)
    (hcount : s.mAttributeVisitCount ≠ 0) (hstack : s.mValues = rhsPtr :: lhs :: rest)
    (hrhs : rhsPtr.type = .pointer t) (hc : oneOrMinusOneOf operation = some oneOrMinusOne)
    (hinstr : crementInstr t (.register s.instructions.length t) oneOrMinusOne = some instr) :
    visitCrement base ⟨attr, operation, false⟩ s
      = ⟨{ mAttributeVisitCount := s.mAttributeVisitCount - 1,
           mValues := .register (s.instructions.length + 3) (.pointer t) :: rest,
           instructions := s.instructions ++
             [.load rhsPtr, instr,
              .call "setattribute"
                [lhs, pointIndexArgument, .register (s.instructions.length + 1) t],
              .alloca t,
              .store (.register (s.instructions.length + 1) t)
                (.register (s.instructions.length + 3) (.pointer t))],
           globals := s.globals }, none⟩ := by
  have hrhsPtr : rhsPtr.type.isPointerTy = true := by rw [hrhs]; rfl
  have hcont : rhsPtr.type.getContainedType0 = t := by rw [hrhs]; rfl
  unfold visitCrement
  rw [if_neg hcount]
  simp [hstack, hrhsPtr, hcont, Generator.emit, Value.type_register, hc, hinstr]

/-- C10. For a supported scalar attribute whose location on the stack holds the current
value `v`, the attribute crement completes, consumes one pending attribute, and the
instructions it emits, run from that state, call the write-attribute primitive once, with
the handle, the point index and `v + 1` (increment) or `v - 1` (decrement) in the
arithmetic of the type; the location it pushes in place of its two operands holds `v` in
the post-form and the newly written value in the pre-form. -/
theorem visitCrement_writes (fadd : Rat → Rat → Rat) (base : Generator → Visited)
    (node : Crement) (s : Generator) (rhsPtr lhs : Value) (rest : List Value) (t : LType)
    (m : Machine) (a : Nat) (v h idx : RVal)
    (hcount : s.mAttributeVisitCount ≠ 0)
    (hstack : s.mValues = rhsPtr :: lhs :: rest)
    (hrhs : rhsPtr.type = .pointer t)
    (hop : node.mOperation ≠ .Other)
    (hscopeL : lhs.definedBefore s.instructions.length)
    (hptr : evalValue m rhsPtr = some (.ptr a))
    (hmem : m.memory a = some v)
    (hval : supportedScalar t v)
    (hlhs : evalValue m lhs = some h)
    (hidx : m.arguments "point_index" = some idx) :
    (visitCrement base node s).abort = none ∧
    (visitCrement base node s).state.mAttributeVisitCount = s.mAttributeVisitCount - 1 ∧
    ∃ (top : Value) (emitted : List Instr) (m1 : Machine) (a1 : Nat),
      (visitCrement base node s).state.mValues = top :: rest ∧
      (visitCrement base node s).state.instructions = s.instructions ++ emitted ∧
      runInstrs fadd s.instructions.length emitted m = some m1 ∧
      m1.calls
        = m.calls ++ [("setattribute", [h, idx, crementSpec fadd t node.mOperation v])] ∧
      evalValue m1 top = some (.ptr a1) ∧
      m1.memory a1 = some (if node.mPost then v else crementSpec fadd t node.mOperation v) := by
  obtain ⟨attr, operation, post⟩ := node
  simp only at hop ⊢
  obtain ⟨oneOrMinusOne, hc⟩ : ∃ k, oneOrMinusOneOf operation = some k := by
    cases operation with
    | Increment => exact ⟨1, rfl⟩
    | Decrement => exact ⟨-1, rfl⟩
    | Other => exact absurd rfl hop
  obtain ⟨instr, hinstr, hadd⟩ :=
    crementInstr_spec fadd t v operation oneOrMinusOne s.instructions.length hval hc
  cases post with
  | true =>
      rw [visitCrement_post base attr operation s rhsPtr lhs rest t oneOrMinusOne instr hcount
        hstack hrhs hc hinstr]
      have hrun := runInstrs_postCrement fadd s.instructions.length m rhsPtr lhs t instr a v
        (crementSpec fadd t operation v) h idx hscopeL hptr hmem hlhs hidx
        (fun m0 hreg => hadd _ m0 hreg)
      obtain ⟨m1, hm1, hres⟩ := Option.map_eq_some'.mp hrun
      simp only [Prod.mk.injEq] at hres
      exact ⟨rfl, rfl, _, _, m1, m.nextAddress, rfl, rfl, hm1, hres.1, hres.2.1,
        by simpa using hres.2.2⟩
  | false =>
      rw [visitCrement_pre base attr operation s rhsPtr lhs rest t oneOrMinusOne instr hcount
        hstack hrhs hc hinstr]
      have hrun := runInstrs_preCrement fadd s.instructions.length m rhsPtr lhs t instr a v
        (crementSpec fadd t operation v) h idx hscopeL hptr hmem hlhs hidx
        (fun m0 hreg => hadd _ m0 hreg)
      obtain ⟨m1, hm1, hres⟩ := Option.map_eq_some'.mp hrun
      simp only [Prod.mk.injEq] at hres
      exact ⟨rfl, rfl, _, _, m1, m.nextAddress, rfl, rfl, hm1, hres.1, hres.2.1,
        by simpa using hres.2.2⟩

/-- Witness for C10: `i++` and `++i` on a 32-bit integer attribute holding 5 both write 6;
the location pushed by `i++` holds 5, the one pushed by `++i` holds 6. -/
theorem visitCrement_writes_witness :
    (∃ (top : Value) (emitted : List Instr) (m1 : Machine) (a1 : Nat),
      (visitCrement (fun s => ⟨s, none⟩) ⟨⟨"i", "int32"⟩, .Increment, true⟩
          crementExampleState).state.mValues = [top] ∧
      (visitCrement (fun s => ⟨s, none⟩) ⟨⟨"i", "int32"⟩, .Increment, true⟩
          crementExampleState).state.instructions
        = crementExampleState.instructions ++ emitted ∧
      runInstrs (fun x y => x + y) 2 emitted crementExampleMachine = some m1 ∧
      m1.calls = [("setattribute", [.ptr 100, .int 7, .int 6])] ∧
      evalValue m1 top = some (.ptr a1) ∧
      m1.memory a1 = some (.int 5)) ∧
    (∃ (top : Value) (emitted : List Instr) (m1 : Machine) (a1 : Nat),
      (visitCrement (fun s => ⟨s, none⟩) ⟨⟨"i", "int32"⟩, .Increment, false⟩
          crementExampleState).state.mValues = [top] ∧
      (visitCrement (fun s => ⟨s, none⟩) ⟨⟨"i", "int32"⟩, .Increment, false⟩
          crementExampleState).state.instructions
        = crementExampleState.instructions ++ emitted ∧
      runInstrs (fun x y => x + y) 2 emitted crementExampleMachine = some m1 ∧
      m1.calls = [("setattribute", [.ptr 100, .int 7, .int 6])] ∧
      evalValue m1 top = some (.ptr a1) ∧
      m1.memory a1 = some (.int 6)) :=
  ⟨(visitCrement_writes (fun x y => x + y) (fun s => ⟨s, none⟩)
      ⟨⟨"i", "int32"⟩, .Increment, true⟩ crementExampleState
      (.register 1 (.pointer (.integer 32))) (.register 0 (.pointer (.integer 8))) []
      (.integer 32) crementExampleMachine 0 (.int 5) (.ptr 100) (.int 7)
      (by decide) rfl rfl (by decide) (by simp [Value.definedBefore, crementExampleState])
      rfl rfl (by simp [supportedScalar]) rfl rfl).2.2,
   (visitCrement_writes (fun x y => x + y) (fun s => ⟨s, none⟩)
      ⟨⟨"i", "int32"⟩, .Increment, false⟩ crementExampleState
      (.register 1 (.pointer (.integer 32))) (.register 0 (.pointer (.integer 8))) []
      (.integer 32) crementExampleMachine 0 (.int 5) (.ptr 100) (.int 7)
      (by decide) rfl rfl (by decide) (by simp [Value.definedBefore, crementExampleState])
      rfl rfl (by simp [supportedScalar]) rfl rfl).2.2⟩

/-! ### The range kernel called with a count of zero -/

/-- C20. Called with the count 0 the generated range kernel is not a zero-iteration loop:
`count - 1` wraps to `2 ^ 64 - 1`, the body runs before the unsigned test, and the kernel
returns (given fuel for its `2 ^ 64 + 2` basic blocks) only after calling the element kernel
for the index 0 and then for every index up to `2 ^ 64 - 1`, `2 ^ 64` calls in total. -/
theorem computePointRange_zero_count (kArgs : List Nat) (fuel : Nat)
    (hcount : kArgs[argumentIndex]? = some 0) (hfuel : 2 ^ 64 + 2 ≤ fuel) :
    (stepRange kArgs RangeState.entry
      = .inl { RangeState.entry with block := .loop, indexMinusOne := 2 ^ 64 - 1 }) ∧
    computePointRange kArgs fuel
      = some ((List.range (2 ^ 64)).map (fun i => kArgs.set argumentIndex i)) ∧
    ((List.range (2 ^ 64)).map (fun i => kArgs.set argumentIndex i)).length = 2 ^ 64 ∧
    ((List.range (2 ^ 64)).map (fun i => kArgs.set argumentIndex i))[0]?
      = some (kArgs.set argumentIndex 0) ∧
    ((List.range (2 ^ 64)).map (fun i => kArgs.set argumentIndex i))[2 ^ 64 - 1]?
      = some (kArgs.set argumentIndex (2 ^ 64 - 1)) := by
  have hD : kArgs.getD argumentIndex 0 = 0 := by
    simp [List.getD_eq_getElem?_getD, hcount]
  have hw : wrap64 (0 + 2 ^ 64 - 1) = 2 ^ 64 - 1 := by
    unfold wrap64
    exact Nat.mod_eq_of_lt (by omega)
  have hstep : stepRange kArgs RangeState.entry
      = .inl { RangeState.entry with block := .loop, indexMinusOne := 2 ^ 64 - 1 } := by
    simp only [stepRange, RangeState.entry, hD, hw]
  obtain ⟨f, rfl⟩ : ∃ f, fuel = f + 1 := ⟨fuel - 1, by omega⟩
  refine ⟨hstep, ?_, by simp, ?_, ?_⟩
  · unfold computePointRange
    rw [runRange, hstep]
    simp only
    rw [runRange_loop kArgs (2 ^ 64 - 1) (by omega) (2 ^ 64 - 1) 0 _ rfl
      (by simp [phiIncr, RangeState.entry]) rfl (by omega) f (by omega)]
    have hN : 2 ^ 64 - 1 + 1 = 2 ^ 64 := by omega
    simp only [RangeState.entry, List.nil_append, hN, List.range_eq_range']
  · rw [List.getElem?_map, List.getElem?_range (by omega)]
    rfl
  · rw [List.getElem?_map, List.getElem?_range (by omega)]
    rfl

/-- Witness for C20: a count of 0 with five other argument words. -/
theorem computePointRange_zero_count_witness :
    computePointRange [10, 11, 0, 13, 14, 15] (2 ^ 64 + 2)
      = some ((List.range (2 ^ 64)).map (fun i => [10, 11, 0, 13, 14, 15].set argumentIndex i)) :=
  (computePointRange_zero_count [10, 11, 0, 13, 14, 15] (2 ^ 64 + 2) (by decide)
    (Nat.le_refl _)).2.1

/-! ### Paired crements -/

/-- For a supported scalar type the crement computes the value of the specification. -/
theorem crementResult_eq_spec (fadd : Rat → Rat → Rat) (t : LType) (v : RVal)
    (operation : CrementOperation) (hval : supportedScalar t v) (hop : operation ≠ .Other) :
    crementResult fadd t operation v = some (crementSpec fadd t operation v) := by
  obtain ⟨oneOrMinusOne, hc⟩ : ∃ k, oneOrMinusOneOf operation = some k := by
    cases operation with
    | Increment => exact ⟨1, rfl⟩
    | Decrement => exact ⟨-1, rfl⟩
    | Other => exact absurd rfl hop
  obtain ⟨instr, hinstr, hexec⟩ := crementInstr_spec fadd t v operation oneOrMinusOne 0 hval hc
  unfold crementResult
  simp only [hc, hinstr]
  rw [hexec 1 _ (by simp [evalValue])]
  simp [Machine.setRegister]

/-- C11. For the 16-, 32- and 64-bit integer types and every bit pattern `x` of the type,
the minimum and the maximum included, the crement increment computes `(x + 1) mod 2 ^ w`,
the crement decrement computes `(x - 1) mod 2 ^ w`, and the increment followed by the
decrement (as the decrement followed by the increment) restores `x`. -/
theorem crementResult_integer_roundtrip (fadd : Rat → Rat → Rat) (bits x : Nat)
    (hbits : bits = 16 ∨ bits = 32 ∨ bits = 64) (hx : x < 2 ^ bits) :
    crementResult fadd (.integer bits) .Increment (.int x)
      = some (.int ((x + 1) % 2 ^ bits)) ∧
    crementResult fadd (.integer bits) .Decrement (.int x)
      = some (.int (((x : Int) - 1) % 2 ^ bits).toNat) ∧
    (crementResult fadd (.integer bits) .Increment (.int x)).bind
        (crementResult fadd (.integer bits) .Decrement) = some (.int x) ∧
    (crementResult fadd (.integer bits) .Decrement (.int x)).bind
        (crementResult fadd (.integer bits) .Increment) = some (.int x) := by
  have hb : bits ≠ 1 ∧ bits ≠ 8 ∧ bits ≤ 64 := by omega
  have hpos : 0 < 2 ^ bits := Nat.two_pow_pos bits
  have hsup : ∀ y : Nat, y < 2 ^ bits → supportedScalar (.integer bits) (.int y) :=
    fun y hy => ⟨hb.1, hb.2.1, hb.2.2, hy⟩
  have hinc : ∀ y : Nat, y < 2 ^ bits →
      crementResult fadd (.integer bits) .Increment (.int y)
        = some (.int ((y + 1) % 2 ^ bits)) := by
    intro y hy
    rw [crementResult_eq_spec fadd _ _ _ (hsup y hy) (by decide)]
    rfl
  have hdec : ∀ y : Nat, y < 2 ^ bits →
      crementResult fadd (.integer bits) .Decrement (.int y)
        = some (.int ((y + (2 ^ bits - 1)) % 2 ^ bits)) := by
    intro y hy
    rw [crementResult_eq_spec fadd _ _ _ (hsup y hy) (by decide)]
    rfl
  have hmod1 : (x + 1) % 2 ^ bits < 2 ^ bits := Nat.mod_lt _ hpos
  have hmod2 : (x + (2 ^ bits - 1)) % 2 ^ bits < 2 ^ bits := Nat.mod_lt _ hpos
  have hback : ((x + 1) % 2 ^ bits + (2 ^ bits - 1)) % 2 ^ bits = x := by
    rw [Nat.mod_add_mod, show x + 1 + (2 ^ bits - 1) = x + 2 ^ bits by omega,
      Nat.add_mod_right, Nat.mod_eq_of_lt hx]
  have hforth : ((x + (2 ^ bits - 1)) % 2 ^ bits + 1) % 2 ^ bits = x := by
    rw [Nat.mod_add_mod, show x + (2 ^ bits - 1) + 1 = x + 2 ^ bits by omega,
      Nat.add_mod_right, Nat.mod_eq_of_lt hx]
  have hint : (((x : Int) - 1) % 2 ^ bits).toNat = (x + (2 ^ bits - 1)) % 2 ^ bits := by
    have h1 : ((x : Int) - 1) % 2 ^ bits = (((x + (2 ^ bits - 1) : Nat) : Int)) % 2 ^ bits := by
      have : (((x + (2 ^ bits - 1) : Nat) : Int)) = (x : Int) - 1 + 2 ^ bits := by
        push_cast [Nat.cast_sub hpos]
        ring
      rw [this, Int.add_emod_self]
    rw [h1]
    have h2 : (((x + (2 ^ bits - 1) : Nat) : Int)) % 2 ^ bits
        = (((x + (2 ^ bits - 1)) % 2 ^ bits : Nat) : Int) := by
      push_cast
      rfl
    rw [h2, Int.toNat_natCast]
  refine ⟨hinc x hx, ?_, ?_, ?_⟩
  · rw [hdec x hx, hint]
  · rw [hinc x hx, Option.some_bind, hdec _ hmod1, hback]
  · rw [hdec x hx, Option.some_bind, hinc _ hmod2, hforth]

/-- Witness for C11: the maximum and the minimum bit pattern of the 32-bit type. -/
theorem crementResult_integer_roundtrip_witness :
    (crementResult (fun x y => x + y) (.integer 32) .Increment (.int (2 ^ 32 - 1))).bind
        (crementResult (fun x y => x + y) (.integer 32) .Decrement) = some (.int (2 ^ 32 - 1)) ∧
    crementResult (fun x y => x + y) (.integer 32) .Decrement (.int 0)
      = some (.int 4294967295) :=
  ⟨(crementResult_integer_roundtrip (fun x y => x + y) 32 (2 ^ 32 - 1) (by decide)
      (by norm_num)).2.2.1,
   (crementResult_integer_roundtrip (fun x y => x + y) 32 0 (by decide) (by norm_num)).2.1⟩

/-! ### visit(Crement): the type test -/

/-- The type test of the crement selects an addition exactly for the integer types other
than the boolean and the character type and for the floating-point types. -/
theorem crementInstr_isSome (t : LType) (rhs : Value) (oneOrMinusOne : Int) :
    (crementInstr t rhs oneOrMinusOne).isSome = true ↔
      (t.isIntegerTy = true ∧ t ≠ .integer 1 ∧ t ≠ .integer 8) ∨ t.isFloatingPointTy = true := by
  cases t with
  | integer bits =>
      by_cases h1 : bits = 1 <;> by_cases h8 : bits = 8 <;>
        simp [crementInstr, isCharType, LType.isIntegerTy, LType.isIntegerTyOf,
          LType.isFloatingPointTy, h1, h8]
  | float => simp [crementInstr, isCharType, LType.isIntegerTy, LType.isFloatingPointTy]
  | double => simp [crementInstr, isCharType, LType.isIntegerTy, LType.isFloatingPointTy]
  | void => simp [crementInstr, isCharType, LType.isIntegerTy, LType.isFloatingPointTy]
  | array e n => simp [crementInstr, isCharType, LType.isIntegerTy, LType.isFloatingPointTy]
  | pointer p => simp [crementInstr, isCharType, LType.isIntegerTy, LType.isFloatingPointTy]

/-- The state in which an attribute crement throws the type error: only the load and, in
the post-form, the snapshot of the loaded value have been emitted. -/
theorem visitCrement_rejected (base : Generator → Visited) (attr : Attribute)
    (operation : CrementOperation) (post : Bool) (s : Generator) (rhsPtr lhs : Value)
    (rest : List Value) (t : LType) (oneOrMinusOne : Int)
    (hcount : s.mAttributeVisitCount ≠ 0) (hstack : s.mValues = rhsPtr :: lhs :: rest)
    (hrhs : rhsPtr.type = .pointer t) (hc : oneOrMinusOneOf operation = some oneOrMinusOne)
    (hinstr : crementInstr t (.register s.instructions.length t) oneOrMinusOne = none) :
    visitCrement base ⟨attr, operation, post⟩ s
      = ⟨{ mAttributeVisitCount := s.mAttributeVisitCount - 1,
           mValues := rest,
           instructions := s.instructions ++
             (if post then
               [.load rhsPtr, .alloca t,
                .store (.register s.instructions.length t)
                  (.register (s.instructions.length + 1) (.pointer t))]
              else [.load rhsPtr]),
           globals := s.globals }, some (.exception .LLVMTypeError)⟩ := by
  have hrhsPtr : rhsPtr.type.isPointerTy = true := by rw [hrhs]; rfl
  have hcont : rhsPtr.type.getContainedType0 = t := by rw [hrhs]; rfl
  unfold visitCrement
  rw [if_neg hcount]
  cases post <;>
    simp [hstack, hrhsPtr, hcont, Generator.emit, Value.type_register, hc, hinstr]

/-- C13. For every attribute crement, pre or post, increment or decrement, with the loaded
operand of type `t`: the visit completes exactly when `t` is an integer type other than the
boolean and the character type or a floating-point type; otherwise, in particular for the
boolean type, an array and the character type of a string, it throws the `LLVMTypeError`
and every call in the instruction list then was there before the visit, so no call of the
write-attribute primitive has been emitted. -/
theorem visitCrement_type_test (base : Generator → Visited) (node : Crement) (s : Generator)
    (rhsPtr lhs : Value) (rest : List Value) (t : LType)
    (hcount : s.mAttributeVisitCount ≠ 0) (hstack : s.mValues = rhsPtr :: lhs :: rest)
    (hrhs : rhsPtr.type = .pointer t) (hop : node.mOperation ≠ .Other) :
    ((visitCrement base node s).abort = none ↔
      (t.isIntegerTy = true ∧ t ≠ .integer 1 ∧ t ≠ .integer 8) ∨ t.isFloatingPointTy = true) ∧
    (¬ ((t.isIntegerTy = true ∧ t ≠ .integer 1 ∧ t ≠ .integer 8) ∨ t.isFloatingPointTy = true) →
      (visitCrement base node s).abort = some (.exception .LLVMTypeError) ∧
      ∀ (function : String) (arguments : List Value),
        Instr.call function arguments ∈ (visitCrement base node s).state.instructions →
        Instr.call function arguments ∈ s.instructions) ∧
    ((t = .integer 1 ∨ t = .integer 8 ∨ ∃ (e : LType) (n : Nat), t = .array e n) →
      (visitCrement base node s).abort = some (.exception .LLVMTypeError)) := by
  obtain ⟨attr, operation, post⟩ := node
  simp only at hop
  obtain ⟨oneOrMinusOne, hc⟩ : ∃ k, oneOrMinusOneOf operation = some k := by
    cases operation with
    | Increment => exact ⟨1, rfl⟩
    | Decrement => exact ⟨-1, rfl⟩
    | Other => exact absurd rfl hop
  have hsome := crementInstr_isSome t (.register s.instructions.length t) oneOrMinusOne
  have hreject : ¬ ((t.isIntegerTy = true ∧ t ≠ .integer 1 ∧ t ≠ .integer 8)
      ∨ t.isFloatingPointTy = true) →
      (visitCrement base ⟨attr, operation, post⟩ s).abort
          = some (.exception .LLVMTypeError) ∧
      ∀ (function : String) (arguments : List Value),
        Instr.call function arguments
          ∈ (visitCrement base ⟨attr, operation, post⟩ s).state.instructions →
        Instr.call function arguments ∈ s.instructions := by
    intro hnot
    have hnone : crementInstr t (.register s.instructions.length t) oneOrMinusOne = none := by
      cases hci : crementInstr t (.register s.instructions.length t) oneOrMinusOne with
      | none => rfl
      | some instr => exact absurd (hsome.mp (by simp [hci])) hnot
    rw [visitCrement_rejected base attr operation post s rhsPtr lhs rest t oneOrMinusOne hcount
      hstack hrhs hc hnone]
    refine ⟨rfl, ?_⟩
    intro function arguments hmem
    simp only [List.mem_append] at hmem
    rcases hmem with hmem | hmem
    · exact hmem
    · cases post <;> simp at hmem
  refine ⟨⟨?_, ?_⟩, hreject, ?_⟩
  · intro hnone
    by_contra hnot
    rw [(hreject hnot).1] at hnone
    exact absurd hnone (by simp)
  · intro hsup
    obtain ⟨instr, hinstr⟩ := Option.isSome_iff_exists.mp (hsome.mpr hsup)
    cases post
    · rw [visitCrement_pre base attr operation s rhsPtr lhs rest t oneOrMinusOne instr hcount
        hstack hrhs hc hinstr]
    · rw [visitCrement_post base attr operation s rhsPtr lhs rest t oneOrMinusOne instr hcount
        hstack hrhs hc hinstr]
  · intro hbad
    refine (hreject ?_).1
    rcases hbad with rfl | rfl | ⟨e, n, rfl⟩ <;>
      simp [LType.isIntegerTy, LType.isFloatingPointTy]

/-- Witness for C13: the post-increment of a boolean attribute, with the location of the
value in register 1 and the handle in register 0. -/
theorem visitCrement_type_test_witness :
    (visitCrement (fun s => ⟨s, none⟩) ⟨⟨"b", "bool"⟩, .Increment, true⟩
        ⟨1, [.register 1 (.pointer (.integer 1)), .register 0 (.pointer (.integer 8))],
          [.load (.argument "attribute_handles" (.pointer (.pointer (.integer 8)))),
           .alloca (.integer 1)], ["_bool@b"]⟩).abort
      = some (.exception .LLVMTypeError) :=
  (visitCrement_type_test (fun s => ⟨s, none⟩) ⟨⟨"b", "bool"⟩, .Increment, true⟩
    ⟨1, [.register 1 (.pointer (.integer 1)), .register 0 (.pointer (.integer 8))],
      [.load (.argument "attribute_handles" (.pointer (.pointer (.integer 8)))),
       .alloca (.integer 1)], ["_bool@b"]⟩
    (.register 1 (.pointer (.integer 1))) (.register 0 (.pointer (.integer 8))) []
    (.integer 1) (by decide) rfl rfl (by decide)).2.2 (Or.inl rfl)

/-! ### visit(AssignExpression): the frame -/

/-- The conversion of the right-hand side only emits instructions: it leaves the counter,
the stack and the globals alone. -/
theorem convertRhs_frame (a : AssignmentType) (lhsType rhsType : LType) (rhs rhs1 : Value)
    (s s1 : Generator) (h : convertRhs a lhsType rhsType rhs s = .ok (rhs1, s1)) :
    s1.mAttributeVisitCount = s.mAttributeVisitCount ∧ s1.mValues = s.mValues ∧
    s1.globals = s.globals ∧ ∃ emitted, s1.instructions = s.instructions ++ emitted := by
  cases a with
  | UNSUPPORTED => simp [convertRhs] at h
  | STRING_EQ_STRING =>
      simp only [convertRhs, Except.ok.injEq, Prod.mk.injEq] at h
      obtain ⟨_, rfl⟩ := h
      exact ⟨rfl, rfl, rfl, [], by simp⟩
  | ARRAY_EQ_ARRAY =>
      simp only [convertRhs] at h
      split_ifs at h
      simp only [Generator.emit, Except.ok.injEq, Prod.mk.injEq] at h
      obtain ⟨_, rfl⟩ := h
      exact ⟨rfl, rfl, rfl, _, rfl⟩
  | SCALAR_EQ_ARRAY =>
      simp only [convertRhs, Generator.emit, Except.ok.injEq, Prod.mk.injEq] at h
      obtain ⟨_, rfl⟩ := h
      exact ⟨rfl, rfl, rfl, _, by rw [List.append_assoc, List.append_assoc]⟩
  | ARRAY_EQ_SCALAR =>
      simp only [convertRhs, Generator.emit, Except.ok.injEq, Prod.mk.injEq] at h
      obtain ⟨_, rfl⟩ := h
      exact ⟨rfl, rfl, rfl, _, by rw [List.append_assoc, List.append_assoc]⟩
  | SCALAR_EQ_SCALAR =>
      simp only [convertRhs, Generator.emit, Except.ok.injEq, Prod.mk.injEq] at h
      obtain ⟨_, rfl⟩ := h
      exact ⟨rfl, rfl, rfl, _, by rw [List.append_assoc]⟩

/-- C17. For every visit of an assignment: with the pending-attribute counter at 0 the
visit is the visit of the base class and nothing else; otherwise, when the visit completes,
the stack before held the attribute handle on top of the right-hand location, the stack
after is the stack before with these two entries removed and the same right-hand location
pushed back, entries below untouched, one entry less in all, and the counter is lower by
exactly 1. -/
theorem visitAssignExpression_frame (llvmTypeFromName : String → LType)
    (base : Generator → Visited) (node : AssignExpression) (s : Generator) :
    (s.mAttributeVisitCount = 0 → visitAssignExpression llvmTypeFromName base node s = base s) ∧
    (s.mAttributeVisitCount ≠ 0 →
      (visitAssignExpression llvmTypeFromName base node s).abort = none →
      ∃ (handlePtr rhs : Value) (rest : List Value),
        s.mValues = handlePtr :: rhs :: rest ∧
        (visitAssignExpression llvmTypeFromName base node s).state.mValues = rhs :: rest ∧
        (visitAssignExpression llvmTypeFromName base node s).state.mValues.length + 1
          = s.mValues.length ∧
        (visitAssignExpression llvmTypeFromName base node s).state.mAttributeVisitCount + 1
          = s.mAttributeVisitCount) := by
  refine ⟨fun h0 => by simp [visitAssignExpression, h0], ?_⟩
  intro hcount hok
  unfold visitAssignExpression at hok ⊢
  rw [if_neg hcount] at hok ⊢
  cases hstack : s.mValues with
  | nil => simp [hstack] at hok
  | cons handlePtr tail =>
      cases tail with
      | nil => simp [hstack] at hok
      | cons rhs rest =>
          refine ⟨handlePtr, rhs, rest, rfl, ?_⟩
          simp only [hstack] at hok ⊢
          split_ifs at hok ⊢ with h1 h2 h3 h4
          all_goals
            split at hok
            · simp at hok
            · rename_i rhs1 s4 hconv
              have hframe := convertRhs_frame _ _ _ _ _ _ _ hconv
              simp only [hconv]
              try simp only [h4]
              simp only [Generator.emit]
              refine ⟨?_, ?_, ?_⟩
              · simp [hframe.2.1]
              · simp [hframe.2.1]
              · simp only [hframe.1]
                omega

/-- Witness for C17: the float attribute `a` assigned from a float location. -/
theorem visitAssignExpression_frame_witness :
    ∃ (handlePtr rhs : Value) (rest : List Value),
      [(.register 1 (.pointer (.integer 8)) : Value), .register 0 (.pointer .float),
        .register 9 (.pointer .double)] = handlePtr :: rhs :: rest ∧
      (visitAssignExpression (fun _ => .float) (fun s => ⟨s, none⟩) ⟨⟨"a", "float"⟩⟩
        ⟨1, [.register 1 (.pointer (.integer 8)), .register 0 (.pointer .float),
              .register 9 (.pointer .double)],
          [.alloca .float,
           .load (.argument "attribute_handles" (.pointer (.pointer (.integer 8))))],
          ["_float@a"]⟩).state.mValues = rhs :: rest ∧
      (visitAssignExpression (fun _ => .float) (fun s => ⟨s, none⟩) ⟨⟨"a", "float"⟩⟩
        ⟨1, [.register 1 (.pointer (.integer 8)), .register 0 (.pointer .float),
              .register 9 (.pointer .double)],
          [.alloca .float,
           .load (.argument "attribute_handles" (.pointer (.pointer (.integer 8))))],
          ["_float@a"]⟩).state.mValues.length + 1 = 3 ∧
      (visitAssignExpression (fun _ => .float) (fun s => ⟨s, none⟩) ⟨⟨"a", "float"⟩⟩
        ⟨1, [.register 1 (.pointer (.integer 8)), .register 0 (.pointer .float),
              .register 9 (.pointer .double)],
          [.alloca .float,
           .load (.argument "attribute_handles" (.pointer (.pointer (.integer 8))))],
          ["_float@a"]⟩).state.mAttributeVisitCount + 1 = 1 :=
  (visitAssignExpression_frame (fun _ => .float) (fun s => ⟨s, none⟩) ⟨⟨"a", "float"⟩⟩
    ⟨1, [.register 1 (.pointer (.integer 8)), .register 0 (.pointer .float),
          .register 9 (.pointer .double)],
      [.alloca .float,
       .load (.argument "attribute_handles" (.pointer (.pointer (.integer 8))))],
      ["_float@a"]⟩).2 (by decide) (by decide)

/-! ### visit(Attribute) and visit(AttributeValue) -/

/-- A name is in the table of globals once it has been inserted. -/
theorem mem_insertGlobal (globals : List String) (globalName : String) :
    globalName ∈ insertGlobal globals globalName := by
  unfold insertGlobal
  split_ifs with h
  · simpa using h
  · simp

/-- The visit of an attribute that is not a string completes: it pushes one handle and
counts one more pending attribute; for the position attribute the globals are unchanged,
otherwise the slot of the attribute is in the globals afterwards. -/
theorem visitAttribute_ok (node : Attribute) (s : Generator) (hstring : node.mType ≠ "string") :
    (visitAttribute node s).abort = none ∧
    (∃ handle : Value, (visitAttribute node s).state.mValues = handle :: s.mValues) ∧
    (visitAttribute node s).state.mAttributeVisitCount = s.mAttributeVisitCount + 1 ∧
    (node.mName = "P" → (visitAttribute node s).state.globals = s.globals ∧
      (visitAttribute node s).state.instructions = s.instructions) ∧
    (node.mName ≠ "P" →
      getGlobalAttributeAccess node.mName node.mType ∈ (visitAttribute node s).state.globals ∧
      (visitAttribute node s).state.globals
        = insertGlobal s.globals (getGlobalAttributeAccess node.mName node.mType)) := by
  unfold visitAttribute
  rw [if_neg hstring]
  by_cases hP : node.mName = "P"
  · simp [hP]
  · rw [if_neg hP]
    exact ⟨rfl, ⟨_, rfl⟩, rfl, fun h => absurd h hP,
      fun _ => ⟨mem_insertGlobal s.globals _, rfl⟩⟩

/-- A value read made with a pending attribute and a handle on the stack takes exactly one
pending attribute, whether it completes or throws. -/
theorem visitAttributeValue_count (llvmTypeFromName : String → LType) (node : AttributeValue)
    (s : Generator) (hcount : s.mAttributeVisitCount ≠ 0) (hstack : s.mValues ≠ []) :
    (visitAttributeValue llvmTypeFromName node s).state.mAttributeVisitCount + 1
      = s.mAttributeVisitCount := by
  unfold visitAttributeValue
  rw [if_neg hcount]
  cases hv : s.mValues with
  | nil => exact absurd hv hstack
  | cons handlePtr rest =>
      simp only [Generator.emit]
      split_ifs <;> simp <;> omega

/-- An attribute assignment made with a pending attribute takes exactly one pending
attribute, whether it completes or throws. -/
theorem visitAssignExpression_count (llvmTypeFromName : String → LType)
    (base : Generator → Visited) (node : AssignExpression) (s : Generator)
    (hcount : s.mAttributeVisitCount ≠ 0) :
    (visitAssignExpression llvmTypeFromName base node s).state.mAttributeVisitCount + 1
      = s.mAttributeVisitCount := by
  unfold visitAssignExpression
  rw [if_neg hcount]
  cases hstack : s.mValues with
  | nil => simp; omega
  | cons handlePtr tail =>
      cases tail with
      | nil => simp; omega
      | cons rhs rest =>
          simp only
          split_ifs
          all_goals first
            | (simp; omega)
            | (split
               · simp; omega
               · rename_i rhs1 s4 hconv
                 have hframe := convertRhs_frame _ _ _ _ _ _ _ hconv
                 simp only [Generator.emit, hframe.1]
                 omega)

/-- An attribute crement made with a pending attribute takes exactly one pending attribute,
whether it completes or throws. -/
theorem visitCrement_count (base : Generator → Visited) (node : Crement) (s : Generator)
    (hcount : s.mAttributeVisitCount ≠ 0) :
    (visitCrement base node s).state.mAttributeVisitCount + 1 = s.mAttributeVisitCount := by
  obtain ⟨attr, operation, post⟩ := node
  unfold visitCrement
  rw [if_neg hcount]
  cases hstack : s.mValues with
  | nil => simp; omega
  | cons rhsPtr tail =>
      cases tail with
      | nil => simp; omega
      | cons lhs rest =>
          cases post
          all_goals
            simp only [Generator.emit, Bool.false_eq_true, if_false, if_true]
            split_ifs
            · simp; omega
            · split
              · simp; omega
              · split <;> simp <;> omega

/-- C15. For every attribute node of declared type string, whatever its name, the position
attribute `P` included, the visit of the attribute throws the `AXCompilerError` and leaves
the whole state, so the stack, the pending-attribute counter and the globals, unchanged.
The value read of a string attribute other than `P`, made with a pending attribute and the
handle on the stack, does not complete and emits nothing, so it makes no call of the
read-attribute primitive; when the slot of the attribute is known it throws the
`AXCompilerError` after taking the handle and the pending attribute. -/
theorem visit_string_attribute (llvmTypeFromName : String → LType) (node : Attribute)
    (s : Generator) (hstring : node.mType = "string") :
    visitAttribute node s = ⟨s, some (.exception .AXCompilerError)⟩ ∧
    (∀ (handlePtr : Value) (rest : List Value),
      s.mAttributeVisitCount ≠ 0 → s.mValues = handlePtr :: rest → node.mName ≠ "P" →
      (visitAttributeValue llvmTypeFromName ⟨node⟩ s).abort ≠ none ∧
      (visitAttributeValue llvmTypeFromName ⟨node⟩ s).state.instructions = s.instructions ∧
      (getGlobalAttributeAccess node.mName node.mType ∈ s.globals →
        visitAttributeValue llvmTypeFromName ⟨node⟩ s
          = ⟨{ s with mValues := rest, mAttributeVisitCount := s.mAttributeVisitCount - 1 },
             some (.exception .AXCompilerError)⟩)) := by
  refine ⟨by simp [visitAttribute, hstring], ?_⟩
  intro handlePtr rest hcount hstack hP
  unfold visitAttributeValue
  rw [if_neg hcount]
  simp only [hstack, hP, decide_False, Bool.false_or, Bool.not_false, Bool.true_and, hstring,
    decide_True, if_true]
  by_cases hknown : getGlobalAttributeAccess node.mName "string" ∈ s.globals
  · simp [hknown]
  · simp [hknown]

/-- Witness for C15: the string attribute `name`, visited and read. -/
theorem visit_string_attribute_witness :
    visitAttribute ⟨"name", "string"⟩ ⟨1, [.register 0 (.pointer (.integer 8))], [], ["_string@name"]⟩
      = ⟨⟨1, [.register 0 (.pointer (.integer 8))], [], ["_string@name"]⟩,
         some (.exception .AXCompilerError)⟩ ∧
    visitAttributeValue (fun _ => .integer 8) ⟨⟨"name", "string"⟩⟩
        ⟨1, [.register 0 (.pointer (.integer 8))], [], ["_string@name"]⟩
      = ⟨⟨0, [], [], ["_string@name"]⟩, some (.exception .AXCompilerError)⟩ :=
  have h := visit_string_attribute (fun _ => .integer 8) ⟨"name", "string"⟩
    ⟨1, [.register 0 (.pointer (.integer 8))], [], ["_string@name"]⟩ rfl
  ⟨h.1, (h.2 (.register 0 (.pointer (.integer 8))) [] (by decide) rfl (by decide)).2.2
    (by decide)⟩

/-! ### visit(FunctionCall) -/

/-- C14. For every function call whose function is resolved: the context tests reject the
call exactly when the allowed-context mask of the function contains neither Base nor Point,
and the visit then throws the `LLVMContextError` with the state, so the stack and the
emitted instructions, unchanged; a function whose mask contains Base is delegated to the
visit of the base class; a Volume-only function is rejected; and for a function handled as a
point function the visit ends with the `LLVMContextError` only when the emitter of the
function itself throws it. -/
theorem visitFunctionCall_context (getFunction : String → Except Exception FunctionBase)
    (parseDefaultArgumentState : List Value → Nat → List Value × List Instr)
    (base : Generator → Visited) (node : FunctionCall) (s : Generator) (function : FunctionBase)
    (hfunction : getFunction node.mFunction = .ok function) :
    (callPath function.context = .invalidContext ↔
      function.context &&& FunctionBase.Base = 0 ∧
      function.context &&& FunctionBase.Point = 0) ∧
    (callPath function.context = .invalidContext →
      visitFunctionCall getFunction parseDefaultArgumentState base node s
        = ⟨s, some (.exception .LLVMContextError)⟩) ∧
    (function.context &&& FunctionBase.Base ≠ 0 →
      visitFunctionCall getFunction parseDefaultArgumentState base node s = base s) ∧
    (function.context = FunctionBase.Volume →
      visitFunctionCall getFunction parseDefaultArgumentState base node s
        = ⟨s, some (.exception .LLVMContextError)⟩) ∧
    (callPath function.context = .point →
      (visitFunctionCall getFunction parseDefaultArgumentState base node s).abort
        = some (.exception .LLVMContextError) →
      ∃ (arguments : List Value) (index : Nat),
        function.execute arguments index = .error .LLVMContextError) := by
  have hiff : callPath function.context = .invalidContext ↔
      function.context &&& FunctionBase.Base = 0 ∧
      function.context &&& FunctionBase.Point = 0 := by
    unfold callPath
    by_cases hb : function.context &&& FunctionBase.Base = 0 <;>
      by_cases hp : function.context &&& FunctionBase.Point = 0 <;> simp [hb, hp]
  have hinvalid : callPath function.context = .invalidContext →
      visitFunctionCall getFunction parseDefaultArgumentState base node s
        = ⟨s, some (.exception .LLVMContextError)⟩ := by
    intro h
    simp [visitFunctionCall, hfunction, h]
  refine ⟨hiff, hinvalid, ?_, ?_, ?_⟩
  · intro hb
    have hpath : callPath function.context = .generic := by simp [callPath, hb]
    simp [visitFunctionCall, hfunction, hpath]
  · intro hv
    apply hinvalid
    rw [hiff, hv]
    decide
  · intro hpath habort
    simp only [visitFunctionCall, hfunction, hpath] at habort
    split at habort
    · simp at habort
    · split at habort
      · rename_i e hexec
        simp only [Option.some.injEq, Abort.exception.injEq] at habort
        subst habort
        exact ⟨_, _, hexec⟩
      · simp at habort

/-- Witness for C14: a Volume-only function called in the point generator. -/
theorem visitFunctionCall_context_witness :
    visitFunctionCall
        (fun _ => .ok ⟨FunctionBase.Volume, fun _ _ => .error .LLVMFunctionError⟩)
        (fun arguments _ => (arguments, [])) (fun s => ⟨s, none⟩) ⟨"getvoxelpws", []⟩
        ⟨0, [.register 0 (.pointer .float)], [.alloca .float], []⟩
      = ⟨⟨0, [.register 0 (.pointer .float)], [.alloca .float], []⟩,
         some (.exception .LLVMContextError)⟩ :=
  (visitFunctionCall_context
    (fun _ => .ok ⟨FunctionBase.Volume, fun _ _ => .error .LLVMFunctionError⟩)
    (fun arguments _ => (arguments, [])) (fun s => ⟨s, none⟩) ⟨"getvoxelpws", []⟩
    ⟨0, [.register 0 (.pointer .float)], [.alloca .float], []⟩
    ⟨FunctionBase.Volume, fun _ _ => .error .LLVMFunctionError⟩ rfl).2.2.2.1 rfl

/-- C18. For every function call handled as a point function, with an argument list of
length `n`, at least `n` operands on the stack and an emitter that completes: the visit
completes; exactly the `n` top operands are popped and, in argument order and after the
default-argument pass, handed to the emitter; the primary result is then pushed if and only
if its type is not void, a result that is not a pointer being stored to freshly allocated
storage whose location is pushed instead; every additional result is pushed after it, in
the order produced; a void function without additional results pushes nothing. -/
theorem visitFunctionCall_stack (getFunction : String → Except Exception FunctionBase)
    (parseDefaultArgumentState : List Value → Nat → List Value × List Instr)
    (base : Generator → Visited) (node : FunctionCall) (s : Generator) (function : FunctionBase)
    (r : ExecuteResult)
    (hfunction : getFunction node.mFunction = .ok function)
    (hpath : callPath function.context = .point)
    (hlength : node.mArguments.length ≤ s.mValues.length)
    (hexecute : function.execute
        (parseDefaultArgumentState ((s.mValues.take node.mArguments.length).reverse)
          s.instructions.length).1
        (s.instructions ++ (parseDefaultArgumentState
          ((s.mValues.take node.mArguments.length).reverse) s.instructions.length).2).length
      = .ok r) :
    (visitFunctionCall getFunction parseDefaultArgumentState base node s).abort = none ∧
    (visitFunctionCall getFunction parseDefaultArgumentState base node s).state.mValues
      = r.results.reverse
        ++ (if r.result.type = .void then []
            else if r.result.type.isPointerTy then [r.result]
            else [.register
              (s.instructions ++ (parseDefaultArgumentState
                ((s.mValues.take node.mArguments.length).reverse) s.instructions.length).2
                ++ r.instructions).length (.pointer r.result.type)])
        ++ s.mValues.drop node.mArguments.length ∧
    (r.result.type = .void → r.results = [] →
      (visitFunctionCall getFunction parseDefaultArgumentState base node s).state.mValues
        = s.mValues.drop node.mArguments.length) ∧
    (r.result.type ≠ .void → r.result.type.isPointerTy = false →
      (visitFunctionCall getFunction parseDefaultArgumentState base node s).state.instructions
        = s.instructions ++ (parseDefaultArgumentState
            ((s.mValues.take node.mArguments.length).reverse) s.instructions.length).2
          ++ r.instructions
          ++ [.alloca r.result.type,
              .store r.result (.register
                (s.instructions ++ (parseDefaultArgumentState
                  ((s.mValues.take node.mArguments.length).reverse) s.instructions.length).2
                  ++ r.instructions).length (.pointer r.result.type))]) ∧
    (visitFunctionCall getFunction parseDefaultArgumentState base node s).state.mAttributeVisitCount
      = s.mAttributeVisitCount := by
  have hargs : argumentsFromStack s.mValues node.mArguments.length
      = some ((s.mValues.take node.mArguments.length).reverse,
          s.mValues.drop node.mArguments.length) := by
    simp [argumentsFromStack, Nat.not_lt.mpr hlength]
  have hvisit : visitFunctionCall getFunction parseDefaultArgumentState base node s
      = ⟨pushResults r
          { s with mValues := s.mValues.drop node.mArguments.length,
                   instructions := s.instructions ++ (parseDefaultArgumentState
                     ((s.mValues.take node.mArguments.length).reverse)
                     s.instructions.length).2 ++ r.instructions }, none⟩ := by
    simp only [visitFunctionCall, hfunction, hpath, hargs, hexecute]
  rw [hvisit]
  refine ⟨rfl, ?_, ?_, ?_, ?_⟩
  · unfold pushResults
    by_cases hvoid : r.result.type = .void
    · simp [hvoid]
    · by_cases hptr : r.result.type.isPointerTy = true
      · simp [hvoid, hptr]
      · simp [hvoid, hptr, Generator.emit]
  · intro hvoid hnone
    simp [pushResults, hvoid, hnone]
  · intro hvoid hptr
    simp [pushResults, hvoid, hptr, Generator.emit]
  · unfold pushResults
    by_cases hvoid : r.result.type = .void
    · simp [hvoid]
    · by_cases hptr : r.result.type.isPointerTy = true
      · simp [hvoid, hptr]
      · simp [hvoid, hptr, Generator.emit]

/-- Witness for C18: a point function of two arguments that yields a float and one
additional result, called with three operands on the stack. -/
theorem visitFunctionCall_stack_witness :
    (visitFunctionCall
        (fun _ => .ok ⟨FunctionBase.Point,
          fun _ _ => .ok ⟨.register 2 .float, [.register 1 (.pointer .float)],
            [.alloca .float, .call "f" []]⟩⟩)
        (fun arguments _ => (arguments, [])) (fun s => ⟨s, none⟩) ⟨"f", [0, 1]⟩
        ⟨0, [.argument "b" (.pointer .float), .argument "a" (.pointer .float),
              .argument "below" (.pointer .float)], [.alloca .float], []⟩).state.mValues
      = [.register 1 (.pointer .float), .register 3 (.pointer .float),
         .argument "below" (.pointer .float)] :=
  (visitFunctionCall_stack
    (fun _ => .ok ⟨FunctionBase.Point,
      fun _ _ => .ok ⟨.register 2 .float, [.register 1 (.pointer .float)],
        [.alloca .float, .call "f" []]⟩⟩)
    (fun arguments _ => (arguments, [])) (fun s => ⟨s, none⟩) ⟨"f", [0, 1]⟩
    ⟨0, [.argument "b" (.pointer .float), .argument "a" (.pointer .float),
          .argument "below" (.pointer .float)], [.alloca .float], []⟩
    ⟨FunctionBase.Point,
      fun _ _ => .ok ⟨.register 2 .float, [.register 1 (.pointer .float)],
        [.alloca .float, .call "f" []]⟩⟩
    ⟨.register 2 .float, [.register 1 (.pointer .float)], [.alloca .float, .call "f" []]⟩
    rfl (by decide) (by decide) rfl).2.1

/-! ### The pending-attribute counter -/

/-- A sequence of visits that completes leaves as many pending attributes as the matching
of attribute visits with consuming visits predicts. -/
theorem visitAll_pending (llvmTypeFromName : String → LType)
    (baseAssign baseCrement : Generator → Visited) :
    ∀ (visits : List PointVisit) (s : Generator) (n : Nat),
      pendingAfter visits s.mAttributeVisitCount = some n →
      (visitAll llvmTypeFromName baseAssign baseCrement visits s).abort = none →
      (visitAll llvmTypeFromName baseAssign baseCrement visits s).state.mAttributeVisitCount
        = n := by
  intro visits
  induction visits with
  | nil =>
      intro s n hp _
      simp only [pendingAfter, Option.some.injEq] at hp
      simpa [visitAll] using hp
  | cons v rest ih =>
      intro s n hp hok
      rw [visitAll] at hok ⊢
      cases hab : (visitPoint llvmTypeFromName baseAssign baseCrement v s).abort with
      | some a => simp [hab] at hok
      | none =>
          simp only [hab] at hok ⊢
          apply ih _ n _ hok
          cases v with
          | ofAttribute node =>
              simp only [pendingAfter] at hp
              simp only [visitPoint] at hab ⊢
              by_cases hstring : node.mType = "string"
              · simp [visitAttribute, hstring] at hab
              · rw [(visitAttribute_ok node s hstring).2.2.1]
                exact hp
          | ofAttributeValue node =>
              simp only [pendingAfter] at hp
              split_ifs at hp with h0
              simp only [visitPoint] at hab ⊢
              have hstack : s.mValues ≠ [] := by
                intro hnil
                simp [visitAttributeValue, h0, hnil] at hab
              have := visitAttributeValue_count llvmTypeFromName node s h0 hstack
              rw [show (visitAttributeValue llvmTypeFromName node s).state.mAttributeVisitCount
                = s.mAttributeVisitCount - 1 by omega]
              exact hp
          | ofAssignExpression node =>
              simp only [pendingAfter] at hp
              split_ifs at hp with h0
              simp only [visitPoint]
              have := visitAssignExpression_count llvmTypeFromName baseAssign node s h0
              rw [show (visitAssignExpression llvmTypeFromName baseAssign node
                s).state.mAttributeVisitCount = s.mAttributeVisitCount - 1 by omega]
              exact hp
          | ofCrement node =>
              simp only [pendingAfter] at hp
              split_ifs at hp with h0
              simp only [visitPoint]
              have := visitCrement_count baseCrement node s h0
              rw [show (visitCrement baseCrement node s).state.mAttributeVisitCount
                = s.mAttributeVisitCount - 1 by omega]
              exact hp

/-- The visit of an attribute that is not a string followed by the read of its value
completes, with the location of the value read pushed on the stack as it was before. -/
theorem visitAttribute_then_value (llvmTypeFromName : String → LType)
    (baseAssign baseCrement : Generator → Visited) (node : Attribute) (s : Generator)
    (hstring : node.mType ≠ "string") :
    (visitAll llvmTypeFromName baseAssign baseCrement
      [.ofAttribute node, .ofAttributeValue ⟨node⟩] s).abort = none ∧
    (∃ location : Value,
      (visitAll llvmTypeFromName baseAssign baseCrement
        [.ofAttribute node, .ofAttributeValue ⟨node⟩] s).state.mValues = location :: s.mValues) ∧
    (visitAll llvmTypeFromName baseAssign baseCrement
      [.ofAttribute node, .ofAttributeValue ⟨node⟩] s).state.mAttributeVisitCount
        = s.mAttributeVisitCount := by
  obtain ⟨hok, ⟨handle, hvalues⟩, hcnt, _, hglobals⟩ := visitAttribute_ok node s hstring
  have hcount : (visitAttribute node s).state.mAttributeVisitCount ≠ 0 := by omega
  have hknown : (decide (node.mName = "P")
      || (visitAttribute node s).state.globals.contains
          (getGlobalAttributeAccess node.mName node.mType)) = true := by
    by_cases hP : node.mName = "P"
    · simp [hP]
    · have := (hglobals hP).1
      simp [this]
  have hvalue : visitAttributeValue llvmTypeFromName ⟨node⟩ (visitAttribute node s).state
      = ⟨{ (visitAttribute node s).state with
            mValues := .register (visitAttribute node s).state.instructions.length
              (.pointer (llvmTypeFromName node.mType)) :: s.mValues,
            mAttributeVisitCount := s.mAttributeVisitCount,
            instructions := (visitAttribute node s).state.instructions ++
              [.alloca (llvmTypeFromName node.mType),
               .call (if node.mName = "P" then "getpointpws" else "getattribute")
                 [handle, pointIndexArgument,
                  .register (visitAttribute node s).state.instructions.length
                    (.pointer (llvmTypeFromName node.mType))]] }, none⟩ := by
    unfold visitAttributeValue
    rw [if_neg hcount]
    simp only [hvalues, hknown, hcnt, hstring, Generator.emit]
    by_cases hP : node.mName = "P" <;> simp [hP]
  have hall : visitAll llvmTypeFromName baseAssign baseCrement
      [.ofAttribute node, .ofAttributeValue ⟨node⟩] s
      = visitAttributeValue llvmTypeFromName ⟨node⟩ (visitAttribute node s).state := by
    simp only [visitAll, visitPoint, hok, hvalue]
  rw [hall, hvalue]
  exact ⟨rfl, ⟨_, rfl⟩, rfl⟩

/-- C19. The pending-attribute counter starts at 0. Every visit of an attribute that is not
a string completes, pushes exactly one handle and adds exactly 1 to the counter, for the
position attribute `P` without touching the globals and otherwise with the slot of
`(name, type)` in the globals afterwards. Every value read (with a handle on the stack),
attribute assignment and attribute crement made with a counter of at least 1 takes exactly
1 from it, and at a counter of 0 assignment and crement are the visits of the base class, so
they never take from a counter of 0. Hence a sequence of visits that completes and in which
every consuming visit is matched with an earlier attribute visit leaves the counter where
the matching predicts, at 0 when it starts at 0 and all attribute visits are matched; and
an attribute visit followed by the read of its value completes with the stack one entry
higher and the counter as before. -/
theorem attributeVisitCount_invariant (llvmTypeFromName : String → LType)
    (baseAssign baseCrement : Generator → Visited) :
    Generator.new.mAttributeVisitCount = 0 ∧
    (∀ (node : Attribute) (s : Generator), node.mType ≠ "string" →
      (visitAttribute node s).abort = none ∧
      (∃ handle : Value, (visitAttribute node s).state.mValues = handle :: s.mValues) ∧
      (visitAttribute node s).state.mAttributeVisitCount = s.mAttributeVisitCount + 1 ∧
      (node.mName = "P" → (visitAttribute node s).state.globals = s.globals) ∧
      (node.mName ≠ "P" →
        getGlobalAttributeAccess node.mName node.mType
          ∈ (visitAttribute node s).state.globals)) ∧
    (∀ (node : AttributeValue) (s : Generator),
      1 ≤ s.mAttributeVisitCount → s.mValues ≠ [] →
      (visitAttributeValue llvmTypeFromName node s).state.mAttributeVisitCount + 1
        = s.mAttributeVisitCount) ∧
    (∀ (node : AssignExpression) (s : Generator),
      (1 ≤ s.mAttributeVisitCount →
        (visitAssignExpression llvmTypeFromName baseAssign node s).state.mAttributeVisitCount + 1
          = s.mAttributeVisitCount) ∧
      (s.mAttributeVisitCount = 0 →
        visitAssignExpression llvmTypeFromName baseAssign node s = baseAssign s)) ∧
    (∀ (node : Crement) (s : Generator),
      (1 ≤ s.mAttributeVisitCount →
        (visitCrement baseCrement node s).state.mAttributeVisitCount + 1
          = s.mAttributeVisitCount) ∧
      (s.mAttributeVisitCount = 0 → visitCrement baseCrement node s = baseCrement s)) ∧
    (∀ (visits : List PointVisit) (s : Generator) (n : Nat),
      pendingAfter visits s.mAttributeVisitCount = some n →
      (visitAll llvmTypeFromName baseAssign baseCrement visits s).abort = none →
      (visitAll llvmTypeFromName baseAssign baseCrement visits s).state.mAttributeVisitCount
        = n) ∧
    (∀ (node : Attribute) (s : Generator), node.mType ≠ "string" →
      (visitAll llvmTypeFromName baseAssign baseCrement
        [.ofAttribute node, .ofAttributeValue ⟨node⟩] s).abort = none ∧
      (visitAll llvmTypeFromName baseAssign baseCrement
        [.ofAttribute node, .ofAttributeValue ⟨node⟩] s).state.mValues.length
          = s.mValues.length + 1 ∧
      (visitAll llvmTypeFromName baseAssign baseCrement
        [.ofAttribute node, .ofAttributeValue ⟨node⟩] s).state.mAttributeVisitCount
          = s.mAttributeVisitCount) := by
  refine ⟨rfl, ?_, ?_, ?_, ?_, visitAll_pending llvmTypeFromName baseAssign baseCrement, ?_⟩
  · intro node s hstring
    obtain ⟨h1, h2, h3, h4, h5⟩ := visitAttribute_ok node s hstring
    exact ⟨h1, h2, h3, fun hP => (h4 hP).1, fun hP => (h5 hP).1⟩
  · intro node s hcount hstack
    exact visitAttributeValue_count llvmTypeFromName node s (by omega) hstack
  · intro node s
    exact ⟨fun hcount => visitAssignExpression_count llvmTypeFromName baseAssign node s
      (by omega), fun h0 => by simp [visitAssignExpression, h0]⟩
  · intro node s
    exact ⟨fun hcount => visitCrement_count baseCrement node s (by omega),
      fun h0 => by simp [visitCrement, h0]⟩
  · intro node s hstring
    obtain ⟨h1, ⟨location, h2⟩, h3⟩ :=
      visitAttribute_then_value llvmTypeFromName baseAssign baseCrement node s hstring
    exact ⟨h1, by rw [h2]; rfl, h3⟩

/-- Witness for C19: from the new generator, the float attribute `a` is visited and read,
then visited again and assigned from the value read. -/
theorem attributeVisitCount_invariant_witness :
    (visitAll (fun _ => .float) (fun s => ⟨s, none⟩) (fun s => ⟨s, none⟩)
      [.ofAttribute ⟨"a", "float"⟩, .ofAttributeValue ⟨⟨"a", "float"⟩⟩,
       .ofAttribute ⟨"a", "float"⟩, .ofAssignExpression ⟨⟨"a", "float"⟩⟩]
      Generator.new).state.mAttributeVisitCount = 0 ∧
    (visitAll (fun _ => .float) (fun s => ⟨s, none⟩) (fun s => ⟨s, none⟩)
      [.ofAttribute ⟨"a", "float"⟩, .ofAttributeValue ⟨⟨"a", "float"⟩⟩]
      Generator.new).state.mValues.length = 0 + 1 :=
  have h := attributeVisitCount_invariant (fun _ => .float) (fun s => ⟨s, none⟩)
    (fun s => ⟨s, none⟩)
  ⟨h.2.2.2.2.2.1
      [.ofAttribute ⟨"a", "float"⟩, .ofAttributeValue ⟨⟨"a", "float"⟩⟩,
       .ofAttribute ⟨"a", "float"⟩, .ofAssignExpression ⟨⟨"a", "float"⟩⟩]
      Generator.new 0 rfl (by decide),
   (h.2.2.2.2.2.2 ⟨"a", "float"⟩ Generator.new (by decide)).2.1⟩

/-! ### visit(AssignExpression): the value passed to the write primitive -/

theorem evalValue_allocateArray (m : Machine) (v : Value) (xs : List RVal) :
    evalValue (m.allocateArray xs) v = evalValue m v := by
  cases v <;> rfl

theorem Machine.calls_allocateArray (m : Machine) (xs : List RVal) :
    (m.allocateArray xs).calls = m.calls := rfl

theorem Machine.arguments_allocateArray (m : Machine) (xs : List RVal) :
    (m.allocateArray xs).arguments = m.arguments := rfl

/-- The cells of a freshly allocated array hold its elements. -/
theorem readArray_allocateArray (m : Machine) (xs : List RVal) :
    readArray (m.allocateArray xs).memory m.nextAddress xs.length = some xs := by
  have key : ∀ (n k : Nat), k + n = xs.length →
      readArray (m.allocateArray xs).memory (m.nextAddress + k) n = some (xs.drop k) := by
    intro n
    induction n with
    | zero =>
        intro k hk
        have : xs.length ≤ k := by omega
        simp [readArray, List.drop_eq_nil_of_le this]
    | succ n ih =>
        intro k hk
        have hlt : k < xs.length := by omega
        have hcell : (m.allocateArray xs).memory (m.nextAddress + k) = some xs[k] := by
          simp [Machine.allocateArray, hlt]
        have hrest := ih (k + 1) (by omega)
        rw [readArray, hcell, Nat.add_assoc, hrest]
        simp only
        rw [← List.drop_eq_getElem_cons hlt]
  simpa using key xs.length 0 (by omega)

theorem execConversion_load (fadd : Rat → Rat → Rat) (convert : LType → LType → RVal → RVal)
    (i : Nat) (p : Value) (m : Machine) (a : Nat) (v : RVal)
    (hp : evalValue m p = some (.ptr a)) (hv : m.memory a = some v) :
    execConversion fadd convert i (.load p) m = some (m.setRegister i v) := by
  simp [execConversion, execInstr, hp, hv]

theorem execConversion_call (fadd : Rat → Rat → Rat) (convert : LType → LType → RVal → RVal)
    (i : Nat) (f : String) (args : List Value) (m : Machine) (values : List RVal)
    (h : evalValues m args = some values) :
    execConversion fadd convert i (.call f args) m = some (m.record f values) := by
  simp [execConversion, execInstr, h]

theorem execConversion_arithmeticConversion (fadd : Rat → Rat → Rat)
    (convert : LType → LType → RVal → RVal) (i : Nat) (value : Value) (target : LType)
    (m : Machine) (v : RVal) (hv : evalValue m value = some v) :
    execConversion fadd convert i (.arithmeticConversion value target) m
      = some (m.setRegister i (convert value.type target v)) := by
  simp [execConversion, hv]

theorem execConversion_arrayIndexUnpack (fadd : Rat → Rat → Rat)
    (convert : LType → LType → RVal → RVal) (i : Nat) (p : Value) (k : Nat) (m : Machine)
    (a : Nat) (hp : evalValue m p = some (.ptr a)) :
    execConversion fadd convert i (.arrayIndexUnpack p k) m
      = some (m.setRegister i (.ptr (a + k))) := by
  simp [execConversion, hp]

theorem execConversion_arrayCast (fadd : Rat → Rat → Rat)
    (convert : LType → LType → RVal → RVal) (i : Nat) (p : Value) (target source : LType)
    (n : Nat) (m : Machine) (a : Nat) (xs : List RVal)
    (htype : p.type = .pointer (.array source n)) (hp : evalValue m p = some (.ptr a))
    (hread : readArray m.memory a n = some xs) :
    execConversion fadd convert i (.arrayCast p target) m
      = some ((m.allocateArray (xs.map (convert source target))).setRegister i
          (.ptr m.nextAddress)) := by
  simp [execConversion, htype, hp, hread]

theorem execConversion_arrayPack (fadd : Rat → Rat → Rat)
    (convert : LType → LType → RVal → RVal) (i : Nat) (value : Value) (size : Nat)
    (m : Machine) (v : RVal) (hv : evalValue m value = some v) :
    execConversion fadd convert i (.arrayPack value size) m
      = some ((m.allocateArray (List.replicate size v)).setRegister i (.ptr m.nextAddress)) := by
  simp [execConversion, hv]

/-- The attribute assignment of a numeric attribute, once the right-hand side is converted:
the call of the write primitive with the handle, the point index and the converted value. -/
theorem visitAssignExpression_converted (llvmTypeFromName : String → LType)
    (base : Generator → Visited) (node : AssignExpression) (s : Generator)
    (handlePtr rhs rhs1 : Value) (rest : List Value) (rhsType : LType) (s4 : Generator)
    (hcount : s.mAttributeVisitCount ≠ 0)
    (hstack : s.mValues = handlePtr :: rhs :: rest)
    (hhandle : handlePtr.type.isPointerTy = true)
    (hrhs : rhs.type = .pointer rhsType)
    (hknown : node.mVariable.mName = "P" ∨
      getGlobalAttributeAccess node.mVariable.mName node.mVariable.mType ∈ s.globals)
    (hnumeric : node.mVariable.mType ≠ "string")
    (hconv : convertRhs
        (assignmentTypeOf (llvmTypeFromName node.mVariable.mType) rhsType)
        (llvmTypeFromName node.mVariable.mType) rhsType rhs
        { s with mAttributeVisitCount := s.mAttributeVisitCount - 1, mValues := rhs :: rest }
      = .ok (rhs1, s4)) :
    visitAssignExpression llvmTypeFromName base node s
      = ⟨{ s4 with instructions := s4.instructions ++
            [.call (writePrimitive node) [handlePtr, pointIndexArgument, rhs1]] }, none⟩ := by
  have hrhsPtr : rhs.type.isPointerTy = true := by rw [hrhs]; rfl
  have hcont : rhs.type.getContainedType0 = rhsType := by rw [hrhs]; rfl
  unfold visitAssignExpression
  rw [if_neg hcount]
  simp only [hstack, hrhsPtr, hhandle, Bool.not_true, Bool.false_eq_true, if_false, hcont,
    hconv]
  rcases hknown with h | h
  · simp [h, hnumeric, writePrimitive, Generator.emit]
  · by_cases hP : node.mVariable.mName = "P"
    · simp [hP, hnumeric, writePrimitive, Generator.emit]
    · simp [h, hP, hnumeric, writePrimitive, Generator.emit]

/-- The rule scalar = scalar: the right-hand scalar is loaded, converted to the left type
and passed to the write primitive. -/
theorem assign_scalar_scalar (fadd : Rat → Rat → Rat) (convert : LType → LType → RVal → RVal)
    (llvmTypeFromName : String → LType) (base : Generator → Visited) (node : AssignExpression)
    (s : Generator) (handlePtr rhs : Value) (rest : List Value) (L R : LType) (m : Machine)
    (a : Nat) (x h idx : RVal)
    (hcount : s.mAttributeVisitCount ≠ 0) (hstack : s.mValues = handlePtr :: rhs :: rest)
    (hhandle : handlePtr.type.isPointerTy = true)
    (hknown : node.mVariable.mName = "P" ∨
      getGlobalAttributeAccess node.mVariable.mName node.mVariable.mType ∈ s.globals)
    (hnumeric : node.mVariable.mType ≠ "string")
    (hscope : handlePtr.definedBefore s.instructions.length)
    (hh : evalValue m handlePtr = some h) (hidx : m.arguments "point_index" = some idx)
    (hptr : evalValue m rhs = some (.ptr a))
    (hlhs : llvmTypeFromName node.mVariable.mType = L) (hrhs : rhs.type = .pointer R)
    (hL : isCharType L = false) (hLa : isArrayType L = false) (hRa : isArrayType R = false)
    (hmem : m.memory a = some x) :
    ∃ (emitted : List Instr) (m1 : Machine),
      visitAssignExpression llvmTypeFromName base node s
        = ⟨{ mAttributeVisitCount := s.mAttributeVisitCount - 1, mValues := rhs :: rest,
             instructions := s.instructions ++ emitted, globals := s.globals }, none⟩ ∧
      runConversions fadd convert s.instructions.length emitted m = some m1 ∧
      m1.calls = m.calls ++ [(writePrimitive node, [h, idx, convert R L x])] := by
  have hclass : assignmentTypeOf L R = .SCALAR_EQ_SCALAR := by
    simp [assignmentTypeOf, hL, hLa, hRa]
  have hvisit := visitAssignExpression_converted llvmTypeFromName base node s handlePtr rhs
    (.register (s.instructions.length + 1) L) rest R
    { mAttributeVisitCount := s.mAttributeVisitCount - 1, mValues := rhs :: rest,
      instructions := s.instructions ++ [.load rhs] ++
        [.arithmeticConversion (.register s.instructions.length R) L],
      globals := s.globals }
    hcount hstack hhandle hrhs hknown hnumeric
    (by simp [hlhs, hclass, convertRhs, Generator.emit])
  have s1 := execConversion_load fadd convert s.instructions.length rhs m a x hptr hmem
  have s2 := execConversion_arithmeticConversion fadd convert (s.instructions.length + 1)
    (.register s.instructions.length R) L (m.setRegister s.instructions.length x) x
    (by simp [evalValue_register])
  have s3 := execConversion_call fadd convert (s.instructions.length + 2) (writePrimitive node)
    [handlePtr, pointIndexArgument, .register (s.instructions.length + 1) L]
    ((m.setRegister s.instructions.length x).setRegister (s.instructions.length + 1)
      (convert R L x)) [h, idx, convert R L x]
    (by simp [evalValues, evalValue_setRegister _ _ _ _ _ hscope, hh, hidx, pointIndexArgument,
          evalValue_register, evalValue_argument, Machine.arguments_setRegister])
  simp only [Value.type_register] at s2
  refine ⟨[.load rhs, .arithmeticConversion (.register s.instructions.length R) L,
      .call (writePrimitive node)
        [handlePtr, pointIndexArgument, .register (s.instructions.length + 1) L]],
      (((m.setRegister s.instructions.length x).setRegister (s.instructions.length + 1)
        (convert R L x)).record (writePrimitive node) [h, idx, convert R L x]), ?_, ?_, ?_⟩
  · rw [hvisit]
    simp
  · simp only [runConversions, s1, s2, s3]
  · rfl

/-- The rule scalar = array: the element at index 0 of the right-hand array is loaded,
converted to the left type and passed to the write primitive. -/
theorem assign_scalar_array (fadd : Rat → Rat → Rat) (convert : LType → LType → RVal → RVal)
    (llvmTypeFromName : String → LType) (base : Generator → Visited) (node : AssignExpression)
    (s : Generator) (handlePtr rhs : Value) (rest : List Value) (L RE : LType) (M : Nat)
    (m : Machine) (a : Nat) (x h idx : RVal)
    (hcount : s.mAttributeVisitCount ≠ 0) (hstack : s.mValues = handlePtr :: rhs :: rest)
    (hhandle : handlePtr.type.isPointerTy = true)
    (hknown : node.mVariable.mName = "P" ∨
      getGlobalAttributeAccess node.mVariable.mName node.mVariable.mType ∈ s.globals)
    (hnumeric : node.mVariable.mType ≠ "string")
    (hscope : handlePtr.definedBefore s.instructions.length)
    (hh : evalValue m handlePtr = some h) (hidx : m.arguments "point_index" = some idx)
    (hptr : evalValue m rhs = some (.ptr a))
    (hlhs : llvmTypeFromName node.mVariable.mType = L)
    (hrhs : rhs.type = .pointer (.array RE M))
    (hL : isCharType L = false) (hLa : isArrayType L = false)
    (hmem : m.memory a = some x) :
    ∃ (emitted : List Instr) (m1 : Machine),
      visitAssignExpression llvmTypeFromName base node s
        = ⟨{ mAttributeVisitCount := s.mAttributeVisitCount - 1, mValues := rhs :: rest,
             instructions := s.instructions ++ emitted, globals := s.globals }, none⟩ ∧
      runConversions fadd convert s.instructions.length emitted m = some m1 ∧
      m1.calls = m.calls ++ [(writePrimitive node, [h, idx, convert RE L x])] := by
  have hclass : assignmentTypeOf L (.array RE M) = .SCALAR_EQ_ARRAY := by
    have hRa : isArrayType (.array RE M) = true := rfl
    simp only [assignmentTypeOf, hL, hLa, hRa]
    simp
  have hvisit := visitAssignExpression_converted llvmTypeFromName base node s handlePtr rhs
    (.register (s.instructions.length + 2) L) rest (.array RE M)
    { mAttributeVisitCount := s.mAttributeVisitCount - 1, mValues := rhs :: rest,
      instructions := s.instructions ++ [.arrayIndexUnpack rhs 0] ++
        [.load (.register s.instructions.length (.pointer RE))] ++
        [.arithmeticConversion (.register (s.instructions.length + 1) RE) L],
      globals := s.globals }
    hcount hstack hhandle hrhs hknown hnumeric
    (by simp [hlhs, hclass, convertRhs, Generator.emit, LType.getArrayElementType])
  have s1 := execConversion_arrayIndexUnpack fadd convert s.instructions.length rhs 0 m a hptr
  have s2 := execConversion_load fadd convert (s.instructions.length + 1)
    (.register s.instructions.length (.pointer RE))
    (m.setRegister s.instructions.length (.ptr (a + 0))) a x
    (by simp [evalValue_register]) (by simpa [Machine.memory_setRegister] using hmem)
  have s3 := execConversion_arithmeticConversion fadd convert (s.instructions.length + 2)
    (.register (s.instructions.length + 1) RE) L
    ((m.setRegister s.instructions.length (.ptr (a + 0))).setRegister
      (s.instructions.length + 1) x) x
    (by simp [evalValue_register])
  have s4 := execConversion_call fadd convert (s.instructions.length + 3) (writePrimitive node)
    [handlePtr, pointIndexArgument, .register (s.instructions.length + 2) L]
    (((m.setRegister s.instructions.length (.ptr (a + 0))).setRegister
      (s.instructions.length + 1) x).setRegister (s.instructions.length + 2)
      (convert RE L x)) [h, idx, convert RE L x]
    (by simp [evalValues, evalValue_setRegister _ _ _ _ _ hscope, hh, hidx, pointIndexArgument,
          evalValue_register, evalValue_argument, Machine.arguments_setRegister])
  simp only [Value.type_register] at s3
  refine ⟨[.arrayIndexUnpack rhs 0, .load (.register s.instructions.length (.pointer RE)),
      .arithmeticConversion (.register (s.instructions.length + 1) RE) L,
      .call (writePrimitive node)
        [handlePtr, pointIndexArgument, .register (s.instructions.length + 2) L]],
      ((((m.setRegister s.instructions.length (.ptr (a + 0))).setRegister
        (s.instructions.length + 1) x).setRegister (s.instructions.length + 2)
        (convert RE L x)).record (writePrimitive node) [h, idx, convert RE L x]), ?_, ?_, ?_⟩
  · rw [hvisit]
    simp
  · simp only [runConversions, s1, s2, s3, s4]
  · rfl

/-- The rule array = scalar: the right-hand scalar is loaded, converted to the left element
type and packed into a new array of the left size, whose location is passed to the write
primitive. -/
theorem assign_array_scalar (fadd : Rat → Rat → Rat) (convert : LType → LType → RVal → RVal)
    (llvmTypeFromName : String → LType) (base : Generator → Visited) (node : AssignExpression)
    (s : Generator) (handlePtr rhs : Value) (rest : List Value) (LE R : LType) (N : Nat)
    (m : Machine) (a : Nat) (x h idx : RVal)
    (hcount : s.mAttributeVisitCount ≠ 0) (hstack : s.mValues = handlePtr :: rhs :: rest)
    (hhandle : handlePtr.type.isPointerTy = true)
    (hknown : node.mVariable.mName = "P" ∨
      getGlobalAttributeAccess node.mVariable.mName node.mVariable.mType ∈ s.globals)
    (hnumeric : node.mVariable.mType ≠ "string")
    (hscope : handlePtr.definedBefore s.instructions.length)
    (hh : evalValue m handlePtr = some h) (hidx : m.arguments "point_index" = some idx)
    (hptr : evalValue m rhs = some (.ptr a))
    (hlhs : llvmTypeFromName node.mVariable.mType = .array LE N)
    (hrhs : rhs.type = .pointer R) (hRa : isArrayType R = false)
    (hmem : m.memory a = some x) :
    ∃ (emitted : List Instr) (m1 : Machine),
      visitAssignExpression llvmTypeFromName base node s
        = ⟨{ mAttributeVisitCount := s.mAttributeVisitCount - 1, mValues := rhs :: rest,
             instructions := s.instructions ++ emitted, globals := s.globals }, none⟩ ∧
      runConversions fadd convert s.instructions.length emitted m = some m1 ∧
      m1.calls = m.calls ++ [(writePrimitive node, [h, idx, .ptr m.nextAddress])] ∧
      readArray m1.memory m.nextAddress N = some (List.replicate N (convert R LE x)) := by
  have hclass : assignmentTypeOf (.array LE N) R = .ARRAY_EQ_SCALAR := by
    have hLa : isArrayType (.array LE N) = true := rfl
    have hL : isCharType (.array LE N) = false := by simp [isCharType]
    simp only [assignmentTypeOf, hL, hLa, hRa]
    simp
  have hvisit := visitAssignExpression_converted llvmTypeFromName base node s handlePtr rhs
    (.register (s.instructions.length + 2) (.pointer (.array LE N))) rest R
    { mAttributeVisitCount := s.mAttributeVisitCount - 1, mValues := rhs :: rest,
      instructions := s.instructions ++ [.load rhs] ++
        [.arithmeticConversion (.register s.instructions.length R) LE] ++
        [.arrayPack (.register (s.instructions.length + 1) LE) N],
      globals := s.globals }
    hcount hstack hhandle hrhs hknown hnumeric
    (by simp [hlhs, hclass, convertRhs, Generator.emit, LType.getArrayElementType,
          LType.getArrayNumElements])
  have s1 := execConversion_load fadd convert s.instructions.length rhs m a x hptr hmem
  have s2 := execConversion_arithmeticConversion fadd convert (s.instructions.length + 1)
    (.register s.instructions.length R) LE (m.setRegister s.instructions.length x) x
    (by simp [evalValue_register])
  simp only [Value.type_register] at s2
  have s3 := execConversion_arrayPack fadd convert (s.instructions.length + 2)
    (.register (s.instructions.length + 1) LE) N
    ((m.setRegister s.instructions.length x).setRegister (s.instructions.length + 1)
      (convert R LE x)) (convert R LE x)
    (by simp [evalValue_register])
  simp only [Machine.nextAddress_setRegister] at s3
  have s4 := execConversion_call fadd convert (s.instructions.length + 3) (writePrimitive node)
    [handlePtr, pointIndexArgument,
      .register (s.instructions.length + 2) (.pointer (.array LE N))]
    ((((m.setRegister s.instructions.length x).setRegister (s.instructions.length + 1)
      (convert R LE x)).allocateArray (List.replicate N (convert R LE x))).setRegister
      (s.instructions.length + 2) (.ptr m.nextAddress)) [h, idx, .ptr m.nextAddress]
    (by simp [evalValues, evalValue_setRegister _ _ _ _ _ hscope, evalValue_allocateArray, hh,
          hidx, pointIndexArgument, evalValue_register, evalValue_argument,
          Machine.arguments_setRegister, Machine.arguments_allocateArray])
  refine ⟨[.load rhs, .arithmeticConversion (.register s.instructions.length R) LE,
      .arrayPack (.register (s.instructions.length + 1) LE) N,
      .call (writePrimitive node)
        [handlePtr, pointIndexArgument,
          .register (s.instructions.length + 2) (.pointer (.array LE N))]],
      (((((m.setRegister s.instructions.length x).setRegister (s.instructions.length + 1)
        (convert R LE x)).allocateArray (List.replicate N (convert R LE x))).setRegister
        (s.instructions.length + 2) (.ptr m.nextAddress)).record (writePrimitive node)
        [h, idx, .ptr m.nextAddress]), ?_, ?_, ?_, ?_⟩
  · rw [hvisit]
    simp
  · simp only [runConversions, s1, s2, s3, s4]
  · rfl
  · have hread := readArray_allocateArray
      ((m.setRegister s.instructions.length x).setRegister (s.instructions.length + 1)
        (convert R LE x)) (List.replicate N (convert R LE x))
    simp only [List.length_replicate, Machine.nextAddress_setRegister] at hread
    exact hread

/-- The rule array = array of the same size: the right-hand array is cast element by
element to the left element type into a new array, whose location is passed to the write
primitive. -/
theorem assign_array_array (fadd : Rat → Rat → Rat) (convert : LType → LType → RVal → RVal)
    (llvmTypeFromName : String → LType) (base : Generator → Visited) (node : AssignExpression)
    (s : Generator) (handlePtr rhs : Value) (rest : List Value) (LE RE : LType) (N : Nat)
    (m : Machine) (a : Nat) (xs : List RVal) (h idx : RVal)
    (hcount : s.mAttributeVisitCount ≠ 0) (hstack : s.mValues = handlePtr :: rhs :: rest)
    (hhandle : handlePtr.type.isPointerTy = true)
    (hknown : node.mVariable.mName = "P" ∨
      getGlobalAttributeAccess node.mVariable.mName node.mVariable.mType ∈ s.globals)
    (hnumeric : node.mVariable.mType ≠ "string")
    (hscope : handlePtr.definedBefore s.instructions.length)
    (hh : evalValue m handlePtr = some h) (hidx : m.arguments "point_index" = some idx)
    (hptr : evalValue m rhs = some (.ptr a))
    (hlhs : llvmTypeFromName node.mVariable.mType = .array LE N)
    (hrhs : rhs.type = .pointer (.array RE N))
    (hread : readArray m.memory a N = some xs) :
    ∃ (emitted : List Instr) (m1 : Machine),
      visitAssignExpression llvmTypeFromName base node s
        = ⟨{ mAttributeVisitCount := s.mAttributeVisitCount - 1, mValues := rhs :: rest,
             instructions := s.instructions ++ emitted, globals := s.globals }, none⟩ ∧
      runConversions fadd convert s.instructions.length emitted m = some m1 ∧
      m1.calls = m.calls ++ [(writePrimitive node, [h, idx, .ptr m.nextAddress])] ∧
      readArray m1.memory m.nextAddress (xs.map (convert RE LE)).length
        = some (xs.map (convert RE LE)) := by
  have hclass : assignmentTypeOf (.array LE N) (.array RE N) = .ARRAY_EQ_ARRAY := by
    simp [assignmentTypeOf, isCharType, isArrayType, LType.isArrayTy]
  have hvisit := visitAssignExpression_converted llvmTypeFromName base node s handlePtr rhs
    (.register s.instructions.length (.pointer (.array LE N))) rest (.array RE N)
    { mAttributeVisitCount := s.mAttributeVisitCount - 1, mValues := rhs :: rest,
      instructions := s.instructions ++ [.arrayCast rhs LE],
      globals := s.globals }
    hcount hstack hhandle hrhs hknown hnumeric
    (by simp [hlhs, hclass, convertRhs, Generator.emit, LType.getArrayElementType,
          LType.getArrayNumElements])
  have s1 := execConversion_arrayCast fadd convert s.instructions.length rhs LE RE N m a xs
    hrhs hptr hread
  have s2 := execConversion_call fadd convert (s.instructions.length + 1) (writePrimitive node)
    [handlePtr, pointIndexArgument, .register s.instructions.length (.pointer (.array LE N))]
    ((m.allocateArray (xs.map (convert RE LE))).setRegister s.instructions.length
      (.ptr m.nextAddress)) [h, idx, .ptr m.nextAddress]
    (by simp [evalValues, evalValue_setRegister _ _ _ _ _ hscope, evalValue_allocateArray, hh,
          hidx, pointIndexArgument, evalValue_register, evalValue_argument,
          Machine.arguments_setRegister, Machine.arguments_allocateArray])
  refine ⟨[.arrayCast rhs LE,
      .call (writePrimitive node)
        [handlePtr, pointIndexArgument,
          .register s.instructions.length (.pointer (.array LE N))]],
      (((m.allocateArray (xs.map (convert RE LE))).setRegister s.instructions.length
        (.ptr m.nextAddress)).record (writePrimitive node) [h, idx, .ptr m.nextAddress]),
      ?_, ?_, ?_, ?_⟩
  · rw [hvisit]
    simp
  · simp only [runConversions, s1, s2]
  · rfl
  · exact readArray_allocateArray m (xs.map (convert RE LE))

theorem readArray_length (memory : Nat → Option RVal) (n a : Nat) (xs : List RVal)
    (h : readArray memory a n = some xs) : xs.length = n := by
  induction n generalizing a xs with
  | zero =>
      simp only [readArray, Option.some.injEq] at h
      rw [← h]
      rfl
  | succ n ih =>
      rw [readArray] at h
      cases hx : memory a with
      | none => simp [hx] at h
      | some x =>
          cases hrest : readArray memory (a + 1) n with
          | none => simp [hx, hrest] at h
          | some ys =>
              simp only [hx, hrest, Option.some.injEq] at h
              rw [← h, List.length_cons, ih (a + 1) ys hrest]

theorem readArray_head (memory : Nat → Option RVal) (n a : Nat) (xs : List RVal) (x : RVal)
    (h : readArray memory a n = some xs) (hx : xs[0]? = some x) : memory a = some x := by
  cases n with
  | zero =>
      simp only [readArray, Option.some.injEq] at h
      rw [← h] at hx
      simp at hx
  | succ n =>
      rw [readArray] at h
      cases hy : memory a with
      | none => simp [hy] at h
      | some y =>
          cases hrest : readArray memory (a + 1) n with
          | none => simp [hy, hrest] at h
          | some ys =>
              simp only [hy, hrest, Option.some.injEq] at h
              rw [← h] at hx
              simpa using hx

/-- C16. A successful numeric attribute assignment (the visit counter is positive, the
handle and the right-hand location are on the stack, the attribute is `P` or registered,
its type is not `string`) emits a conversion followed by one call of the write primitive,
and when the emitted code runs, the value passed to the primitive follows the conversion
table: array(N) = array(N) passes a new array holding the right elements each converted to
the left element type; scalar = array passes the right element at index 0 converted to the
left scalar type; array(N) = scalar passes a new array of exactly N elements, each the right
scalar converted to the left element type; scalar = scalar passes the right scalar
converted to the left scalar type. -/
theorem visitAssignExpression_conversion (fadd : Rat → Rat → Rat)
    (convert : LType → LType → RVal → RVal)
    (llvmTypeFromName : String → LType) (base : Generator → Visited) (node : AssignExpression)
    (s : Generator) (handlePtr rhs : Value) (rest : List Value)
    (m : Machine) (a : Nat) (h idx : RVal)
    (hcount : s.mAttributeVisitCount ≠ 0) (hstack : s.mValues = handlePtr :: rhs :: rest)
    (hhandle : handlePtr.type.isPointerTy = true)
    (hknown : node.mVariable.mName = "P" ∨
      getGlobalAttributeAccess node.mVariable.mName node.mVariable.mType ∈ s.globals)
    (hnumeric : node.mVariable.mType ≠ "string")
    (hscope : handlePtr.definedBefore s.instructions.length)
    (hh : evalValue m handlePtr = some h) (hidx : m.arguments "point_index" = some idx)
    (hptr : evalValue m rhs = some (.ptr a)) :
    (∀ (LE RE : LType) (N : Nat) (xs : List RVal),
      llvmTypeFromName node.mVariable.mType = .array LE N →
      rhs.type = .pointer (.array RE N) →
      readArray m.memory a N = some xs →
      ∃ (emitted : List Instr) (m1 : Machine),
        visitAssignExpression llvmTypeFromName base node s
          = ⟨{ mAttributeVisitCount := s.mAttributeVisitCount - 1, mValues := rhs :: rest,
               instructions := s.instructions ++ emitted, globals := s.globals }, none⟩ ∧
        runConversions fadd convert s.instructions.length emitted m = some m1 ∧
        m1.calls = m.calls ++ [(writePrimitive node, [h, idx, .ptr m.nextAddress])] ∧
        readArray m1.memory m.nextAddress N = some (xs.map (convert RE LE))) ∧
    (∀ (L RE : LType) (M : Nat) (xs : List RVal) (x : RVal),
      llvmTypeFromName node.mVariable.mType = L →
      isCharType L = false → isArrayType L = false →
      rhs.type = .pointer (.array RE M) →
      readArray m.memory a M = some xs → xs[0]? = some x →
      ∃ (emitted : List Instr) (m1 : Machine),
        visitAssignExpression llvmTypeFromName base node s
          = ⟨{ mAttributeVisitCount := s.mAttributeVisitCount - 1, mValues := rhs :: rest,
               instructions := s.instructions ++ emitted, globals := s.globals }, none⟩ ∧
        runConversions fadd convert s.instructions.length emitted m = some m1 ∧
        m1.calls = m.calls ++ [(writePrimitive node, [h, idx, convert RE L x])]) ∧
    (∀ (LE R : LType) (N : Nat) (x : RVal),
      llvmTypeFromName node.mVariable.mType = .array LE N →
      rhs.type = .pointer R → isArrayType R = false →
      m.memory a = some x →
      ∃ (emitted : List Instr) (m1 : Machine),
        visitAssignExpression llvmTypeFromName base node s
          = ⟨{ mAttributeVisitCount := s.mAttributeVisitCount - 1, mValues := rhs :: rest,
               instructions := s.instructions ++ emitted, globals := s.globals }, none⟩ ∧
        runConversions fadd convert s.instructions.length emitted m = some m1 ∧
        m1.calls = m.calls ++ [(writePrimitive node, [h, idx, .ptr m.nextAddress])] ∧
        readArray m1.memory m.nextAddress N = some (List.replicate N (convert R LE x))) ∧
    (∀ (L R : LType) (x : RVal),
      llvmTypeFromName node.mVariable.mType = L →
      isCharType L = false → isArrayType L = false →
      rhs.type = .pointer R → isArrayType R = false →
      m.memory a = some x →
      ∃ (emitted : List Instr) (m1 : Machine),
        visitAssignExpression llvmTypeFromName base node s
          = ⟨{ mAttributeVisitCount := s.mAttributeVisitCount - 1, mValues := rhs :: rest,
               instructions := s.instructions ++ emitted, globals := s.globals }, none⟩ ∧
        runConversions fadd convert s.instructions.length emitted m = some m1 ∧
        m1.calls = m.calls ++ [(writePrimitive node, [h, idx, convert R L x])]) := by
  refine ⟨?_, ?_, ?_, ?_⟩
  · intro LE RE N xs hlhs hrhs hread
    obtain ⟨emitted, m1, hvisit, hrun, hcalls, harray⟩ :=
      assign_array_array fadd convert llvmTypeFromName base node s handlePtr rhs rest LE RE N
        m a xs h idx hcount hstack hhandle hknown hnumeric hscope hh hidx hptr hlhs hrhs hread
    rw [List.length_map, readArray_length m.memory N a xs hread] at harray
    exact ⟨emitted, m1, hvisit, hrun, hcalls, harray⟩
  · intro L RE M xs x hlhs hL hLa hrhs hread hx
    exact assign_scalar_array fadd convert llvmTypeFromName base node s handlePtr rhs rest L RE
      M m a x h idx hcount hstack hhandle hknown hnumeric hscope hh hidx hptr hlhs hrhs hL hLa
      (readArray_head m.memory M a xs x hread hx)
  · intro LE R N x hlhs hrhs hRa hmem
    exact assign_array_scalar fadd convert llvmTypeFromName base node s handlePtr rhs rest LE R
      N m a x h idx hcount hstack hhandle hknown hnumeric hscope hh hidx hptr hlhs hrhs hRa hmem
  · intro L R x hlhs hL hLa hrhs hRa hmem
    exact assign_scalar_scalar fadd convert llvmTypeFromName base node s handlePtr rhs rest L R
      m a x h idx hcount hstack hhandle hknown hnumeric hscope hh hidx hptr hlhs hrhs hL hLa hRa
      hmem

/-- Witness for C16: the assignment `v = 2.0` to the 3-component float attribute `v` passes
an array holding 2.0 three times to `setattribute`. -/
theorem visitAssignExpression_conversion_witness :
    ∃ (emitted : List Instr) (m1 : Machine),
      visitAssignExpression (fun _ => .array .float 3) (fun s => ⟨s, none⟩)
          ⟨⟨"v", "vec3s"⟩⟩ assignExampleState
        = ⟨{ mAttributeVisitCount := 0, mValues := [.register 0 (.pointer .float)],
             instructions := assignExampleState.instructions ++ emitted,
             globals := ["_vec3s@v"] }, none⟩ ∧
      runConversions (fun x y => x + y) (fun _ _ v => v) 2 emitted assignExampleMachine
        = some m1 ∧
      m1.calls = [("setattribute", [.ptr 100, .int 7, .ptr 1])] ∧
      readArray m1.memory 1 3 = some [.fp 2, .fp 2, .fp 2] :=
  (visitAssignExpression_conversion (fun x y => x + y) (fun _ _ v => v)
    (fun _ => .array .float 3) (fun s => ⟨s, none⟩) ⟨⟨"v", "vec3s"⟩⟩ assignExampleState
    (.register 1 (.pointer (.integer 8))) (.register 0 (.pointer .float)) []
    assignExampleMachine 0 (.ptr 100) (.int 7)
    (by decide) rfl rfl (Or.inr (by decide)) (by decide) (Nat.lt_succ_self 1) rfl rfl rfl).2.2.1
    .float .float 3 (.fp 2) rfl rfl rfl rfl

/-! ### Paired crements of a floating-point attribute -/

/-- For a floating-point type the crement computes the floating-point sum with 1 or -1. -/
theorem crementResult_fp (fadd : Rat → Rat → Rat) (t : LType) (x : Rat)
    (ht : t = .float ∨ t = .double) :
    crementResult fadd t .Increment (.fp x) = some (.fp (fadd x 1)) ∧
    crementResult fadd t .Decrement (.fp x) = some (.fp (fadd x (-1))) := by
  rcases ht with rfl | rfl
  · exact ⟨crementResult_eq_spec fadd .float (.fp x) .Increment trivial (by decide),
      crementResult_eq_spec fadd .float (.fp x) .Decrement trivial (by decide)⟩
  · exact ⟨crementResult_eq_spec fadd .double (.fp x) .Increment trivial (by decide),
      crementResult_eq_spec fadd .double (.fp x) .Decrement trivial (by decide)⟩

/-- Counterexample for C12. The increment followed by the decrement does not restore every
floating-point value:
16777216 (2 ^ 24) is a value of the 32-bit type, the sum with 1 is half way between two
values and rounds back to 16777216, and the decrement then gives 16777215; in the same way
the 64-bit value 9007199254740992 (2 ^ 53) ends as 9007199254740991. -/
theorem crementResult_float_not_restored :
    roundOf .float 16777216 = 16777216 ∧
    (crementResult (faddOf .float) .float .Increment (.fp 16777216)).bind
        (crementResult (faddOf .float) .float .Decrement) = some (.fp 16777215) ∧
    (crementResult (faddOf .float) .float .Increment (.fp 16777216)).bind
        (crementResult (faddOf .float) .float .Decrement) ≠ some (.fp 16777216) ∧
    roundOf .double 9007199254740992 = 9007199254740992 ∧
    (crementResult (faddOf .double) .double .Increment (.fp 9007199254740992)).bind
        (crementResult (faddOf .double) .double .Decrement) = some (.fp 9007199254740991) ∧
    (crementResult (faddOf .double) .double .Increment (.fp 9007199254740992)).bind
        (crementResult (faddOf .double) .double .Decrement)
      ≠ some (.fp 9007199254740992) := by
  have f1 : faddOf .float 16777216 1 = 16777216 := by decide!
  have f2 : faddOf .float 16777216 (-1) = 16777215 := by decide!
  have d1 : faddOf .double 9007199254740992 1 = 9007199254740992 := by decide!
  have d2 : faddOf .double 9007199254740992 (-1) = 9007199254740991 := by decide!
  have hf : (crementResult (faddOf .float) .float .Increment (.fp 16777216)).bind
      (crementResult (faddOf .float) .float .Decrement) = some (.fp 16777215) := by
    rw [(crementResult_fp (faddOf .float) .float 16777216 (Or.inl rfl)).1, f1, Option.some_bind,
      (crementResult_fp (faddOf .float) .float 16777216 (Or.inl rfl)).2, f2]
  have hd : (crementResult (faddOf .double) .double .Increment (.fp 9007199254740992)).bind
      (crementResult (faddOf .double) .double .Decrement)
        = some (.fp 9007199254740991) := by
    rw [(crementResult_fp (faddOf .double) .double 9007199254740992 (Or.inr rfl)).1, d1,
      Option.some_bind,
      (crementResult_fp (faddOf .double) .double 9007199254740992 (Or.inr rfl)).2, d2]
  refine ⟨by decide!, hf, ?_, by decide!, hd, ?_⟩
  · rw [hf]
    simp only [ne_eq, Option.some.injEq, RVal.fp.injEq]
    norm_num
  · rw [hd]
    simp only [ne_eq, Option.some.injEq, RVal.fp.injEq]
    norm_num

/-- C12 (amended). For the 32-bit and the 64-bit floating-point type and every value `x` of
the type whose sum with 1 is again a value of the type (the increment is exact), the
crement increment computes `x + 1` and the increment followed by the decrement restores
`x`. -/
theorem crementResult_float_roundtrip (t : LType) (x : Rat)
    (ht : t = .float ∨ t = .double)
    (hx : roundOf t x = x) (hexact : roundOf t (x + 1) = x + 1) :
    crementResult (faddOf t) t .Increment (.fp x) = some (.fp (x + 1)) ∧
    (crementResult (faddOf t) t .Increment (.fp x)).bind
        (crementResult (faddOf t) t .Decrement) = some (.fp x) := by
  have hinc : faddOf t x 1 = x + 1 := hexact
  have hdec : faddOf t (x + 1) (-1) = x := by
    unfold faddOf
    rw [add_neg_cancel_right]
    exact hx
  rw [(crementResult_fp (faddOf t) t x ht).1, hinc, Option.some_bind,
    (crementResult_fp (faddOf t) t (x + 1) ht).2, hdec]
  exact ⟨rfl, rfl⟩

/-- Witness for C12: the 32-bit value 5, whose increment 6 is exact, and the 64-bit value
1/4, whose increment 5/4 is exact. -/
theorem crementResult_float_roundtrip_witness :
    ((crementResult (faddOf .float) .float .Increment (.fp 5)
        = some (.fp (5 + 1))) ∧
      (crementResult (faddOf .float) .float .Increment (.fp 5)).bind
        (crementResult (faddOf .float) .float .Decrement) = some (.fp 5)) ∧
    ((crementResult (faddOf .double) .double .Increment (.fp (1 / 4))
        = some (.fp (1 / 4 + 1))) ∧
      (crementResult (faddOf .double) .double .Increment (.fp (1 / 4))).bind
        (crementResult (faddOf .double) .double .Decrement) = some (.fp (1 / 4))) :=
  ⟨crementResult_float_roundtrip .float 5 (Or.inl rfl) (by decide!) (by decide!),
   crementResult_float_roundtrip .double (1 / 4) (Or.inr rfl) (by decide!) (by decide!)⟩

end OpenVDBAX
